import Mathlib

/-!
Verification of the factory-grid simulator core (grid model, A* belt router,
scoring, optimizer skeleton) against its natural-language specification.

The TypeScript sources are shallowly embedded: JavaScript `Map`s become
association lists with insertion-order semantics (`set` replaces in place,
otherwise appends; `delete` filters the key out), JavaScript numbers that only
ever hold exact dyadic/rational values (path costs `1`, `2`, `0.5`, score
weights `1.0`, `0.5`, `0.3`) become `ℚ`, tile coordinates become `Int`, and
string keys built by `tileKey`/`stateKey` (which are injective formatters)
become the corresponding tuples.
-/

set_option maxHeartbeats 1000000

namespace FactorySim

/-- Cardinal movement direction (types.ts `Direction`). -/
inductive Direction where
  | UP
  | DOWN
  | LEFT
  | RIGHT
deriving DecidableEq, Repr

/-- Machine orientation: the direction the input ports face (types.ts `Orientation`). -/
inductive Orientation where
  | NORTH
  | EAST
  | SOUTH
  | WEST
deriving DecidableEq, Repr

/-- Cell occupancy tag (types.ts `CellType`). -/
inductive CellType where
  | EMPTY
  | MACHINE
  | BELT
deriving DecidableEq, Repr

/-- Machine footprint type (types.ts `MachineType`); `M3x1` is the immovable anchor. -/
inductive MachineType where
  | M3x3
  | M6x4
  | M5x5
  | M3x1
deriving DecidableEq, Repr

/-- Port role (types.ts `PortType`). -/
inductive PortType where
  | INPUT
  | OUTPUT
deriving DecidableEq, Repr

/-- Lookup in a JavaScript-`Map`-like association list. -/
def jget {κ α : Type _} [DecidableEq κ] (m : List (κ × α)) (k : κ) : Option α :=
  match m with
  | [] => none
  | (k', v) :: t => if k' = k then some v else jget t k

/-- JavaScript `Map.set`: replace the value in place if the key exists, else append. -/
def jset {κ α : Type _} [DecidableEq κ] (m : List (κ × α)) (k : κ) (v : α) : List (κ × α) :=
  match m with
  | [] => [(k, v)]
  | (k', v') :: t => if k' = k then (k, v) :: t else (k', v') :: jset t k v

/-- JavaScript `Map.delete`: remove the entry with the given key. -/
def jdel {κ α : Type _} [DecidableEq κ] (m : List (κ × α)) (k : κ) : List (κ × α) :=
  m.filter (fun e => !(e.1 = k))

/-- Key list of an association map, in insertion order. -/
def jkeys {κ α : Type _} (m : List (κ × α)) : List κ :=
  m.map Prod.fst

/-- Machine record (types.ts `Machine`). -/
structure Machine where
  id : String
  type : MachineType
  x : Int
  y : Int
  orientation : Orientation
deriving DecidableEq, Repr

/-- Port record (types.ts `Port`). -/
structure Port where
  machineId : String
  portType : PortType
  index : Nat
  x : Int
  y : Int
  approachDirection : Direction
deriving DecidableEq, Repr

/-- Connection record (types.ts `Connection`). -/
structure Connection where
  id : String
  sourceMachineId : String
  sourcePortIndex : Nat
  targetMachineId : String
  targetPortIndex : Nat
deriving DecidableEq, Repr

/-- One belt tile of a routed path (types.ts `BeltSegment`). -/
structure BeltSegment where
  x : Int
  y : Int
  fromDirection : Option Direction
  toDirection : Option Direction
deriving DecidableEq, Repr

/-- A routed belt path for one connection (types.ts `BeltPath`). -/
structure BeltPath where
  connectionId : String
  segments : List BeltSegment
deriving DecidableEq, Repr

/-- Grid cell (types.ts `GridCell`). -/
structure GridCell where
  type : CellType
  machineId : Option String
  beltConnectionIds : List String
deriving DecidableEq, Repr

/-- Per-tile belt usage counters (types.ts `BeltTileUsage`); JavaScript numbers
that the code decrements before clamping, hence `Int`. -/
structure BeltTileUsage where
  horizontalCount : Int
  verticalCount : Int
  cornerCount : Int
deriving DecidableEq, Repr

/-- Full grid state (types.ts `GridState`).  The `tileKey` strings are replaced
by the `(x, y)` pairs they injectively encode. -/
structure GridState where
  width : Nat
  height : Nat
  cells : List (List GridCell)
  machines : List (String × Machine)
  connections : List (String × Connection)
  beltPaths : List (String × BeltPath)
  beltTileUsage : List ((Int × Int) × BeltTileUsage)
deriving DecidableEq, Repr

/-- Base footprint dimensions (types.ts `MACHINE_DIMS`). -/
def MACHINE_DIMS : MachineType → Nat × Nat
  | MachineType.M3x3 => (3, 3)
  | MachineType.M6x4 => (6, 4)
  | MachineType.M5x5 => (5, 5)
  | MachineType.M3x1 => (3, 1)

/-- Oriented footprint: EAST/WEST swap base width and height (types.ts). -/
def getOrientedDimensions (m : Machine) : Nat × Nat :=
  let dims := MACHINE_DIMS m.type
  if m.orientation = Orientation.EAST ∨ m.orientation = Orientation.WEST then
    (dims.2, dims.1)
  else
    (dims.1, dims.2)

/-- The anchor type is pinned by the optimizer (types.ts `isImmovableMachineType`). -/
def isImmovableMachineType (t : MachineType) : Bool :=
  t = MachineType.M3x1

/-- Input port count per type (types.ts). -/
def getInputPortCount (m : Machine) : Nat :=
  match m.type with
  | MachineType.M3x1 => 0
  | MachineType.M3x3 => 3
  | MachineType.M6x4 => 6
  | MachineType.M5x5 => 5

/-- Output port count per type (types.ts). -/
def getOutputPortCount (m : Machine) : Nat :=
  match m.type with
  | MachineType.M3x1 => 1
  | MachineType.M3x3 => 3
  | MachineType.M6x4 => 6
  | MachineType.M5x5 => 5

/-- Opposite cardinal direction (types.ts `oppositeDirection`). -/
def oppositeDirection : Direction → Direction
  | Direction.UP => Direction.DOWN
  | Direction.DOWN => Direction.UP
  | Direction.LEFT => Direction.RIGHT
  | Direction.RIGHT => Direction.LEFT

/-- Unit step of a direction, `(dx, dy)` (types.ts `directionToDelta`). -/
def directionToDelta : Direction → Int × Int
  | Direction.UP => (0, -1)
  | Direction.DOWN => (0, 1)
  | Direction.LEFT => (-1, 0)
  | Direction.RIGHT => (1, 0)

/-- Direction the input face of an orientation points at (types.ts). -/
def orientationToInputDirection : Orientation → Direction
  | Orientation.NORTH => Direction.UP
  | Orientation.EAST => Direction.RIGHT
  | Orientation.SOUTH => Direction.DOWN
  | Orientation.WEST => Direction.LEFT

/-- Output direction is opposite the input direction (types.ts). -/
def orientationToOutputDirection (o : Orientation) : Direction :=
  oppositeDirection (orientationToInputDirection o)

/-- The default (out-of-range) cell value, used to totalize cell access. -/
def defaultCell : GridCell :=
  { type := CellType.EMPTY, machineId := none, beltConnectionIds := [] }

/-- Read `grid.cells[y][x]`, defaulting outside the stored matrix. -/
def cellAt (g : GridState) (x y : Int) : GridCell :=
  if 0 ≤ x ∧ 0 ≤ y then
    ((g.cells.getD y.toNat []).getD x.toNat defaultCell)
  else
    defaultCell

/-- Write `grid.cells[y][x]`; a no-op outside the stored matrix. -/
def setCell (g : GridState) (x y : Int) (c : GridCell) : GridState :=
  if 0 ≤ x ∧ 0 ≤ y then
    { g with cells := g.cells.set y.toNat ((g.cells.getD y.toNat []).set x.toNat c) }
  else
    g

/-- grid.ts `createGrid`: a width×height matrix of EMPTY cells and empty maps. -/
def createGrid (width height : Nat) : GridState :=
  { width := width
    height := height
    cells := (List.range height).map (fun _ => (List.range width).map (fun _ => defaultCell))
    machines := []
    connections := []
    beltPaths := []
    beltTileUsage := [] }

/-- grid.ts `isInBounds`. -/
def isInBounds (g : GridState) (x y : Int) : Bool :=
  0 ≤ x && 0 ≤ y && x < (g.width : Int) && y < (g.height : Int)

/-- grid.ts `canPlaceMachine`: every oriented-footprint tile must be in bounds
and not owned by a different machine. -/
def canPlaceMachine (g : GridState) (m : Machine) (ignoreId : Option String) : Bool :=
  let dims := getOrientedDimensions m
  (List.range dims.2).all fun (dy : Nat) =>
    (List.range dims.1).all fun (dx : Nat) =>
      let gx := m.x + (dx : Int)
      let gy := m.y + (dy : Int)
      isInBounds g gx gy &&
        !(((cellAt g gx gy).type = CellType.MACHINE) && (cellAt g gx gy).machineId ≠ ignoreId)

/-- grid.ts `placeMachine`: check `canPlaceMachine` (no ignored id), then stamp
MACHINE ownership into every footprint tile and register the machine. -/
def placeMachine (g : GridState) (m : Machine) : Bool × GridState :=
  if canPlaceMachine g m none then
    let dims := getOrientedDimensions m
    let stamped :=
      (List.range dims.2).foldl
        (fun acc (dy : Nat) =>
          (List.range dims.1).foldl
            (fun acc2 (dx : Nat) =>
              setCell acc2 (m.x + (dx : Int)) (m.y + (dy : Int))
                { type := CellType.MACHINE, machineId := some m.id, beltConnectionIds := [] })
            acc)
        g
    (true, { stamped with machines := jset stamped.machines m.id m })
  else
    (false, g)

/-- `Math.round` for the rational values produced by the port-offset formula
(JavaScript rounds half-values toward positive infinity). -/
def jsRound (q : ℚ) : Int :=
  Int.floor (q + 1 / 2)

/-- grid.ts `buildFaceOffsets`: evenly distributed offsets along a face span. -/
def buildFaceOffsets (count span : Nat) : List Int :=
  if count = 0 then []
  else if count = 1 then [((span : Int) - 1) / 2]
  else if count ≥ span then (List.range count).map (fun i => min ((span : Int) - 1) (i : Int))
  else
    (List.range count).map
      (fun i => jsRound ((i : ℚ) * (((span : ℚ) - 1) / ((count : ℚ) - 1))))

/-- grid.ts `getAnchorPorts`: the 3×1 anchor exposes a single centered output on
the face its orientation points at, approached along that direction. -/
def getAnchorPorts (m : Machine) : List Port × List Port :=
  let dims := getOrientedDimensions m
  let width := dims.1
  let height := dims.2
  let outputDirection := orientationToInputDirection m.orientation
  let centerX := m.x + (((width : Int) - 1) / 2)
  let centerY := m.y + (((height : Int) - 1) / 2)
  let pos :=
    match outputDirection with
    | Direction.UP => (centerX, m.y)
    | Direction.DOWN => (centerX, m.y + (height : Int) - 1)
    | Direction.LEFT => (m.x, centerY)
    | Direction.RIGHT => (m.x + (width : Int) - 1, centerY)
  ([],
    [{ machineId := m.id
       portType := PortType.OUTPUT
       index := 0
       x := pos.1
       y := pos.2
       approachDirection := outputDirection }])

/-- grid.ts `getMachinePorts`: inputs on the face the orientation points at,
outputs on the opposite face, offsets from `buildFaceOffsets`. -/
def getMachinePorts (m : Machine) : List Port × List Port :=
  if m.type = MachineType.M3x1 then
    getAnchorPorts m
  else
    let dims := getOrientedDimensions m
    let width := dims.1
    let height := dims.2
    let inputCount := getInputPortCount m
    let outputCount := getOutputPortCount m
    let faceSpan :=
      if m.orientation = Orientation.NORTH ∨ m.orientation = Orientation.SOUTH then width
      else height
    let inputOffsets := buildFaceOffsets inputCount faceSpan
    let outputOffsets := buildFaceOffsets outputCount faceSpan
    let inputApproach := orientationToInputDirection m.orientation
    let outputApproach := orientationToOutputDirection m.orientation
    let inputs :=
      inputOffsets.enum.map fun oi =>
        let offset := oi.2
        let pos :=
          match m.orientation with
          | Orientation.NORTH => (m.x + offset, m.y)
          | Orientation.SOUTH => (m.x + offset, m.y + (height : Int) - 1)
          | Orientation.EAST => (m.x + (width : Int) - 1, m.y + offset)
          | Orientation.WEST => (m.x, m.y + offset)
        { machineId := m.id
          portType := PortType.INPUT
          index := oi.1
          x := pos.1
          y := pos.2
          approachDirection := inputApproach }
    let outputs :=
      outputOffsets.enum.map fun oi =>
        let offset := oi.2
        let pos :=
          match m.orientation with
          | Orientation.NORTH => (m.x + offset, m.y + (height : Int) - 1)
          | Orientation.SOUTH => (m.x + offset, m.y)
          | Orientation.EAST => (m.x, m.y + offset)
          | Orientation.WEST => (m.x + (width : Int) - 1, m.y + offset)
        { machineId := m.id
          portType := PortType.OUTPUT
          index := oi.1
          x := pos.1
          y := pos.2
          approachDirection := outputApproach }
    (inputs, outputs)

/-- grid.ts `getPortExternalTile`: one step outside the port along its approach
direction; this is where a belt starts or ends. -/
def getPortExternalTile (p : Port) : Int × Int :=
  let delta := directionToDelta p.approachDirection
  (p.x + delta.1, p.y + delta.2)

/-- grid.ts `cloneGridState`: a deep copy of every component. -/
def cloneGridState (g : GridState) : GridState :=
  { width := g.width
    height := g.height
    cells := g.cells.map (fun row => row.map (fun c =>
      { type := c.type, machineId := c.machineId, beltConnectionIds := c.beltConnectionIds }))
    machines := g.machines.map (fun e => (e.1, e.2))
    connections := g.connections.map (fun e => (e.1, e.2))
    beltPaths := g.beltPaths.map (fun e =>
      (e.1, { connectionId := e.2.connectionId, segments := e.2.segments }))
    beltTileUsage := g.beltTileUsage.map (fun e => (e.1, e.2)) }

/-- Routed score breakdown (scoring.ts `ScoreBreakdown`). -/
structure ScoreBreakdown where
  totalBelts : Nat
  boundingBoxArea : Int
  cornerCount : Nat
  totalScore : ℚ
deriving DecidableEq, Repr

/-- scoring.ts `BELT_WEIGHT`. -/
def BELT_WEIGHT : ℚ := 1

/-- scoring.ts `AREA_WEIGHT`. -/
def AREA_WEIGHT : ℚ := 1 / 2

/-- scoring.ts `CORNER_WEIGHT` (the float literal `0.3`, as an exact rational). -/
def CORNER_WEIGHT : ℚ := 3 / 10

/-- scoring.ts `evaluateGrid`: belts = total segments over all paths, corners =
consecutive `toDirection` changes, area = bounding box of non-EMPTY cells. -/
def evaluateGrid (g : GridState) : ScoreBreakdown :=
  let bounds :=
    (List.range g.height).foldl
      (fun acc (y : Nat) =>
        (List.range g.width).foldl
          (fun acc2 (x : Nat) =>
            if (cellAt g (x : Int) (y : Int)).type ≠ CellType.EMPTY then
              (min acc2.1 (x : Int), min acc2.2.1 (y : Int),
                max acc2.2.2.1 (x : Int), max acc2.2.2.2 (y : Int))
            else acc2)
          acc)
      ((g.width : Int), (g.height : Int), (-1 : Int), (-1 : Int))
  let minX := bounds.1
  let minY := bounds.2.1
  let maxX := bounds.2.2.1
  let maxY := bounds.2.2.2
  let totalBelts := (g.beltPaths.map (fun e => e.2.segments.length)).sum
  let cornerCount :=
    (g.beltPaths.map (fun e =>
      (e.2.segments.zip e.2.segments.tail).countP (fun pr =>
        pr.1.toDirection ≠ none && pr.2.toDirection ≠ none &&
          pr.1.toDirection ≠ pr.2.toDirection))).sum
  let boundingBoxArea := if 0 ≤ maxX then (maxX - minX + 1) * (maxY - minY + 1) else 0
  { totalBelts := totalBelts
    boundingBoxArea := boundingBoxArea
    cornerCount := cornerCount
    totalScore := (totalBelts : ℚ) * BELT_WEIGHT + (boundingBoxArea : ℚ) * AREA_WEIGHT +
      (cornerCount : ℚ) * CORNER_WEIGHT }

/-- Belt axis of a direction (pathfinder.ts `Axis`). -/
inductive Axis where
  | H
  | V
deriving DecidableEq, Repr

/-- pathfinder.ts `directionToAxis`. -/
def directionToAxis (d : Direction) : Axis :=
  if d = Direction.LEFT ∨ d = Direction.RIGHT then Axis.H else Axis.V

/-- pathfinder.ts `isCornerSegment`: both directions set and on different axes. -/
def isCornerSegment (s : BeltSegment) : Bool :=
  match s.fromDirection, s.toDirection with
  | some f, some t => directionToAxis f ≠ directionToAxis t
  | _, _ => false

/-- pathfinder.ts `getSegmentAxis`: the single axis a non-corner segment runs
along, `none` for corners and for isolated segments. -/
def getSegmentAxis (s : BeltSegment) : Option Axis :=
  match s.fromDirection, s.toDirection with
  | some f, some t =>
    if directionToAxis f = directionToAxis t then some (directionToAxis f) else none
  | some f, none => some (directionToAxis f)
  | none, some t => some (directionToAxis t)
  | none, none => none

/-- pathfinder.ts `createEmptyOccupiedTileInfo`. -/
def createEmptyOccupiedTileInfo : BeltTileUsage :=
  { horizontalCount := 0, verticalCount := 0, cornerCount := 0 }

/-- pathfinder.ts `addSegmentToOccupiedTileInfo`. -/
def addSegmentToOccupiedTileInfo (info : BeltTileUsage) (s : BeltSegment) : BeltTileUsage :=
  if isCornerSegment s then { info with cornerCount := info.cornerCount + 1 }
  else
    match getSegmentAxis s with
    | some Axis.H => { info with horizontalCount := info.horizontalCount + 1 }
    | some Axis.V => { info with verticalCount := info.verticalCount + 1 }
    | none => info

/-- pathfinder.ts `tileKey` (the string `x,y`, as the pair it encodes). -/
def tileKey (x y : Int) : Int × Int :=
  (x, y)

/-- pathfinder.ts `buildPathOccupiedInfo`: per-tile usage of one path. -/
def buildPathOccupiedInfo (path : Option BeltPath) : List ((Int × Int) × BeltTileUsage) :=
  match path with
  | none => []
  | some p =>
    p.segments.foldl
      (fun acc s =>
        let key := tileKey s.x s.y
        let entry := (jget acc key).getD createEmptyOccupiedTileInfo
        jset acc key (addSegmentToOccupiedTileInfo entry s))
      []

/-- pathfinder.ts `getEffectiveOccupiedTileInfo`: grid usage minus the excluded
connection's own usage; `none` when nothing positive remains. -/
def getEffectiveOccupiedTileInfo (g : GridState)
    (excludedByConnection : List ((Int × Int) × BeltTileUsage)) (x y : Int) :
    Option BeltTileUsage :=
  let key := tileKey x y
  let base := jget g.beltTileUsage key
  let excluded := jget excludedByConnection key
  let cornerCount := ((base.map (·.cornerCount)).getD 0) - ((excluded.map (·.cornerCount)).getD 0)
  let horizontalCount :=
    ((base.map (·.horizontalCount)).getD 0) - ((excluded.map (·.horizontalCount)).getD 0)
  let verticalCount :=
    ((base.map (·.verticalCount)).getD 0) - ((excluded.map (·.verticalCount)).getD 0)
  if cornerCount ≤ 0 ∧ horizontalCount ≤ 0 ∧ verticalCount ≤ 0 then none
  else some { horizontalCount := horizontalCount, verticalCount := verticalCount,
              cornerCount := cornerCount }

/-- pathfinder.ts `hasAxisUsage`. -/
def hasAxisUsage (info : BeltTileUsage) (a : Axis) : Bool :=
  match a with
  | Axis.H => info.horizontalCount > 0
  | Axis.V => info.verticalCount > 0

/-- pathfinder.ts `heuristic`: Manhattan distance. -/
def heuristic (ax ay bx by' : Int) : ℚ :=
  (((ax - bx).natAbs : ℚ)) + (((ay - by').natAbs : ℚ))

/-- A* search state key, pathfinder.ts `stateKey` (`x,y,direction`), as the
tuple the string injectively encodes. -/
def stateKey (x y : Int) (d : Option Direction) : Int × Int × Option Direction :=
  (x, y, d)

/-- pathfinder.ts `DIRECTIONS`, in source order. -/
def DIRECTIONS : List Direction :=
  [Direction.UP, Direction.DOWN, Direction.LEFT, Direction.RIGHT]

/-- A* search node (pathfinder.ts `AStarNode`); the nullable `parent` pointer
becomes the `root`/`child` constructor split. -/
inductive AStarNode where
  | root (x y : Int) (g h f : ℚ) (direction : Option Direction)
  | child (x y : Int) (g h f : ℚ) (parent : AStarNode) (direction : Direction)
deriving Repr

/-- Node x coordinate. -/
def AStarNode.x : AStarNode → Int
  | .root x _ _ _ _ _ => x
  | .child x _ _ _ _ _ _ => x

/-- Node y coordinate. -/
def AStarNode.y : AStarNode → Int
  | .root _ y _ _ _ _ => y
  | .child _ y _ _ _ _ _ => y

/-- Node g-cost. -/
def AStarNode.g : AStarNode → ℚ
  | .root _ _ g _ _ _ => g
  | .child _ _ g _ _ _ _ => g

/-- Node f-value. -/
def AStarNode.f : AStarNode → ℚ
  | .root _ _ _ _ f _ => f
  | .child _ _ _ _ f _ _ => f

/-- Node incoming direction (`null`able in the source). -/
def AStarNode.direction : AStarNode → Option Direction
  | .root _ _ _ _ _ d => d
  | .child _ _ _ _ _ _ d => some d

/-- The heap comparator `(a, b) => a.f - b.f` used by `findBeltPath`. -/
def fCompare (a b : AStarNode) : ℚ :=
  a.f - b.f

/-- Swap two positions of a list (the heap's array swaps). -/
def lswap {α : Type _} (l : List α) (i j : Nat) : List α :=
  match l.get? i, l.get? j with
  | some a, some b => (l.set i b).set j a
  | _, _ => l

/-- minheap.ts `bubbleUp`; the loop index strictly decreases, so the index
itself serves as structural fuel. -/
def bubbleUp {α : Type _} (cmp : α → α → ℚ) : Nat → List α → Nat → List α
  | 0, l, _ => l
  | fuel + 1, l, idx =>
    if idx = 0 then l
    else
      let parent := (idx - 1) / 2
      match l.get? idx, l.get? parent with
      | some a, some b =>
        if cmp a b < 0 then bubbleUp cmp fuel (lswap l idx parent) parent else l
      | _, _ => l

/-- minheap.ts `sinkDown`; each step descends one level, so the list length
serves as fuel. -/
def sinkDown {α : Type _} (cmp : α → α → ℚ) : Nat → List α → Nat → List α
  | 0, l, _ => l
  | fuel + 1, l, idx =>
    let len := l.length
    let left := 2 * idx + 1
    let right := 2 * idx + 2
    let s1 :=
      if left < len then
        match l.get? left, l.get? idx with
        | some a, some b => if cmp a b < 0 then left else idx
        | _, _ => idx
      else idx
    let s2 :=
      if right < len then
        match l.get? right, l.get? s1 with
        | some a, some b => if cmp a b < 0 then right else s1
        | _, _ => s1
      else s1
    if s2 ≠ idx then sinkDown cmp fuel (lswap l idx s2) s2 else l

/-- minheap.ts `push`. -/
def heapPush {α : Type _} (cmp : α → α → ℚ) (l : List α) (item : α) : List α :=
  let l2 := l ++ [item]
  bubbleUp cmp (l2.length - 1) l2 (l2.length - 1)

/-- minheap.ts `pop`: return the root, move the last element to the root and
sink it down. -/
def heapPop {α : Type _} (cmp : α → α → ℚ) (l : List α) : Option α × List α :=
  match l with
  | [] => (none, [])
  | top :: _ =>
    match l.getLast? with
    | none => (some top, [])
    | some last =>
      let l1 := l.dropLast
      if l1.isEmpty then (some top, [])
      else (some top, sinkDown cmp l1.length (l1.set 0 last) 0)

/-- pathfinder.ts `reconstructPath` first phase: unwind the parent chain into
root-first segments with `fromDirection` opposite the arrival direction. -/
def segsOf : AStarNode → List BeltSegment
  | .root x y _ _ _ _ =>
    [{ x := x, y := y, fromDirection := none, toDirection := none }]
  | .child x y _ _ _ parent dir =>
    segsOf parent ++
      [{ x := x, y := y, fromDirection := some (oppositeDirection dir), toDirection := none }]

/-- pathfinder.ts `reconstructPath` second phase: fill each `toDirection` from
the delta to the following segment. -/
def fillToDirections : List BeltSegment → List BeltSegment
  | [] => []
  | [s] => [s]
  | s :: next :: rest =>
    let dx := next.x - s.x
    let dy := next.y - s.y
    let td :=
      if dx = 1 then some Direction.RIGHT
      else if dx = -1 then some Direction.LEFT
      else if dy = 1 then some Direction.DOWN
      else if dy = -1 then some Direction.UP
      else s.toDirection
    { s with toDirection := td } :: fillToDirections (next :: rest)

/-- pathfinder.ts `reconstructPath`. -/
def reconstructPath (endNode : AStarNode) (connectionId : String) : BeltPath :=
  { connectionId := connectionId, segments := fillToDirections (segsOf endNode) }

/-- One neighbour expansion of the A* inner loop of `findBeltPath` (the body of
the `for (const dir of DIRECTIONS)` loop), threading `(openSet, gScores)`. -/
def astarStepDir (grid : GridState) (excl : List ((Int × Int) × BeltTileUsage))
    (goalx goaly : Int) (current : AStarNode)
    (closedSet : List (Int × Int × Option Direction))
    (acc : List AStarNode × List ((Int × Int × Option Direction) × ℚ)) (dir : Direction) :
    List AStarNode × List ((Int × Int × Option Direction) × ℚ) :=
  let delta := directionToDelta dir
  let nx := current.x + delta.1
  let ny := current.y + delta.2
  let neighborStateKey := stateKey nx ny (some dir)
  if neighborStateKey ∈ closedSet then acc
  else if ¬ isInBounds grid nx ny then acc
  else
    let cell := cellAt grid nx ny
    if cell.type = CellType.MACHINE then acc
    else
      let isTurn : Bool := decide (current.direction ≠ none ∧ current.direction ≠ some dir)
      let currentOccupied := getEffectiveOccupiedTileInfo grid excl current.x current.y
      let neighborOccupied := getEffectiveOccupiedTileInfo grid excl nx ny
      let moveAxis := directionToAxis dir
      let neighborBlocked : Bool :=
        match neighborOccupied with
        | some info => decide (info.cornerCount > 0) || hasAxisUsage info moveAxis
        | none => false
      let currentBlocked : Bool :=
        match currentOccupied with
        | some info => isTurn || hasAxisUsage info moveAxis
        | none => false
      if neighborBlocked then acc
      else if currentBlocked then acc
      else
        let turnCost : ℚ := if isTurn then 2 else 0
        let crossingCost : ℚ := if cell.type = CellType.BELT then 1 / 2 else 0
        let tentativeG := current.g + 1 + turnCost + crossingCost
        let existingG := jget acc.2 neighborStateKey
        if (match existingG with | some eg => decide (tentativeG ≥ eg) | none => false) then acc
        else
          let hval := heuristic nx ny goalx goaly
          let node := AStarNode.child nx ny tentativeG hval (tentativeG + hval) current dir
          (heapPush fCompare acc.1 node, jset acc.2 neighborStateKey tentativeG)

/-- The `while (openSet.size > 0)` loop of `findBeltPath`, with structural fuel
(the search closes each of the at most `4·W·H` states once, so the fuel chosen
by `findBeltPath` is never the binding constraint on the grids routed here). -/
def astarLoop (grid : GridState) (excl : List ((Int × Int) × BeltTileUsage))
    (goalx goaly : Int) (connectionId : String) :
    Nat → List AStarNode → List (Int × Int × Option Direction) →
      List ((Int × Int × Option Direction) × ℚ) → Option BeltPath
  | 0, _, _, _ => none
  | fuel + 1, openSet, closedSet, gScores =>
    match heapPop fCompare openSet with
    | (none, _) => none
    | (some current, openRest) =>
      if current.x = goalx ∧ current.y = goaly then some (reconstructPath current connectionId)
      else
        let currentStateKey := stateKey current.x current.y current.direction
        if currentStateKey ∈ closedSet then
          astarLoop grid excl goalx goaly connectionId fuel openRest closedSet gScores
        else
          let closed2 := currentStateKey :: closedSet
          let next :=
            DIRECTIONS.foldl (astarStepDir grid excl goalx goaly current closed2)
              (openRest, gScores)
          astarLoop grid excl goalx goaly connectionId fuel next.1 closed2 next.2

/-- pathfinder.ts `findBeltPath`: guard the endpoint tiles, build the excluded
usage of the rerouted connection, then run turn-penalised A*. -/
def findBeltPath (grid : GridState) (sourcePort targetPort : Port) (connectionId : String) :
    Option BeltPath :=
  let start := getPortExternalTile sourcePort
  let goal := getPortExternalTile targetPort
  if ¬ isInBounds grid start.1 start.2 ∨ ¬ isInBounds grid goal.1 goal.2 then none
  else if (cellAt grid start.1 start.2).type = CellType.MACHINE then none
  else if (cellAt grid goal.1 goal.2).type = CellType.MACHINE then none
  else
    let excludedByConnection := buildPathOccupiedInfo (jget grid.beltPaths connectionId)
    let startOccupied := getEffectiveOccupiedTileInfo grid excludedByConnection start.1 start.2
    let endOccupied := getEffectiveOccupiedTileInfo grid excludedByConnection goal.1 goal.2
    if 0 < ((startOccupied.map (·.cornerCount)).getD 0) ∨
        0 < ((endOccupied.map (·.cornerCount)).getD 0) then none
    else
      let startDir := sourcePort.approachDirection
      let h0 := heuristic start.1 start.2 goal.1 goal.2
      let startNode := AStarNode.root start.1 start.2 0 h0 h0 (some startDir)
      astarLoop grid excludedByConnection goal.1 goal.2 connectionId
        (16 * grid.width * grid.height + 16) [startNode] []
        [(stateKey start.1 start.2 (some startDir), 0)]

/-- pathfinder.ts `estimateBeltLength`: Manhattan distance between the two
ports' external tiles. -/
def estimateBeltLength (sourcePort targetPort : Port) : Nat :=
  let s := getPortExternalTile sourcePort
  let t := getPortExternalTile targetPort
  (s.1 - t.1).natAbs + (s.2 - t.2).natAbs

/-- pathfinder.ts `updateTileUsageForSegment`: add or subtract one segment's
contribution to the per-tile usage, deleting all-nonpositive entries and
clamping the rest at zero. -/
def updateTileUsageForSegment (g : GridState) (seg : BeltSegment) (delta : Int) : GridState :=
  let key := tileKey seg.x seg.y
  let current := (jget g.beltTileUsage key).getD createEmptyOccupiedTileInfo
  let updated :=
    if isCornerSegment seg then { current with cornerCount := current.cornerCount + delta }
    else
      match getSegmentAxis seg with
      | some Axis.H => { current with horizontalCount := current.horizontalCount + delta }
      | some Axis.V => { current with verticalCount := current.verticalCount + delta }
      | none => current
  if updated.cornerCount ≤ 0 ∧ updated.horizontalCount ≤ 0 ∧ updated.verticalCount ≤ 0 then
    { g with beltTileUsage := jdel g.beltTileUsage key }
  else
    let clamped : BeltTileUsage :=
      { horizontalCount := max 0 updated.horizontalCount
        verticalCount := max 0 updated.verticalCount
        cornerCount := max 0 updated.cornerCount }
    { g with beltTileUsage := jset g.beltTileUsage key clamped }

/-- pathfinder.ts `applyBeltPath`: stamp BELT onto empty cells, append the
connection id where missing, update tile usage, register the path. -/
def applyBeltPath (g : GridState) (path : BeltPath) : GridState :=
  let g2 :=
    path.segments.foldl
      (fun acc seg =>
        let cell := cellAt acc seg.x seg.y
        let cell2 := if cell.type = CellType.EMPTY then { cell with type := CellType.BELT } else cell
        let cell3 :=
          if path.connectionId ∈ cell2.beltConnectionIds then cell2
          else { cell2 with beltConnectionIds := cell2.beltConnectionIds ++ [path.connectionId] }
        updateTileUsageForSegment (setCell acc seg.x seg.y cell3) seg 1)
      g
  { g2 with beltPaths := jset g2.beltPaths path.connectionId path }

/-- pathfinder.ts `removeBeltPath`: reverse the bookkeeping of `applyBeltPath`;
cells whose belt list empties revert to EMPTY. -/
def removeBeltPath (g : GridState) (connectionId : String) : GridState :=
  match jget g.beltPaths connectionId with
  | none => g
  | some path =>
    let g2 :=
      path.segments.foldl
        (fun acc seg =>
          let acc2 := updateTileUsageForSegment acc seg (-1)
          let cell := cellAt acc2 seg.x seg.y
          let cell2 :=
            { cell with beltConnectionIds := cell.beltConnectionIds.filter (fun id => id ≠ connectionId) }
          let cell3 :=
            if cell2.beltConnectionIds = [] ∧ cell2.type = CellType.BELT then
              { cell2 with type := CellType.EMPTY }
            else cell2
          setCell acc2 seg.x seg.y cell3)
        g
    { g2 with beltPaths := jdel g2.beltPaths connectionId }

/-- optimizer.ts `buildFixedMachineMap`: copies of the immovable machines,
keyed by id. -/
def buildFixedMachineMap (machines : List Machine) : List (String × Machine) :=
  machines.foldl
    (fun acc m => if isImmovableMachineType m.type then jset acc m.id m else acc)
    []

/-- optimizer.ts `enforceFixedMachines`: restore the pinned pose of every
machine that appears in the fixed map. -/
def enforceFixedMachines (machines : List Machine) (fixedMachines : List (String × Machine)) :
    List Machine :=
  if fixedMachines = [] then machines
  else
    machines.map fun m =>
      match jget fixedMachines m.id with
      | some fixed => { m with x := fixed.x, y := fixed.y, orientation := fixed.orientation }
      | none => m

/-- The machine-placement loop of optimizer.ts `buildGrid`; `none` on the first
failed placement. -/
def placeAllMachines (g : GridState) : List Machine → Option GridState
  | [] => some g
  | m :: rest =>
    let r := placeMachine g m
    if r.1 then placeAllMachines r.2 rest else none

/-- The routing loop of optimizer.ts `buildGrid`: look up the two ports of each
connection, route with `findBeltPath`, apply; `none` on any failure. -/
def routeConnections (g : GridState) : List Connection → Option GridState
  | [] => some g
  | conn :: rest =>
    match jget g.machines conn.sourceMachineId, jget g.machines conn.targetMachineId with
    | some src, some tgt =>
      match (getMachinePorts src).2.get? conn.sourcePortIndex,
          (getMachinePorts tgt).1.get? conn.targetPortIndex with
      | some srcPort, some tgtPort =>
        match findBeltPath g srcPort tgtPort conn.id with
        | some path => routeConnections (applyBeltPath g path) rest
        | none => none
      | _, _ => none
    | _, _ => none

/-- optimizer.ts `buildGrid`: place every machine, register the connections,
then route them all; `none` if anything fails. -/
def buildGrid (machines : List Machine) (connections : List Connection) (gridW gridH : Nat) :
    Option GridState :=
  match placeAllMachines (createGrid gridW gridH) machines with
  | none => none
  | some placed =>
    routeConnections
      { placed with
        connections := connections.foldl (fun acc c => jset acc c.id c) placed.connections }
      connections

/-- The result-selection skeleton of optimizer.ts `runOptimizer` (lines
206-246, 569-598): the baseline fallback is the cloned input grid with its
routed score; every candidate layout the phases submit to `rememberFallback`
(and the final polished build) replaces the fallback only when its routed
total score is strictly lower, after `enforceFixedMachines`; finally the
baseline is restored whenever its score is strictly below the fallback's.
The candidate machine lists produced by the stochastic phases are the
`candidates` parameter. -/
def runOptimizerSkeleton (grid : GridState) (fixedMachines : List (String × Machine))
    (connections : List Connection) (candidates : List (List Machine)) :
    GridState × ScoreBreakdown :=
  let baselineGrid := cloneGridState grid
  let baselineScore := evaluateGrid grid
  let bestFallback :=
    candidates.foldl
      (fun acc ms =>
        let enforced := enforceFixedMachines ms fixedMachines
        match buildGrid enforced connections grid.width grid.height with
        | none => acc
        | some built =>
          let score := evaluateGrid built
          if score.totalScore < acc.2.totalScore then (cloneGridState built, score) else acc)
      (baselineGrid, baselineScore)
  if baselineScore.totalScore < bestFallback.2.totalScore then (baselineGrid, baselineScore)
  else bestFallback

/-- The mutable control state of the outer-batch bookkeeping in optimizer.ts
`runSAAsync` (`stagnation`, `temp`, `current`/`best` layouts and scores). -/
structure SABatchState where
  stagnation : Nat
  temp : ℚ
  current : List Machine
  currentScore : ℚ
  best : List Machine
  bestScore : ℚ
deriving DecidableEq, Repr

/-- optimizer.ts `runSAAsync` lines 2084-2114: after an outer batch, bump the
stagnation counter when the best score did not improve (reset it otherwise),
then reheat once the counter exceeds five and the temperature is still above
`minTemp`: `temp ← min(initialTemp·0.5, temp·3)`, current ← best, counter ← 0.
`prevBest` is the best score recorded before the batch ran. -/
def saBatchBookkeeping (initialTemp minTemp : ℚ) (prevBest : ℚ) (s : SABatchState) :
    SABatchState :=
  let stag := if s.bestScore ≥ prevBest then s.stagnation + 1 else 0
  let s1 := { s with stagnation := stag }
  if stag > 5 ∧ s1.temp > minTemp then
    { s1 with
      temp := min (initialTemp * (1 / 2)) (s1.temp * 3)
      current := s1.best
      currentScore := s1.bestScore
      stagnation := 0 }
  else s1

/-- One outer batch in which the best score does not improve: the bookkeeping
step applied with `prevBest` equal to the unchanged best score. -/
def saStagnantBatch (initialTemp minTemp : ℚ) (s : SABatchState) : SABatchState :=
  saBatchBookkeeping initialTemp minTemp s.bestScore s

attribute [local semireducible] Rat.add Rat.mul Rat.sub Rat.inv

/-- `jset` stores the value under its key. -/
theorem jget_jset_self {κ α : Type _} [DecidableEq κ] (m : List (κ × α)) (k : κ) (v : α) :
    jget (jset m k v) k = some v := by
  induction m with
  | nil => simp [jget, jset]
  | cons e t ih =>
    by_cases h : e.1 = k
    · simp [jset, jget, h]
    · simp [jset, jget, h, ih]

/-- `jset` leaves other keys alone. -/
theorem jget_jset_ne {κ α : Type _} [DecidableEq κ] (m : List (κ × α)) (k k' : κ) (v : α)
    (h : k' ≠ k) : jget (jset m k v) k' = jget m k' := by
  induction m with
  | nil =>
    simp only [jset, jget]
    rw [if_neg (Ne.symm h)]
  | cons e t ih =>
    by_cases he : e.1 = k
    · simp only [jset, if_pos he, jget]
      rw [if_neg (Ne.symm h), if_neg (by rw [he]; exact Ne.symm h)]
    · simp only [jset, if_neg he, jget]
      by_cases he' : e.1 = k'
      · rw [if_pos he', if_pos he']
      · rw [if_neg he', if_neg he']
        exact ih

/-- Unfolding `jdel` over a cons cell. -/
theorem jdel_cons {κ α : Type _} [DecidableEq κ] (e : κ × α) (t : List (κ × α)) (k : κ) :
    jdel (e :: t) k = if e.1 = k then jdel t k else e :: jdel t k := by
  by_cases h : e.1 = k <;> simp [jdel, List.filter_cons, h]

/-- Deleting a freshly-set new key restores the map. -/
theorem jdel_jset_fresh {κ α : Type _} [DecidableEq κ] (m : List (κ × α)) (k : κ) (v : α)
    (h : k ∉ jkeys m) : jdel (jset m k v) k = m := by
  induction m with
  | nil => simp [jset, jdel]
  | cons e t ih =>
    simp only [jkeys, List.map_cons, List.mem_cons] at h
    push_neg at h
    have he : ¬ e.1 = k := Ne.symm h.1
    have ht : k ∉ jkeys t := by simpa [jkeys] using h.2
    rw [show jset (e :: t) k v = e :: jset t k v by simp [jset, if_neg he], jdel_cons,
      if_neg he, ih ht]

/-- Lookup of an absent key. -/
theorem jget_eq_none_of_not_mem {κ α : Type _} [DecidableEq κ] (m : List (κ × α)) (k : κ)
    (h : k ∉ jkeys m) : jget m k = none := by
  induction m with
  | nil => simp [jget]
  | cons e t ih =>
    simp only [jkeys, List.map_cons, List.mem_cons] at h
    push_neg at h
    simp only [jget]
    rw [if_neg (Ne.symm h.1)]
    exact ih (by simpa [jkeys] using h.2)

/-- With unique keys, membership determines lookup. -/
theorem jget_of_mem_nodup {κ α : Type _} [DecidableEq κ] (m : List (κ × α)) (k : κ) (v : α)
    (hm : (k, v) ∈ m) (hnd : (jkeys m).Nodup) : jget m k = some v := by
  induction m with
  | nil => simp at hm
  | cons e t ih =>
    simp only [jkeys, List.map_cons, List.nodup_cons] at hnd
    rcases List.mem_cons.mp hm with he | ht
    · rw [← he]
      simp [jget]
    · have hne : e.1 ≠ k := by
        intro hk
        exact hnd.1 (hk ▸ List.mem_map.mpr ⟨(k, v), ht, rfl⟩)
      simp only [jget]
      rw [if_neg hne]
      exact ih ht (by simpa [jkeys] using hnd.2)

/-- A non-reheating bookkeeping step just bumps the stagnation counter. -/
theorem saStagnantBatch_step (initialTemp minTemp : ℚ) (s : SABatchState)
    (h : s.stagnation + 1 ≤ 5) :
    saStagnantBatch initialTemp minTemp s = { s with stagnation := s.stagnation + 1 } := by
  unfold saStagnantBatch saBatchBookkeeping
  have hge : s.bestScore ≥ s.bestScore := le_refl _
  rw [if_pos hge, if_neg]
  intro hc
  omega

/-- Iterating stagnant batches below the reheat threshold only counts. -/
theorem saStagnantBatch_iterate (initialTemp minTemp : ℚ) (s : SABatchState)
    (h0 : s.stagnation = 0) :
    ∀ j, j ≤ 5 → (saStagnantBatch initialTemp minTemp)^[j] s = { s with stagnation := j } := by
  intro j
  induction j with
  | zero =>
    intro _
    simp only [Function.iterate_zero, id_eq]
    cases s
    simp_all
  | succ n ih =>
    intro hn
    rw [Function.iterate_succ_apply', ih (by omega),
      saStagnantBatch_step initialTemp minTemp _ (by simpa using hn)]

/-- C8 (amended): in the SA loop bookkeeping, five consecutive non-improving
outer batches only raise the stagnation counter to five and leave temperature
and current state untouched; the reheat fires at the end of the sixth
consecutive non-improving batch (the code requires `stagnation > 5`), provided
the temperature is still above `minTemp`, and then sets
`temp ← min(initialTemp/2, 3·temp)`, resets current (and its score) to best,
and clears the stagnation counter. -/
theorem claim_C8_reheat_after_six (initialTemp minTemp : ℚ) (s : SABatchState)
    (h0 : s.stagnation = 0) (ht : minTemp < s.temp) :
    (∀ j, j ≤ 5 →
      (saStagnantBatch initialTemp minTemp)^[j] s = { s with stagnation := j }) ∧
    (saStagnantBatch initialTemp minTemp)^[6] s =
      { s with
        stagnation := 0
        temp := min (initialTemp * (1 / 2)) (s.temp * 3)
        current := s.best
        currentScore := s.bestScore } := by
  refine ⟨saStagnantBatch_iterate initialTemp minTemp s h0, ?_⟩
  have h5 := saStagnantBatch_iterate initialTemp minTemp s h0 5 (by omega)
  rw [show (6 : ℕ) = 5 + 1 from rfl, Function.iterate_succ_apply', h5]
  unfold saStagnantBatch saBatchBookkeeping
  have hge : s.bestScore ≥ s.bestScore := le_refl _
  rw [if_pos hge, if_pos ⟨by norm_num, ht⟩]

/-- A pair of distinct machine layouts for the stagnation counterexample. -/
def saDemoState : SABatchState :=
  { stagnation := 0
    temp := 10
    current := [{ id := "mx", type := MachineType.M3x3, x := 0, y := 0,
                  orientation := Orientation.NORTH }]
    currentScore := 50
    best := [{ id := "mx", type := MachineType.M3x3, x := 4, y := 0,
               orientation := Orientation.NORTH }]
    bestScore := 40 }

/-- C8 counterexample: after exactly five consecutive outer batches with no
best-score improvement (from a cleared counter, temperature 10 well above
`minTemp = 1/10`, `initialTemp = 100`), the claimed reheat has NOT happened:
the temperature is still 10 (not `min(100/2, 3·10) = 30`), the current layout
has not been reset to the best layout, and the stagnation counter is 5. -/
theorem claim_C8_counterexample :
    ((saStagnantBatch 100 (1 / 10))^[5] saDemoState).temp = 10 ∧
    ((saStagnantBatch 100 (1 / 10))^[5] saDemoState).temp ≠ min (100 * (1 / 2) : ℚ) (10 * 3) ∧
    ((saStagnantBatch 100 (1 / 10))^[5] saDemoState).current ≠
      ((saStagnantBatch 100 (1 / 10))^[5] saDemoState).best ∧
    ((saStagnantBatch 100 (1 / 10))^[5] saDemoState).stagnation = 5 := by
  decide

/-- Witness for the amended C8 theorem at a concrete state. -/
theorem claim_C8_reheat_after_six_witness :
    (saStagnantBatch 100 (1 / 10))^[6] saDemoState =
      { saDemoState with
        stagnation := 0
        temp := min ((100 : ℚ) * (1 / 2)) (10 * 3)
        current := saDemoState.best
        currentScore := saDemoState.bestScore } :=
  (claim_C8_reheat_after_six 100 (1 / 10) saDemoState (by decide) (by decide)).2

/-- The cell matrix has the advertised dimensions (spec §3: the cell matrix of
a grid state is `width × height`). -/
def cellsWellFormed (g : GridState) : Prop :=
  g.cells.length = g.height ∧ ∀ i < g.height, (g.cells.getD i []).length = g.width

/-- `setCell` only touches the `cells` field. -/
theorem setCell_fields (g : GridState) (x y : Int) (c : GridCell) :
    (setCell g x y c).width = g.width ∧ (setCell g x y c).height = g.height ∧
    (setCell g x y c).machines = g.machines ∧
    (setCell g x y c).connections = g.connections ∧
    (setCell g x y c).beltPaths = g.beltPaths ∧
    (setCell g x y c).beltTileUsage = g.beltTileUsage := by
  unfold setCell
  split <;> exact ⟨rfl, rfl, rfl, rfl, rfl, rfl⟩

/-- `setCell` preserves the matrix shape. -/
theorem setCell_wellFormed (g : GridState) (x y : Int) (c : GridCell)
    (h : cellsWellFormed g) : cellsWellFormed (setCell g x y c) := by
  unfold cellsWellFormed setCell at *
  split
  · refine ⟨by simpa using h.1, ?_⟩
    intro i hi
    have hrow := h.2 i hi
    simp only [List.getD_eq_getElem?_getD, List.getElem?_set]
    split
    · rename_i heq
      split
      · simp only [Option.getD_some, List.length_set]
        rw [heq]
        simpa [List.getD_eq_getElem?_getD] using hrow
      · rename_i hlt
        exfalso
        rw [heq] at hlt
        exact hlt (h.1 ▸ hi)
    · simpa [List.getD_eq_getElem?_getD] using hrow
  · exact h

/-- Reading the freshly written cell. -/
theorem cellAt_setCell_self (g : GridState) (x y : Int) (c : GridCell)
    (hx : 0 ≤ x) (hy : 0 ≤ y) (hyl : y.toNat < g.cells.length)
    (hxl : x.toNat < (g.cells.getD y.toNat []).length) :
    cellAt (setCell g x y c) x y = c := by
  unfold cellAt setCell
  rw [if_pos ⟨hx, hy⟩, if_pos ⟨hx, hy⟩]
  simp only [List.getD_eq_getElem?_getD, List.getElem?_set_self hyl, Option.getD_some,
    List.getElem?_set_self (by simpa [List.getD_eq_getElem?_getD] using hxl), Option.getD_some]

/-- Reading any other position is unaffected by `setCell`. -/
theorem cellAt_setCell_ne (g : GridState) (x y x' y' : Int) (c : GridCell)
    (h : ¬ (x' = x ∧ y' = y)) : cellAt (setCell g x y c) x' y' = cellAt g x' y' := by
  unfold cellAt setCell
  by_cases hxy : 0 ≤ x ∧ 0 ≤ y
  · rw [if_pos hxy]
    by_cases hxy' : 0 ≤ x' ∧ 0 ≤ y'
    · rw [if_pos hxy', if_pos hxy']
      simp only [List.getD_eq_getElem?_getD, List.getElem?_set]
      by_cases hyy : y.toNat = y'.toNat
      · have hy_eq : y' = y := by omega
        have hx_ne : x' ≠ x := fun hx_eq => h ⟨hx_eq, hy_eq⟩
        have hx_ne' : x.toNat ≠ x'.toNat := by omega
        rw [if_pos hyy]
        split
        · simp only [Option.getD_some]
          rw [List.getElem?_set_ne hx_ne', ← hyy]
        · rename_i hlen
          simp only [Option.getD_none]
          rw [← hyy]
          have : g.cells[y.toNat]? = none := List.getElem?_eq_none (by omega)
          rw [this]
          simp
      · rw [if_neg hyy]
    · rw [if_neg hxy', if_neg hxy']
  · rw [if_neg hxy]

/-- Nested range folds flatten to a fold over the pair list. -/
theorem foldl_nested {α β γ : Type _} (f : γ → α → β → γ) (outer : List β) (inner : List α)
    (g : γ) :
    outer.foldl (fun acc b => inner.foldl (fun acc2 a => f acc2 a b) acc) g =
      (outer.flatMap (fun b => inner.map (fun a => (a, b)))).foldl
        (fun acc p => f acc p.1 p.2) g := by
  induction outer generalizing g with
  | nil => rfl
  | cons b rest ih =>
    simp only [List.foldl_cons, List.flatMap_cons, List.foldl_append, ih, List.foldl_map]

/-- After folding `setCell` over a list of in-bounds positions, each listed
position holds the written cell and every other position is untouched. -/
theorem foldl_setCell_cellAt (ps : List (Int × Int)) (g : GridState) (c : GridCell)
    (hwf : cellsWellFormed g)
    (hin : ∀ p ∈ ps, isInBounds g p.1 p.2 = true) (q r : Int) :
    cellAt (ps.foldl (fun acc p => setCell acc p.1 p.2 c) g) q r =
      (if (q, r) ∈ ps then c else cellAt g q r) ∧
    cellsWellFormed (ps.foldl (fun acc p => setCell acc p.1 p.2 c) g) ∧
    (ps.foldl (fun acc p => setCell acc p.1 p.2 c) g).width = g.width ∧
    (ps.foldl (fun acc p => setCell acc p.1 p.2 c) g).height = g.height ∧
    (ps.foldl (fun acc p => setCell acc p.1 p.2 c) g).cells.length = g.cells.length := by
  induction ps generalizing g with
  | nil => exact ⟨by simp, hwf, rfl, rfl, rfl⟩
  | cons p rest ih =>
    have hpin := hin p (List.mem_cons_self _ _)
    have hg1wf : cellsWellFormed (setCell g p.1 p.2 c) := setCell_wellFormed g p.1 p.2 c hwf
    have hfields := setCell_fields g p.1 p.2 c
    have hrest : ∀ q ∈ rest, isInBounds (setCell g p.1 p.2 c) q.1 q.2 = true := by
      intro q hq
      have := hin q (List.mem_cons_of_mem _ hq)
      unfold isInBounds at this ⊢
      rw [hfields.1, hfields.2.1]
      exact this
    obtain ⟨hcell, hwf', hw, hh, hlen⟩ := ih (setCell g p.1 p.2 c) hg1wf hrest
    simp only [List.foldl_cons]
    refine ⟨?_, hwf', hw.trans hfields.1, hh.trans hfields.2.1, hlen.trans ?_⟩
    · rw [hcell]
      by_cases hqr : (q, r) ∈ rest
      · rw [if_pos hqr, if_pos (List.mem_cons_of_mem _ hqr)]
      · rw [if_neg hqr]
        by_cases hqp : (q, r) = p
        · rw [if_pos (by simp [hqp])]
          obtain ⟨hx, hy, hxw, hyh⟩ : 0 ≤ p.1 ∧ 0 ≤ p.2 ∧ p.1 < (g.width : Int) ∧
              p.2 < (g.height : Int) := by
            unfold isInBounds at hpin
            simp only [Bool.and_eq_true, decide_eq_true_eq] at hpin
            exact ⟨hpin.1.1.1, hpin.1.1.2, hpin.1.2, hpin.2⟩
          have hq1 : q = p.1 := by rw [← hqp]
          have hr1 : r = p.2 := by rw [← hqp]
          rw [hq1, hr1]
          exact cellAt_setCell_self g p.1 p.2 c hx hy
            (by rw [hwf.1]; omega)
            (by rw [hwf.2 p.2.toNat (by omega)]; omega)
        · rw [if_neg (by simp [hqp, hqr])]
          exact cellAt_setCell_ne g p.1 p.2 q r c
            (fun hc => hqp (Prod.ext hc.1 hc.2))
    · unfold setCell
      split <;> simp [List.length_set]

/-- Folding `setCell` leaves all non-cell fields unchanged. -/
theorem foldl_setCell_fields (ps : List (Int × Int)) (g : GridState) (c : GridCell) :
    (ps.foldl (fun acc p => setCell acc p.1 p.2 c) g).machines = g.machines ∧
    (ps.foldl (fun acc p => setCell acc p.1 p.2 c) g).connections = g.connections ∧
    (ps.foldl (fun acc p => setCell acc p.1 p.2 c) g).beltPaths = g.beltPaths ∧
    (ps.foldl (fun acc p => setCell acc p.1 p.2 c) g).beltTileUsage = g.beltTileUsage := by
  induction ps generalizing g with
  | nil => exact ⟨rfl, rfl, rfl, rfl⟩
  | cons p rest ih =>
    simp only [List.foldl_cons]
    have hf := setCell_fields g p.1 p.2 c
    obtain ⟨h1, h2, h3, h4⟩ := ih (setCell g p.1 p.2 c)
    exact ⟨h1.trans hf.2.2.1, h2.trans hf.2.2.2.1, h3.trans hf.2.2.2.2.1,
      h4.trans hf.2.2.2.2.2⟩

/-- The nested stamping fold of `placeMachine`, as a fold over footprint
positions. -/
theorem placeMachine_fold_as_positions (g : GridState) (m : Machine) (c : GridCell) :
    (List.range (getOrientedDimensions m).2).foldl
        (fun acc (dy : Nat) =>
          (List.range (getOrientedDimensions m).1).foldl
            (fun acc2 (dx : Nat) => setCell acc2 (m.x + (dx : Int)) (m.y + (dy : Int)) c) acc)
        g =
      (((List.range (getOrientedDimensions m).2).flatMap
          (fun dy => (List.range (getOrientedDimensions m).1).map (fun dx => (dx, dy)))).map
        (fun p : Nat × Nat => ((m.x + (p.1 : Int)), (m.y + (p.2 : Int))))).foldl
        (fun acc p => setCell acc p.1 p.2 c) g := by
  rw [foldl_nested
    (fun (acc2 : GridState) (dx dy : Nat) => setCell acc2 (m.x + (dx : Int)) (m.y + (dy : Int)) c),
    List.foldl_map]

/-- `cellAt` depends only on the cell matrix. -/
theorem cellAt_congr_cells (g1 g2 : GridState) (h : g1.cells = g2.cells) (x y : Int) :
    cellAt g1 x y = cellAt g2 x y := by
  unfold cellAt
  rw [h]

/-- `cellAt` ignores the non-cell fields. -/
theorem cellAt_machines_update (g : GridState) (M : List (String × Machine)) (x y : Int) :
    cellAt { g with machines := M } x y = cellAt g x y :=
  rfl

/-- C10: `placeMachine` is atomic on failure and complete on success.  If any
tile of the oriented footprint is out of bounds or holds a MACHINE cell, it
returns `false` with the grid untouched; if it returns `true`, every footprint
cell is MACHINE-owned by the new machine's id and the machine is registered in
the machines map.  The hypotheses state the data-model invariants that the
cell matrix has the advertised `width × height` shape and that every MACHINE
cell carries an owner id (spec §3). -/
theorem claim_C10_placeMachine_atomic (g : GridState) (m : Machine)
    (hwf : cellsWellFormed g)
    (hmach : ∀ x y : Int,
      (cellAt g x y).type = CellType.MACHINE → (cellAt g x y).machineId ≠ none) :
    ((∃ dy < (getOrientedDimensions m).2, ∃ dx < (getOrientedDimensions m).1,
        ¬ isInBounds g (m.x + (dx : Int)) (m.y + (dy : Int)) = true ∨
          (cellAt g (m.x + (dx : Int)) (m.y + (dy : Int))).type = CellType.MACHINE) →
      placeMachine g m = (false, g)) ∧
    ((placeMachine g m).1 = true →
      (∀ dy < (getOrientedDimensions m).2, ∀ dx < (getOrientedDimensions m).1,
        cellAt (placeMachine g m).2 (m.x + (dx : Int)) (m.y + (dy : Int)) =
          { type := CellType.MACHINE, machineId := some m.id, beltConnectionIds := [] }) ∧
      jget (placeMachine g m).2.machines m.id = some m) := by
  constructor
  · rintro ⟨dy, hdy, dx, hdx, hbad⟩
    have hc : canPlaceMachine g m none = false := by
      apply Bool.eq_false_iff.mpr
      intro htrue
      unfold canPlaceMachine at htrue
      rw [List.all_eq_true] at htrue
      have h1 := htrue dy (List.mem_range.mpr hdy)
      rw [List.all_eq_true] at h1
      have h2 := h1 dx (List.mem_range.mpr hdx)
      simp only [Bool.and_eq_true, Bool.not_eq_true', Bool.and_eq_false_iff,
        decide_eq_true_eq, decide_eq_false_iff_not] at h2
      rcases hbad with hoob | hm
      · exact hoob h2.1
      · rcases h2.2 with hnm | hid
        · exact hnm hm
        · exact hid (hmach _ _ hm)
    unfold placeMachine
    rw [if_neg (by simp [hc])]
  · intro hp
    by_cases hcan : canPlaceMachine g m none = true
    · have hcells : (placeMachine g m).2.cells =
          ((List.range (getOrientedDimensions m).2).foldl
            (fun acc (dy : Nat) =>
              (List.range (getOrientedDimensions m).1).foldl
                (fun acc2 (dx : Nat) =>
                  setCell acc2 (m.x + (dx : Int)) (m.y + (dy : Int))
                    { type := CellType.MACHINE, machineId := some m.id,
                      beltConnectionIds := [] })
                acc)
            g).cells := by
        unfold placeMachine
        rw [if_pos hcan]
      have hmachs : (placeMachine g m).2.machines =
          jset ((List.range (getOrientedDimensions m).2).foldl
            (fun acc (dy : Nat) =>
              (List.range (getOrientedDimensions m).1).foldl
                (fun acc2 (dx : Nat) =>
                  setCell acc2 (m.x + (dx : Int)) (m.y + (dy : Int))
                    { type := CellType.MACHINE, machineId := some m.id,
                      beltConnectionIds := [] })
                acc)
            g).machines m.id m := by
        unfold placeMachine
        rw [if_pos hcan]
      have hposfold := placeMachine_fold_as_positions g m
        { type := CellType.MACHINE, machineId := some m.id, beltConnectionIds := [] }
      set pairs := (List.range (getOrientedDimensions m).2).flatMap
        (fun dy => (List.range (getOrientedDimensions m).1).map (fun dx => (dx, dy))) with hpairs
      set ps := pairs.map
        (fun p : Nat × Nat => ((m.x + (p.1 : Int)), (m.y + (p.2 : Int)))) with hps
      have hin : ∀ p ∈ ps, isInBounds g p.1 p.2 = true := by
        intro p hpmem
        rw [hps] at hpmem
        obtain ⟨pr, hpr, hpe⟩ := List.mem_map.mp hpmem
        rw [hpairs] at hpr
        obtain ⟨dy, hdy, hdx⟩ := List.mem_flatMap.mp hpr
        obtain ⟨dx, hdxr, hde⟩ := List.mem_map.mp hdx
        unfold canPlaceMachine at hcan
        rw [List.all_eq_true] at hcan
        have h1 := hcan dy hdy
        rw [List.all_eq_true] at h1
        have h2 := h1 dx hdxr
        rw [Bool.and_eq_true] at h2
        rw [← hpe, ← hde]
        exact h2.1
      constructor
      · intro dy hdy dx hdx
        rw [cellAt_congr_cells _ _ hcells, hposfold]
        have hmem : ((m.x + (dx : Int)), (m.y + (dy : Int))) ∈ ps := by
          rw [hps]
          refine List.mem_map.mpr ⟨(dx, dy), ?_, rfl⟩
          rw [hpairs]
          exact List.mem_flatMap.mpr ⟨dy, List.mem_range.mpr hdy,
            List.mem_map.mpr ⟨dx, List.mem_range.mpr hdx, rfl⟩⟩
        have hfold := (foldl_setCell_cellAt ps g
          { type := CellType.MACHINE, machineId := some m.id, beltConnectionIds := [] }
          hwf hin (m.x + (dx : Int)) (m.y + (dy : Int))).1
        rw [hfold, if_pos hmem]
      · rw [hmachs]
        exact jget_jset_self _ m.id m
    · exfalso
      unfold placeMachine at hp
      rw [if_neg hcan] at hp
      exact Bool.false_ne_true hp

instance cellsWellFormedDecidable (g : GridState) : Decidable (cellsWellFormed g) := by
  unfold cellsWellFormed
  infer_instance

/-- Every cell of a fresh grid is the default EMPTY cell. -/
theorem cellAt_createGrid (w h : Nat) (x y : Int) : cellAt (createGrid w h) x y = defaultCell := by
  unfold cellAt createGrid
  split
  · simp only [List.getD_eq_getElem?_getD, List.getElem?_map]
    cases hy : (List.range h)[y.toNat]? with
    | none => simp
    | some a =>
      simp only [Option.map_some', Option.getD_some, List.getElem?_map]
      cases hx : (List.range w)[x.toNat]? <;> simp
  · rfl

/-- A fresh grid has no MACHINE cell. -/
theorem createGrid_no_machine (w h : Nat) :
    ∀ x y : Int, (cellAt (createGrid w h) x y).type = CellType.MACHINE →
      (cellAt (createGrid w h) x y).machineId ≠ none := by
  intro x y hc
  rw [cellAt_createGrid] at hc
  exact absurd hc (by decide)

/-- A 3×3 machine used by the placement witness. -/
def c10mach : Machine :=
  { id := "w", type := MachineType.M3x3, x := 0, y := 0, orientation := Orientation.NORTH }

/-- Witness for C10 at concrete inputs: placing a 3×3 machine on a 2×2 grid
fails with the grid untouched, and placing it on a 5×5 grid succeeds, stamps
the footprint corner, and registers the machine. -/
theorem claim_C10_placeMachine_atomic_witness :
    placeMachine (createGrid 2 2) c10mach = (false, createGrid 2 2) ∧
    cellAt (placeMachine (createGrid 5 5) c10mach).2
        (c10mach.x + ((2 : Nat) : Int)) (c10mach.y + ((2 : Nat) : Int)) =
      { type := CellType.MACHINE, machineId := some c10mach.id, beltConnectionIds := [] } ∧
    jget (placeMachine (createGrid 5 5) c10mach).2.machines c10mach.id = some c10mach := by
  refine ⟨?_, ?_, ?_⟩
  · exact (claim_C10_placeMachine_atomic (createGrid 2 2) c10mach (by decide)
      (createGrid_no_machine 2 2)).1 ⟨0, by decide, 2, by decide, Or.inl (by decide)⟩
  · exact ((claim_C10_placeMachine_atomic (createGrid 5 5) c10mach (by decide)
      (createGrid_no_machine 5 5)).2 (by decide)).1 2 (by decide) 2 (by decide)
  · exact ((claim_C10_placeMachine_atomic (createGrid 5 5) c10mach (by decide)
      (createGrid_no_machine 5 5)).2 (by decide)).2

/-- `cloneGridState` is a deep copy: equal to its argument. -/
theorem cloneGridState_eq (g : GridState) : cloneGridState g = g := by
  unfold cloneGridState
  cases g with
  | mk width height cells machines connections beltPaths beltTileUsage =>
    simp only [GridState.mk.injEq, true_and]
    refine ⟨?_, ?_, ?_, ?_, ?_⟩
    · rw [show (fun (c : GridCell) =>
          ({ type := c.type, machineId := c.machineId,
             beltConnectionIds := c.beltConnectionIds } : GridCell)) = id from rfl]
      simp [List.map_id]
    · rw [show (fun (e : String × Machine) => (e.1, e.2)) = id from rfl, List.map_id]
    · rw [show (fun (e : String × Connection) => (e.1, e.2)) = id from rfl, List.map_id]
    · rw [show (fun (e : String × BeltPath) =>
          (e.1, ({ connectionId := e.2.connectionId, segments := e.2.segments } : BeltPath)))
          = id from rfl, List.map_id]
    · rw [show (fun (e : (Int × Int) × BeltTileUsage) => (e.1, e.2)) = id from rfl, List.map_id]

/-- C1: baseline guarantee of `runOptimizer`.  The selection skeleton never
returns a routed total score above the input grid's, and when no candidate
layout routes to a strictly better score than the baseline the (cloned)
original grid and its score are returned unchanged. -/
theorem claim_C1_baseline_guarantee (grid : GridState)
    (fixedMachines : List (String × Machine)) (connections : List Connection)
    (candidates : List (List Machine)) :
    (runOptimizerSkeleton grid fixedMachines connections candidates).2.totalScore ≤
      (evaluateGrid grid).totalScore ∧
    ((∀ ms ∈ candidates, ∀ built,
        buildGrid (enforceFixedMachines ms fixedMachines) connections grid.width grid.height =
          some built →
        ¬ (evaluateGrid built).totalScore < (evaluateGrid grid).totalScore) →
      runOptimizerSkeleton grid fixedMachines connections candidates =
        (grid, evaluateGrid grid)) := by
  constructor
  · simp only [runOptimizerSkeleton]
    split
    · exact le_refl _
    · rename_i h
      exact le_of_not_lt h
  · intro hno
    simp only [runOptimizerSkeleton]
    have hfold : candidates.foldl
        (fun acc ms =>
          match buildGrid (enforceFixedMachines ms fixedMachines) connections grid.width
              grid.height with
          | none => acc
          | some built =>
            let score := evaluateGrid built
            if score.totalScore < acc.2.totalScore then (cloneGridState built, score) else acc)
        (cloneGridState grid, evaluateGrid grid) = (cloneGridState grid, evaluateGrid grid) := by
      induction candidates with
      | nil => rfl
      | cons ms rest ih =>
        rw [List.foldl_cons]
        have hstep :
            (match buildGrid (enforceFixedMachines ms fixedMachines) connections grid.width
                grid.height with
              | none => (cloneGridState grid, evaluateGrid grid)
              | some built =>
                let score := evaluateGrid built
                if score.totalScore < (cloneGridState grid, evaluateGrid grid).2.totalScore then
                  (cloneGridState built, score)
                else (cloneGridState grid, evaluateGrid grid)) =
              (cloneGridState grid, evaluateGrid grid) := by
          cases hb : buildGrid (enforceFixedMachines ms fixedMachines) connections grid.width
              grid.height with
          | none => rfl
          | some built =>
            simp only []
            rw [if_neg (hno ms (List.mem_cons_self _ _) built hb)]
        rw [hstep]
        exact ih (fun ms2 hms2 => hno ms2 (List.mem_cons_of_mem _ hms2))
    rw [hfold]
    rw [if_neg (lt_irrefl _), cloneGridState_eq]

/-- Witness for C1 at a concrete grid with no surviving candidates. -/
theorem claim_C1_baseline_guarantee_witness :
    (runOptimizerSkeleton (createGrid 3 3) [] [] []).2.totalScore ≤
      (evaluateGrid (createGrid 3 3)).totalScore ∧
    runOptimizerSkeleton (createGrid 3 3) [] [] [] =
      (createGrid 3 3, evaluateGrid (createGrid 3 3)) :=
  ⟨(claim_C1_baseline_guarantee (createGrid 3 3) [] [] []).1,
    (claim_C1_baseline_guarantee (createGrid 3 3) [] [] []).2
      (fun ms hms => absurd hms (List.not_mem_nil ms))⟩

/-- `updateTileUsageForSegment` only touches the usage map. -/
theorem updateTileUsageForSegment_fields (g : GridState) (seg : BeltSegment) (delta : Int) :
    (updateTileUsageForSegment g seg delta).width = g.width ∧
    (updateTileUsageForSegment g seg delta).height = g.height ∧
    (updateTileUsageForSegment g seg delta).cells = g.cells ∧
    (updateTileUsageForSegment g seg delta).machines = g.machines ∧
    (updateTileUsageForSegment g seg delta).connections = g.connections ∧
    (updateTileUsageForSegment g seg delta).beltPaths = g.beltPaths := by
  simp only [updateTileUsageForSegment]
  split_ifs <;> exact ⟨rfl, rfl, rfl, rfl, rfl, rfl⟩

/-- A fold preserves any grid projection its step preserves. -/
theorem foldl_fields_invariant {α γ : Type _} (proj : GridState → γ)
    (f : GridState → α → GridState) (hf : ∀ g a, proj (f g a) = proj g) (l : List α)
    (g : GridState) : proj (l.foldl f g) = proj g := by
  induction l generalizing g with
  | nil => rfl
  | cons a rest ih => rw [List.foldl_cons, ih, hf]

/-- `applyBeltPath` leaves width, height, machines and connections unchanged. -/
theorem applyBeltPath_fields (g : GridState) (p : BeltPath) :
    (applyBeltPath g p).width = g.width ∧ (applyBeltPath g p).height = g.height ∧
    (applyBeltPath g p).machines = g.machines ∧
    (applyBeltPath g p).connections = g.connections := by
  simp only [applyBeltPath]
  refine ⟨?_, ?_, ?_, ?_⟩
  · exact foldl_fields_invariant GridState.width _
      (fun g0 seg => ((updateTileUsageForSegment_fields _ seg 1).1).trans
        (setCell_fields g0 seg.x seg.y _).1) p.segments g
  · exact foldl_fields_invariant GridState.height _
      (fun g0 seg => ((updateTileUsageForSegment_fields _ seg 1).2.1).trans
        (setCell_fields g0 seg.x seg.y _).2.1) p.segments g
  · exact foldl_fields_invariant GridState.machines _
      (fun g0 seg => ((updateTileUsageForSegment_fields _ seg 1).2.2.2.1).trans
        (setCell_fields g0 seg.x seg.y _).2.2.1) p.segments g
  · exact foldl_fields_invariant GridState.connections _
      (fun g0 seg => ((updateTileUsageForSegment_fields _ seg 1).2.2.2.2.1).trans
        (setCell_fields g0 seg.x seg.y _).2.2.2.1) p.segments g

/-- `routeConnections` leaves the machine map unchanged. -/
theorem routeConnections_machines (cs : List Connection) (g g' : GridState)
    (h : routeConnections g cs = some g') : g'.machines = g.machines := by
  induction cs generalizing g with
  | nil =>
    unfold routeConnections at h
    cases h
    rfl
  | cons c rest ih =>
    unfold routeConnections at h
    rcases hsrc : jget g.machines c.sourceMachineId with _ | src <;> rw [hsrc] at h
    · exact Option.noConfusion h
    rcases htgt : jget g.machines c.targetMachineId with _ | tgt <;> rw [htgt] at h
    · exact Option.noConfusion h
    dsimp only [] at h
    rcases hsp : (getMachinePorts src).2.get? c.sourcePortIndex with _ | sp <;> rw [hsp] at h
    · exact Option.noConfusion h
    rcases htp : (getMachinePorts tgt).1.get? c.targetPortIndex with _ | tp <;> rw [htp] at h
    · exact Option.noConfusion h
    dsimp only [] at h
    rcases hfp : findBeltPath g sp tp c.id with _ | path <;> rw [hfp] at h
    · exact Option.noConfusion h
    exact (ih _ h).trans (applyBeltPath_fields g path).2.2.1

/-- On success, `placeMachine` updates only the stamped cells and registers
the machine. -/
theorem placeMachine_machines (g : GridState) (m : Machine)
    (h : (placeMachine g m).1 = true) :
    (placeMachine g m).2.machines = jset g.machines m.id m := by
  by_cases hcan : canPlaceMachine g m none = true
  · have : (placeMachine g m).2.machines =
        jset ((List.range (getOrientedDimensions m).2).foldl
          (fun acc (dy : Nat) =>
            (List.range (getOrientedDimensions m).1).foldl
              (fun acc2 (dx : Nat) =>
                setCell acc2 (m.x + (dx : Int)) (m.y + (dy : Int))
                  { type := CellType.MACHINE, machineId := some m.id,
                    beltConnectionIds := [] })
              acc)
          g).machines m.id m := by
      unfold placeMachine
      rw [if_pos hcan]
    rw [this, placeMachine_fold_as_positions g m, (foldl_setCell_fields _ _ _).1]
  · exfalso
    unfold placeMachine at h
    rw [if_neg hcan] at h
    exact Bool.false_ne_true h

/-- `placeAllMachines` never disturbs machine-map keys outside the list. -/
theorem placeAllMachines_untouched (ms : List Machine) (g g' : GridState) (k : String)
    (h : placeAllMachines g ms = some g') (hk : ∀ mm ∈ ms, mm.id ≠ k) :
    jget g'.machines k = jget g.machines k := by
  induction ms generalizing g with
  | nil =>
    unfold placeAllMachines at h
    cases h
    rfl
  | cons m0 rest ih =>
    unfold placeAllMachines at h
    by_cases hp : (placeMachine g m0).1 = true
    · rw [if_pos hp] at h
      have := ih (placeMachine g m0).2 h (fun mm hmm => hk mm (List.mem_cons_of_mem _ hmm))
      rw [this, placeMachine_machines g m0 hp,
        jget_jset_ne _ _ _ _ (fun hkk => hk m0 (List.mem_cons_self _ _) hkk.symm)]
    · rw [if_neg hp] at h
      exact absurd h (by simp)

/-- With unique ids, every placed machine is retrievable after
`placeAllMachines`. -/
theorem placeAllMachines_get (ms : List Machine) (g g' : GridState) (mm : Machine)
    (h : placeAllMachines g ms = some g') (hmm : mm ∈ ms)
    (hnd : (ms.map Machine.id).Nodup) : jget g'.machines mm.id = some mm := by
  induction ms generalizing g with
  | nil => simp at hmm
  | cons m0 rest ih =>
    unfold placeAllMachines at h
    by_cases hp : (placeMachine g m0).1 = true
    · rw [if_pos hp] at h
      simp only [List.map_cons, List.nodup_cons] at hnd
      rcases List.mem_cons.mp hmm with he | ht
      · have huntouched := placeAllMachines_untouched rest (placeMachine g m0).2 g' mm.id h
          (fun r hr hre => hnd.1 (by rw [← he, ← hre]; exact List.mem_map.mpr ⟨r, hr, rfl⟩))
        rw [huntouched, placeMachine_machines g m0 hp, he]
        exact jget_jset_self _ _ _
      · exact ih (placeMachine g m0).2 h ht hnd.2
    · rw [if_neg hp] at h
      exact absurd h (by simp)

/-- With unique ids, every machine of a successfully built grid is
retrievable. -/
theorem buildGrid_machines_get (ms : List Machine) (conns : List Connection) (W H : Nat)
    (G : GridState) (hb : buildGrid ms conns W H = some G) (mm : Machine) (hmm : mm ∈ ms)
    (hnd : (ms.map Machine.id).Nodup) : jget G.machines mm.id = some mm := by
  unfold buildGrid at hb
  rcases hpa : placeAllMachines (createGrid W H) ms with _ | placed <;> rw [hpa] at hb
  · exact absurd hb (by simp)
  · have hroute := routeConnections_machines conns _ G hb
    rw [hroute]
    exact placeAllMachines_get ms _ placed mm hpa hmm hnd

/-- `enforceFixedMachines` keeps each machine's id. -/
theorem enforceFixedMachines_ids (ms : List Machine) (f : List (String × Machine)) :
    (enforceFixedMachines ms f).map Machine.id = ms.map Machine.id := by
  unfold enforceFixedMachines
  split
  · rfl
  · rw [List.map_map]
    apply List.map_congr_left
    intro m _
    simp only [Function.comp_apply]
    rcases jget f m.id with _ | fixed <;> rfl

/-- A machine whose id is pinned is mapped to the pinned pose. -/
theorem enforceFixedMachines_mem (ms : List Machine) (f : List (String × Machine))
    (mc mfix : Machine) (hmc : mc ∈ ms) (hf : jget f mc.id = some mfix) :
    { mc with x := mfix.x, y := mfix.y, orientation := mfix.orientation } ∈
      enforceFixedMachines ms f := by
  unfold enforceFixedMachines
  split
  · rename_i hnil
    rw [hnil] at hf
    exact absurd hf (by simp [jget])
  · refine List.mem_map.mpr ⟨mc, hmc, ?_⟩
    rw [hf]

/-- The fixed-machine fold never touches keys other than the ids it stores. -/
theorem buildFixedMachineMap_untouched (l : List Machine) (acc : List (String × Machine))
    (k : String) (h : ∀ mm ∈ l, mm.id ≠ k) :
    jget (l.foldl
      (fun acc m => if isImmovableMachineType m.type then jset acc m.id m else acc) acc) k =
      jget acc k := by
  induction l generalizing acc with
  | nil => rfl
  | cons m0 rest ih =>
    rw [List.foldl_cons]
    rw [ih _ (fun mm hmm => h mm (List.mem_cons_of_mem _ hmm))]
    by_cases h0 : isImmovableMachineType m0.type = true
    · rw [if_pos h0, jget_jset_ne _ _ _ _ (fun hkk => h m0 (List.mem_cons_self _ _) hkk.symm)]
    · rw [if_neg h0]

/-- With unique ids, an immovable machine is stored in the fixed map under its
own id with its original pose. -/
theorem buildFixedMachineMap_get (machines : List Machine) (m : Machine)
    (hm : m ∈ machines) (himm : isImmovableMachineType m.type = true)
    (hnd : (machines.map Machine.id).Nodup) :
    jget (buildFixedMachineMap machines) m.id = some m := by
  unfold buildFixedMachineMap
  have haux : ∀ (l : List Machine) (acc : List (String × Machine)),
      m ∈ l → (l.map Machine.id).Nodup →
      jget (l.foldl
        (fun acc mm => if isImmovableMachineType mm.type then jset acc mm.id mm else acc)
        acc) m.id = some m := by
    intro l
    induction l with
    | nil =>
      intro acc hmem _
      exact absurd hmem (List.not_mem_nil m)
    | cons m0 rest ih =>
      intro acc hmem hnd2
      simp only [List.map_cons, List.nodup_cons] at hnd2
      rw [List.foldl_cons]
      rcases List.mem_cons.mp hmem with he | ht
      · subst he
        rw [buildFixedMachineMap_untouched rest _ m.id
          (fun r hr hre => hnd2.1 (by rw [← hre]; exact List.mem_map.mpr ⟨r, hr, rfl⟩))]
        rw [if_pos himm]
        exact jget_jset_self _ _ _
      · exact ih _ ht hnd2.2
  exact haux machines [] hm hnd

/-- C7: immovable anchors are pinned.  For every immovable (3×1 anchor)
machine of the input grid, the grid returned by the optimizer skeleton holds a
machine under the same id with exactly the input's x, y and orientation, for
every candidate list the stochastic phases produce (candidates keep the
machine-id set, as the move operators do).  The fixed-machine map is built
from the input machines exactly as `runOptimizer` does. -/
theorem claim_C7_immovable_anchors_pinned (grid : GridState) (connections : List Connection)
    (candidates : List (List Machine)) (m : Machine)
    (hmem : (m.id, m) ∈ grid.machines)
    (hkeys : (jkeys grid.machines).Nodup)
    (hids : ∀ e ∈ grid.machines, e.2.id = e.1)
    (himm : isImmovableMachineType m.type = true)
    (hcand : ∀ ms ∈ candidates, (ms.map Machine.id).Nodup ∧ ∃ mc ∈ ms, mc.id = m.id) :
    ∃ mr, jget (runOptimizerSkeleton grid
        (buildFixedMachineMap (grid.machines.map Prod.snd)) connections
        candidates).1.machines m.id = some mr ∧
      mr.x = m.x ∧ mr.y = m.y ∧ mr.orientation = m.orientation := by
  have hnd_ids : ((grid.machines.map Prod.snd).map Machine.id).Nodup := by
    rw [List.map_map, show List.map (Machine.id ∘ Prod.snd) grid.machines =
      List.map Prod.fst grid.machines from List.map_congr_left hids]
    exact hkeys
  have hfix : jget (buildFixedMachineMap (grid.machines.map Prod.snd)) m.id = some m :=
    buildFixedMachineMap_get _ m (List.mem_map.mpr ⟨(m.id, m), hmem, rfl⟩) himm hnd_ids
  have hbase : ∃ mr, jget (cloneGridState grid).machines m.id = some mr ∧
      mr.x = m.x ∧ mr.y = m.y ∧ mr.orientation = m.orientation := by
    rw [cloneGridState_eq]
    exact ⟨m, jget_of_mem_nodup _ _ _ hmem hkeys, rfl, rfl, rfl⟩
  have hstep : ∀ ms ∈ candidates, ∀ built,
      buildGrid (enforceFixedMachines ms (buildFixedMachineMap (grid.machines.map Prod.snd)))
        connections grid.width grid.height = some built →
      ∃ mr, jget built.machines m.id = some mr ∧
        mr.x = m.x ∧ mr.y = m.y ∧ mr.orientation = m.orientation := by
    intro ms hms built hb
    obtain ⟨hnd_ms, mc, hmc_mem, hmc_id⟩ := hcand ms hms
    have hf_mc : jget (buildFixedMachineMap (grid.machines.map Prod.snd)) mc.id = some m := by
      rw [hmc_id]
      exact hfix
    have hmenf := enforceFixedMachines_mem ms _ mc m hmc_mem hf_mc
    have hnd_enf : ((enforceFixedMachines ms
        (buildFixedMachineMap (grid.machines.map Prod.snd))).map Machine.id).Nodup := by
      rw [enforceFixedMachines_ids]
      exact hnd_ms
    have hjget := buildGrid_machines_get _ connections grid.width grid.height built hb
      _ hmenf hnd_enf
    refine ⟨{ mc with x := m.x, y := m.y, orientation := m.orientation }, ?_, rfl, rfl, rfl⟩
    rw [← hmc_id]
    exact hjget
  simp only [runOptimizerSkeleton]
  have hfold : ∀ (cs : List (List Machine)),
      (∀ ms ∈ cs, ms ∈ candidates) →
      ∀ acc : GridState × ScoreBreakdown,
      (∃ mr, jget acc.1.machines m.id = some mr ∧
        mr.x = m.x ∧ mr.y = m.y ∧ mr.orientation = m.orientation) →
      (∃ mr, jget (cs.foldl
          (fun acc ms =>
            match buildGrid
                (enforceFixedMachines ms (buildFixedMachineMap (grid.machines.map Prod.snd)))
                connections grid.width grid.height with
            | none => acc
            | some built =>
              let score := evaluateGrid built
              if score.totalScore < acc.2.totalScore then (cloneGridState built, score)
              else acc)
          acc).1.machines m.id = some mr ∧
        mr.x = m.x ∧ mr.y = m.y ∧ mr.orientation = m.orientation) := by
    intro cs
    induction cs with
    | nil => exact fun _ acc hacc => hacc
    | cons ms rest ih =>
      intro hsub acc hacc
      rw [List.foldl_cons]
      refine ih (fun ms2 hms2 => hsub ms2 (List.mem_cons_of_mem _ hms2)) _ ?_
      cases hb : buildGrid
          (enforceFixedMachines ms (buildFixedMachineMap (grid.machines.map Prod.snd)))
          connections grid.width grid.height with
      | none => exact hacc
      | some built =>
        simp only []
        split
        · rw [cloneGridState_eq]
          exact hstep ms (hsub ms (List.mem_cons_self _ _)) built hb
        · exact hacc
  split
  · exact hbase
  · exact hfold candidates (fun _ h => h) _ hbase

/-- The immovable anchor used by the C7 witness. -/
def c7anchor : Machine :=
  { id := "a", type := MachineType.M3x1, x := 1, y := 1, orientation := Orientation.NORTH }

/-- Witness for C7: a grid holding one anchor, with a candidate that tries to
move and rotate it; the returned grid still pins the anchor's pose. -/
theorem claim_C7_immovable_anchors_pinned_witness :
    ∃ mr, jget (runOptimizerSkeleton (placeMachine (createGrid 8 8) c7anchor).2
        (buildFixedMachineMap ((placeMachine (createGrid 8 8) c7anchor).2.machines.map
          Prod.snd)) []
        [[{ c7anchor with x := 3, y := 4, orientation := Orientation.SOUTH }]]).1.machines
        c7anchor.id = some mr ∧
      mr.x = c7anchor.x ∧ mr.y = c7anchor.y ∧ mr.orientation = c7anchor.orientation :=
  claim_C7_immovable_anchors_pinned (placeMachine (createGrid 8 8) c7anchor).2 []
    [[{ c7anchor with x := 3, y := 4, orientation := Orientation.SOUTH }]] c7anchor
    (by decide) (by decide) (by decide) (by decide) (by decide)

/-- Each neighbour expansion of the A* loop either leaves the accumulator
untouched (one of the skip conditions fired) or pushes the child node priced
by the turn-penalised, crossing-bonused step cost and records its g-score. -/
theorem astarStepDir_cases (grid : GridState) (excl : List ((Int × Int) × BeltTileUsage))
    (gx gy : Int) (current : AStarNode) (closed : List (Int × Int × Option Direction))
    (acc : List AStarNode × List ((Int × Int × Option Direction) × ℚ)) (dir : Direction) :
    astarStepDir grid excl gx gy current closed acc dir = acc ∨
    astarStepDir grid excl gx gy current closed acc dir =
      (heapPush fCompare acc.1
        (AStarNode.child (current.x + (directionToDelta dir).1)
          (current.y + (directionToDelta dir).2)
          (current.g + 1 +
            (if current.direction ≠ none ∧ current.direction ≠ some dir then (2 : ℚ) else 0) +
            (if (cellAt grid (current.x + (directionToDelta dir).1)
                (current.y + (directionToDelta dir).2)).type = CellType.BELT
              then (1 / 2 : ℚ) else 0))
          (heuristic (current.x + (directionToDelta dir).1)
            (current.y + (directionToDelta dir).2) gx gy)
          ((current.g + 1 +
            (if current.direction ≠ none ∧ current.direction ≠ some dir then (2 : ℚ) else 0) +
            (if (cellAt grid (current.x + (directionToDelta dir).1)
                (current.y + (directionToDelta dir).2)).type = CellType.BELT
              then (1 / 2 : ℚ) else 0)) +
            heuristic (current.x + (directionToDelta dir).1)
              (current.y + (directionToDelta dir).2) gx gy)
          current dir),
        jset acc.2
          (stateKey (current.x + (directionToDelta dir).1)
            (current.y + (directionToDelta dir).2) (some dir))
          (current.g + 1 +
            (if current.direction ≠ none ∧ current.direction ≠ some dir then (2 : ℚ) else 0) +
            (if (cellAt grid (current.x + (directionToDelta dir).1)
                (current.y + (directionToDelta dir).2)).type = CellType.BELT
              then (1 / 2 : ℚ) else 0))) := by
  simp only [astarStepDir, decide_eq_true_eq]
  repeat' split
  all_goals first | exact Or.inl rfl | exact Or.inr rfl

/-- C5: the A* cost model of `findBeltPath`.  (1) The heuristic is Manhattan
distance.  (2) Every neighbour expansion either skips or pushes a node whose
g-cost is exactly `current.g + 1 + turn_penalty + crossing_bonus`, with
turn_penalty 2 iff the move direction differs from the incoming one and
crossing_bonus 1/2 iff the target tile already holds a belt, and whose f-value
adds the Manhattan heuristic to the goal.  (3) When the endpoint guards pass,
the search starts from a single node whose incoming direction is the source
port's `approachDirection` with g-cost 0; consequently (4) expanding the start
node onto a non-belt tile is priced exactly 1 iff the move continues in the
approach direction. -/
theorem claim_C5_step_cost_and_start :
    (∀ ax ay bx byg : Int,
      heuristic ax ay bx byg = (((ax - bx).natAbs : ℚ)) + (((ay - byg).natAbs : ℚ))) ∧
    (∀ (grid : GridState) (excl : List ((Int × Int) × BeltTileUsage)) (gx gy : Int)
        (current : AStarNode) (closed : List (Int × Int × Option Direction))
        (acc : List AStarNode × List ((Int × Int × Option Direction) × ℚ)) (dir : Direction),
      astarStepDir grid excl gx gy current closed acc dir = acc ∨
      astarStepDir grid excl gx gy current closed acc dir =
        (heapPush fCompare acc.1
          (AStarNode.child (current.x + (directionToDelta dir).1)
            (current.y + (directionToDelta dir).2)
            (current.g + 1 +
              (if current.direction ≠ none ∧ current.direction ≠ some dir then (2 : ℚ) else 0) +
              (if (cellAt grid (current.x + (directionToDelta dir).1)
                  (current.y + (directionToDelta dir).2)).type = CellType.BELT
                then (1 / 2 : ℚ) else 0))
            (heuristic (current.x + (directionToDelta dir).1)
              (current.y + (directionToDelta dir).2) gx gy)
            ((current.g + 1 +
              (if current.direction ≠ none ∧ current.direction ≠ some dir then (2 : ℚ) else 0) +
              (if (cellAt grid (current.x + (directionToDelta dir).1)
                  (current.y + (directionToDelta dir).2)).type = CellType.BELT
                then (1 / 2 : ℚ) else 0)) +
              heuristic (current.x + (directionToDelta dir).1)
                (current.y + (directionToDelta dir).2) gx gy)
            current dir),
          jset acc.2
            (stateKey (current.x + (directionToDelta dir).1)
              (current.y + (directionToDelta dir).2) (some dir))
            (current.g + 1 +
              (if current.direction ≠ none ∧ current.direction ≠ some dir then (2 : ℚ) else 0) +
              (if (cellAt grid (current.x + (directionToDelta dir).1)
                  (current.y + (directionToDelta dir).2)).type = CellType.BELT
                then (1 / 2 : ℚ) else 0)))) ∧
    (∀ (grid : GridState) (sourcePort targetPort : Port) (connectionId : String),
      (isInBounds grid (getPortExternalTile sourcePort).1 (getPortExternalTile sourcePort).2 ∧
        isInBounds grid (getPortExternalTile targetPort).1
          (getPortExternalTile targetPort).2) →
      ¬ (cellAt grid (getPortExternalTile sourcePort).1
          (getPortExternalTile sourcePort).2).type = CellType.MACHINE →
      ¬ (cellAt grid (getPortExternalTile targetPort).1
          (getPortExternalTile targetPort).2).type = CellType.MACHINE →
      ¬ (0 < ((getEffectiveOccupiedTileInfo grid
            (buildPathOccupiedInfo (jget grid.beltPaths connectionId))
            (getPortExternalTile sourcePort).1
            (getPortExternalTile sourcePort).2).map (·.cornerCount)).getD 0 ∨
          0 < ((getEffectiveOccupiedTileInfo grid
            (buildPathOccupiedInfo (jget grid.beltPaths connectionId))
            (getPortExternalTile targetPort).1
            (getPortExternalTile targetPort).2).map (·.cornerCount)).getD 0) →
      findBeltPath grid sourcePort targetPort connectionId =
        astarLoop grid (buildPathOccupiedInfo (jget grid.beltPaths connectionId))
          (getPortExternalTile targetPort).1 (getPortExternalTile targetPort).2 connectionId
          (16 * grid.width * grid.height + 16)
          [AStarNode.root (getPortExternalTile sourcePort).1 (getPortExternalTile sourcePort).2
            0
            (heuristic (getPortExternalTile sourcePort).1 (getPortExternalTile sourcePort).2
              (getPortExternalTile targetPort).1 (getPortExternalTile targetPort).2)
            (heuristic (getPortExternalTile sourcePort).1 (getPortExternalTile sourcePort).2
              (getPortExternalTile targetPort).1 (getPortExternalTile targetPort).2)
            (some sourcePort.approachDirection)]
          []
          [(stateKey (getPortExternalTile sourcePort).1 (getPortExternalTile sourcePort).2
            (some sourcePort.approachDirection), 0)]) ∧
    (∀ (grid : GridState) (excl : List ((Int × Int) × BeltTileUsage)) (gx gy x y : Int)
        (h0 : ℚ) (d0 : Direction) (closed : List (Int × Int × Option Direction))
        (acc : List AStarNode × List ((Int × Int × Option Direction) × ℚ)) (dir : Direction),
      (cellAt grid (x + (directionToDelta dir).1) (y + (directionToDelta dir).2)).type ≠
        CellType.BELT →
      astarStepDir grid excl gx gy (AStarNode.root x y 0 h0 h0 (some d0)) closed acc dir =
        acc ∨
      ∃ tG : ℚ,
        astarStepDir grid excl gx gy (AStarNode.root x y 0 h0 h0 (some d0)) closed acc dir =
          (heapPush fCompare acc.1
            (AStarNode.child (x + (directionToDelta dir).1) (y + (directionToDelta dir).2)
              tG
              (heuristic (x + (directionToDelta dir).1) (y + (directionToDelta dir).2) gx gy)
              (tG + heuristic (x + (directionToDelta dir).1) (y + (directionToDelta dir).2)
                gx gy)
              (AStarNode.root x y 0 h0 h0 (some d0)) dir),
            jset acc.2 (stateKey (x + (directionToDelta dir).1) (y + (directionToDelta dir).2)
              (some dir)) tG) ∧
        (tG = 1 ↔ dir = d0)) := by
  refine ⟨fun ax ay bx byg => rfl, astarStepDir_cases, ?_, ?_⟩
  · intro grid sourcePort targetPort connectionId hbounds hsm htm hcorner
    unfold findBeltPath
    rw [if_neg (by push_neg; exact ⟨hbounds.1, hbounds.2⟩), if_neg hsm, if_neg htm,
      if_neg hcorner]
  · intro grid excl gx gy x y h0 d0 closed acc dir hnb
    rcases astarStepDir_cases grid excl gx gy (AStarNode.root x y 0 h0 h0 (some d0)) closed acc
      dir with h | h
    · exact Or.inl h
    · right
      simp only [AStarNode.x, AStarNode.y, AStarNode.g, AStarNode.direction] at h
      rw [if_neg hnb] at h
      by_cases hd : dir = d0
      · rw [if_neg (by simp [hd])] at h
        exact ⟨_, h, by norm_num [hd]⟩
      · rw [if_pos ⟨by simp, by simp [Ne.symm hd]⟩] at h
        exact ⟨_, h, by norm_num [hd]⟩

/-- Machine for the C5 witness. -/
def c5mach : Machine :=
  { id := "m5", type := MachineType.M3x3, x := 0, y := 0, orientation := Orientation.NORTH }

/-- Grid for the C5 witness. -/
def c5grid : GridState :=
  (placeMachine (createGrid 6 6) c5mach).2

/-- A port of `c5mach` (its middle output, approached downward). -/
def c5port : Port :=
  { machineId := "m5", portType := PortType.OUTPUT, index := 1, x := 1, y := 2,
    approachDirection := Direction.DOWN }

/-- Connection id for the C5 witness. -/
def c5cid : String := "w5"

/-- Witness for C5 at concrete inputs: the guard hypotheses hold on a 6×6 grid
with one machine, so the search starts from the approach-direction root node;
and a concrete root expansion satisfies the cost dichotomy. -/
theorem claim_C5_step_cost_and_start_witness :
    (findBeltPath c5grid c5port c5port c5cid =
      astarLoop c5grid (buildPathOccupiedInfo (jget c5grid.beltPaths c5cid))
        (getPortExternalTile c5port).1 (getPortExternalTile c5port).2 c5cid
        (16 * c5grid.width * c5grid.height + 16)
        [AStarNode.root (getPortExternalTile c5port).1 (getPortExternalTile c5port).2 0
          (heuristic (getPortExternalTile c5port).1 (getPortExternalTile c5port).2
            (getPortExternalTile c5port).1 (getPortExternalTile c5port).2)
          (heuristic (getPortExternalTile c5port).1 (getPortExternalTile c5port).2
            (getPortExternalTile c5port).1 (getPortExternalTile c5port).2)
          (some c5port.approachDirection)]
        []
        [(stateKey (getPortExternalTile c5port).1 (getPortExternalTile c5port).2
          (some c5port.approachDirection), 0)]) ∧
    (astarStepDir c5grid [] 1 5 (AStarNode.root 1 3 0 2 2 (some Direction.DOWN)) [] ([], [])
        Direction.DOWN = ([], []) ∨
      ∃ tG : ℚ,
        astarStepDir c5grid [] 1 5 (AStarNode.root 1 3 0 2 2 (some Direction.DOWN)) [] ([], [])
          Direction.DOWN =
          (heapPush fCompare ([] : List AStarNode)
            (AStarNode.child (1 + (directionToDelta Direction.DOWN).1)
              (3 + (directionToDelta Direction.DOWN).2) tG
              (heuristic (1 + (directionToDelta Direction.DOWN).1)
                (3 + (directionToDelta Direction.DOWN).2) 1 5)
              (tG + heuristic (1 + (directionToDelta Direction.DOWN).1)
                (3 + (directionToDelta Direction.DOWN).2) 1 5)
              (AStarNode.root 1 3 0 2 2 (some Direction.DOWN)) Direction.DOWN),
            jset ([] : List ((Int × Int × Option Direction) × ℚ))
              (stateKey (1 + (directionToDelta Direction.DOWN).1)
                (3 + (directionToDelta Direction.DOWN).2) (some Direction.DOWN)) tG) ∧
        (tG = 1 ↔ Direction.DOWN = Direction.DOWN)) :=
  ⟨claim_C5_step_cost_and_start.2.2.1 c5grid c5port c5port c5cid (by decide) (by decide)
      (by decide) (by decide),
    claim_C5_step_cost_and_start.2.2.2 c5grid [] 1 5 1 3 2 Direction.DOWN [] ([], [])
      Direction.DOWN (by decide)⟩

/-- The root of a node's parent chain (the node the search started from). -/
def chainRoot : AStarNode → AStarNode
  | .root x y g h f d => .root x y g h f d
  | .child _ _ _ _ _ parent _ => chainRoot parent

/-- A node whose parent chain starts at coordinates `(sx, sy)`. -/
def rootedAt (sx sy : Int) (n : AStarNode) : Prop :=
  (chainRoot n).x = sx ∧ (chainRoot n).y = sy

/-- The `toDirection` that `fillToDirections` computes from one segment to the
next. -/
def fillDir (s next : BeltSegment) : Option Direction :=
  if next.x - s.x = 1 then some Direction.RIGHT
  else if next.x - s.x = -1 then some Direction.LEFT
  else if next.y - s.y = 1 then some Direction.DOWN
  else if next.y - s.y = -1 then some Direction.UP
  else s.toDirection

theorem mem_lswap {α : Type _} (l : List α) (i j : Nat) (a : α) (h : a ∈ lswap l i j) :
    a ∈ l := by
  unfold lswap at h
  split at h
  next x y hx hy =>
    rcases List.mem_or_eq_of_mem_set h with h' | rfl
    · rcases List.mem_or_eq_of_mem_set h' with h'' | rfl
      · exact h''
      · exact List.get?_mem hy
    · exact List.get?_mem hx
  next => exact h

theorem mem_bubbleUp {α : Type _} (cmp : α → α → ℚ) (fuel : Nat) (l : List α) (idx : Nat)
    (a : α) (h : a ∈ bubbleUp cmp fuel l idx) : a ∈ l := by
  induction fuel generalizing l idx with
  | zero => exact h
  | succ n ih =>
    simp only [bubbleUp] at h
    repeat' split at h
    all_goals first
      | exact mem_lswap _ _ _ _ (ih _ _ h)
      | exact h

theorem mem_sinkDown {α : Type _} (cmp : α → α → ℚ) (fuel : Nat) (l : List α) (idx : Nat)
    (a : α) (h : a ∈ sinkDown cmp fuel l idx) : a ∈ l := by
  induction fuel generalizing l idx with
  | zero => exact h
  | succ n ih =>
    simp only [sinkDown] at h
    repeat' split at h
    all_goals first
      | exact mem_lswap _ _ _ _ (ih _ _ h)
      | exact h

theorem mem_heapPush {α : Type _} (cmp : α → α → ℚ) (l : List α) (item a : α)
    (h : a ∈ heapPush cmp l item) : a ∈ l ∨ a = item := by
  have h2 : a ∈ l ++ [item] := mem_bubbleUp cmp _ _ _ a h
  simpa using h2

theorem heapPop_mem {α : Type _} (cmp : α → α → ℚ) (l : List α) (c : α) (rest : List α)
    (h : heapPop cmp l = (some c, rest)) : c ∈ l ∧ ∀ a ∈ rest, a ∈ l := by
  cases l with
  | nil => simp [heapPop] at h
  | cons top t =>
    simp only [heapPop] at h
    split at h
    next =>
      rw [Prod.mk.injEq] at h
      obtain ⟨h1, h2⟩ := h
      obtain rfl := Option.some.inj h1
      subst h2
      exact ⟨List.mem_cons_self _ _, fun a ha => absurd ha (List.not_mem_nil a)⟩
    next last hlast =>
      split at h
      · rw [Prod.mk.injEq] at h
        obtain ⟨h1, h2⟩ := h
        obtain rfl := Option.some.inj h1
        subst h2
        exact ⟨List.mem_cons_self _ _, fun a ha => absurd ha (List.not_mem_nil a)⟩
      · rw [Prod.mk.injEq] at h
        obtain ⟨h1, h2⟩ := h
        obtain rfl := Option.some.inj h1
        subst h2
        refine ⟨List.mem_cons_self _ _, fun a ha => ?_⟩
        have ha2 := mem_sinkDown _ _ _ _ _ ha
        rcases List.mem_or_eq_of_mem_set ha2 with ha3 | rfl
        · exact (List.dropLast_sublist (top :: t)).subset ha3
        · obtain ⟨hne, hlx⟩ := List.mem_getLast?_eq_getLast (Option.mem_def.mpr hlast)
          rw [hlx]
          exact List.getLast_mem hne

theorem astarStepDir_rooted (grid : GridState) (excl : List ((Int × Int) × BeltTileUsage))
    (gx gy : Int) (current : AStarNode) (closed : List (Int × Int × Option Direction))
    (acc : List AStarNode × List ((Int × Int × Option Direction) × ℚ)) (dir : Direction)
    (sx sy : Int) (hcur : rootedAt sx sy current) (hacc : ∀ n ∈ acc.1, rootedAt sx sy n) :
    ∀ n ∈ (astarStepDir grid excl gx gy current closed acc dir).1, rootedAt sx sy n := by
  rcases astarStepDir_cases grid excl gx gy current closed acc dir with h | h
  · rw [h]; exact hacc
  · rw [h]
    intro n hn
    rcases mem_heapPush _ _ _ _ hn with hn | rfl
    · exact hacc n hn
    · exact hcur

theorem foldl_astarStepDir_rooted (dirs : List Direction) (grid : GridState)
    (excl : List ((Int × Int) × BeltTileUsage)) (gx gy : Int) (current : AStarNode)
    (closed : List (Int × Int × Option Direction))
    (acc : List AStarNode × List ((Int × Int × Option Direction) × ℚ))
    (sx sy : Int) (hcur : rootedAt sx sy current) (hacc : ∀ n ∈ acc.1, rootedAt sx sy n) :
    ∀ n ∈ (dirs.foldl (astarStepDir grid excl gx gy current closed) acc).1,
      rootedAt sx sy n := by
  induction dirs generalizing acc with
  | nil => exact hacc
  | cons d ds ih =>
    exact ih _ (astarStepDir_rooted grid excl gx gy current closed acc d sx sy hcur hacc)

theorem astarLoop_some_endNode (grid : GridState) (excl : List ((Int × Int) × BeltTileUsage))
    (gx gy : Int) (cid : String) (fuel : Nat) (openSet : List AStarNode)
    (closed : List (Int × Int × Option Direction))
    (gScores : List ((Int × Int × Option Direction) × ℚ)) (sx sy : Int) (p : BeltPath)
    (hopen : ∀ n ∈ openSet, rootedAt sx sy n)
    (h : astarLoop grid excl gx gy cid fuel openSet closed gScores = some p) :
    ∃ endNode, rootedAt sx sy endNode ∧ endNode.x = gx ∧ endNode.y = gy ∧
      p = reconstructPath endNode cid := by
  induction fuel generalizing openSet closed gScores with
  | zero => exact absurd h (by simp [astarLoop])
  | succ n ih =>
    simp only [astarLoop] at h
    rcases hp : heapPop fCompare openSet with ⟨copt, openRest⟩
    rw [hp] at h
    cases copt with
    | none => exact Option.noConfusion h
    | some current =>
      obtain ⟨hcmem, hrest⟩ := heapPop_mem fCompare openSet current openRest hp
      dsimp only [] at h
      split at h
      next hgoal =>
        exact ⟨current, hopen current hcmem, hgoal.1, hgoal.2, (Option.some.inj h).symm⟩
      next =>
        split at h
        · exact ih openRest closed gScores (fun a ha => hopen a (hrest a ha)) h
        · exact ih _ _ _
            (foldl_astarStepDir_rooted DIRECTIONS grid excl gx gy current _ (openRest, gScores)
              sx sy (hopen current hcmem) (fun a ha => hopen a (hrest a ha))) h

theorem segsOf_head (n : AStarNode) :
    ∃ s t, segsOf n = s :: t ∧ s.x = (chainRoot n).x ∧ s.y = (chainRoot n).y := by
  induction n with
  | root x y g h f d => exact ⟨_, [], rfl, rfl, rfl⟩
  | child x y g h f parent dir ih =>
    obtain ⟨s, t, heq, hx, hy⟩ := ih
    exact ⟨s, t ++ [BeltSegment.mk x y (some (oppositeDirection dir)) none],
      by rw [segsOf, heq]; rfl, hx, hy⟩

theorem segsOf_getLast (n : AStarNode) :
    ∃ s t, segsOf n = t ++ [s] ∧ s.x = n.x ∧ s.y = n.y := by
  cases n with
  | root x y g h f d => exact ⟨_, [], rfl, rfl, rfl⟩
  | child x y g h f parent dir => exact ⟨_, segsOf parent, rfl, rfl, rfl⟩

theorem fillToDirections_head (s : BeltSegment) (t : List BeltSegment) :
    ∃ s' t', fillToDirections (s :: t) = s' :: t' ∧ s'.x = s.x ∧ s'.y = s.y := by
  cases t with
  | nil => exact ⟨s, [], rfl, rfl, rfl⟩
  | cons next rest => exact ⟨_, _, rfl, rfl, rfl⟩

theorem fillToDirections_cons_cons (a b : BeltSegment) (r : List BeltSegment) :
    fillToDirections (a :: b :: r) =
      { a with toDirection := fillDir a b } :: fillToDirections (b :: r) := rfl

theorem fillToDirections_last (t : List BeltSegment) (s : BeltSegment) :
    ∃ s' t', fillToDirections (t ++ [s]) = t' ++ [s'] ∧ s'.x = s.x ∧ s'.y = s.y := by
  induction t with
  | nil => exact ⟨s, [], rfl, rfl, rfl⟩
  | cons a t' ih =>
    obtain ⟨s', t'', heq, hx, hy⟩ := ih
    rcases hq : t' ++ [s] with _ | ⟨b, r⟩
    · exact absurd hq (by simp)
    · rw [hq] at heq
      refine ⟨s', { a with toDirection := fillDir a b } :: t'', ?_, hx, hy⟩
      show fillToDirections (a :: (t' ++ [s])) = _
      rw [hq, fillToDirections_cons_cons, heq, List.cons_append]

theorem reconstructPath_endpoints (endNode : AStarNode) (cid : String) :
    ∃ s0 sl, (reconstructPath endNode cid).segments.head? = some s0 ∧
      (reconstructPath endNode cid).segments.getLast? = some sl ∧
      s0.x = (chainRoot endNode).x ∧ s0.y = (chainRoot endNode).y ∧
      sl.x = endNode.x ∧ sl.y = endNode.y := by
  obtain ⟨s, t, heq, hx, hy⟩ := segsOf_head endNode
  obtain ⟨s2, t2, heq2, hx2, hy2⟩ := segsOf_getLast endNode
  obtain ⟨s0, t0, hf, hfx, hfy⟩ := fillToDirections_head s t
  obtain ⟨sl, tl, hl, hlx, hly⟩ := fillToDirections_last t2 s2
  refine ⟨s0, sl, ?_, ?_, by rw [hfx, hx], by rw [hfy, hy], by rw [hlx, hx2],
    by rw [hly, hy2]⟩
  · show (fillToDirections (segsOf endNode)).head? = some s0
    rw [heq, hf]
    rfl
  · show (fillToDirections (segsOf endNode)).getLast? = some sl
    rw [heq2, hl]
    exact List.getLast?_concat _

/-- C6: `findBeltPath` returns `none` exactly when an endpoint external tile is
out of bounds, an endpoint external tile is a MACHINE cell, the effective usage
(excluding the connection's own existing path) at the start or end tile has a
positive corner count, or the A* loop exhausts its open set without reaching
the goal; in every other case it returns a path whose first segment lies on the
source port's external tile and whose last segment lies on the target port's
external tile. -/
theorem claim_C6_findBeltPath_characterization (grid : GridState) (src tgt : Port)
    (cid : String) :
    (findBeltPath grid src tgt cid = none ↔
      (¬ isInBounds grid (getPortExternalTile src).1 (getPortExternalTile src).2 ∨
        ¬ isInBounds grid (getPortExternalTile tgt).1 (getPortExternalTile tgt).2) ∨
      (cellAt grid (getPortExternalTile src).1 (getPortExternalTile src).2).type =
        CellType.MACHINE ∨
      (cellAt grid (getPortExternalTile tgt).1 (getPortExternalTile tgt).2).type =
        CellType.MACHINE ∨
      (0 < (((getEffectiveOccupiedTileInfo grid
            (buildPathOccupiedInfo (jget grid.beltPaths cid))
            (getPortExternalTile src).1 (getPortExternalTile src).2).map
          (·.cornerCount)).getD 0) ∨
        0 < (((getEffectiveOccupiedTileInfo grid
            (buildPathOccupiedInfo (jget grid.beltPaths cid))
            (getPortExternalTile tgt).1 (getPortExternalTile tgt).2).map
          (·.cornerCount)).getD 0)) ∨
      astarLoop grid (buildPathOccupiedInfo (jget grid.beltPaths cid))
        (getPortExternalTile tgt).1 (getPortExternalTile tgt).2 cid
        (16 * grid.width * grid.height + 16)
        [AStarNode.root (getPortExternalTile src).1 (getPortExternalTile src).2 0
          (heuristic (getPortExternalTile src).1 (getPortExternalTile src).2
            (getPortExternalTile tgt).1 (getPortExternalTile tgt).2)
          (heuristic (getPortExternalTile src).1 (getPortExternalTile src).2
            (getPortExternalTile tgt).1 (getPortExternalTile tgt).2)
          (some src.approachDirection)] []
        [(stateKey (getPortExternalTile src).1 (getPortExternalTile src).2
          (some src.approachDirection), 0)] = none) ∧
    (∀ p, findBeltPath grid src tgt cid = some p →
      ∃ s0 sl, p.segments.head? = some s0 ∧ p.segments.getLast? = some sl ∧
        s0.x = (getPortExternalTile src).1 ∧ s0.y = (getPortExternalTile src).2 ∧
        sl.x = (getPortExternalTile tgt).1 ∧ sl.y = (getPortExternalTile tgt).2) := by
  constructor
  · simp only [findBeltPath]
    split_ifs with h1 h2 h3 h4
    · exact iff_of_true rfl (Or.inl h1)
    · exact iff_of_true rfl (Or.inr (Or.inl h2))
    · exact iff_of_true rfl (Or.inr (Or.inr (Or.inl h3)))
    · exact iff_of_true rfl (Or.inr (Or.inr (Or.inr (Or.inl h4))))
    · constructor
      · intro h
        exact Or.inr (Or.inr (Or.inr (Or.inr h)))
      · rintro (h | h | h | h | h)
        · exact absurd h h1
        · exact absurd h h2
        · exact absurd h h3
        · exact absurd h h4
        · exact h
  · intro p hp
    simp only [findBeltPath] at hp
    split_ifs at hp
    have hopen : ∀ n ∈ [AStarNode.root (getPortExternalTile src).1
        (getPortExternalTile src).2 0
        (heuristic (getPortExternalTile src).1 (getPortExternalTile src).2
          (getPortExternalTile tgt).1 (getPortExternalTile tgt).2)
        (heuristic (getPortExternalTile src).1 (getPortExternalTile src).2
          (getPortExternalTile tgt).1 (getPortExternalTile tgt).2)
        (some src.approachDirection)],
        rootedAt (getPortExternalTile src).1 (getPortExternalTile src).2 n := by
      intro n hn
      rw [List.mem_singleton.mp hn]
      exact ⟨rfl, rfl⟩
    obtain ⟨endNode, hrooted, hgx, hgy, rfl⟩ :=
      astarLoop_some_endNode grid (buildPathOccupiedInfo (jget grid.beltPaths cid))
        (getPortExternalTile tgt).1 (getPortExternalTile tgt).2 cid
        (16 * grid.width * grid.height + 16) _ [] _
        (getPortExternalTile src).1 (getPortExternalTile src).2 p hopen hp
    obtain ⟨s0, sl, hh, hl, hx0, hy0, hxl, hyl⟩ := reconstructPath_endpoints endNode cid
    exact ⟨s0, sl, hh, hl, by rw [hx0, hrooted.1], by rw [hy0, hrooted.2],
      by rw [hxl, hgx], by rw [hyl, hgy]⟩

/-- Witness for C6 at concrete inputs: on the 6×6 one-machine grid, routing a
port to itself succeeds with a single-segment path sitting on the port's
external tile at both ends. -/
theorem claim_C6_findBeltPath_characterization_witness :
    ∃ s0 sl,
      (BeltPath.mk c5cid [BeltSegment.mk 1 3 none none]).segments.head? = some s0 ∧
      (BeltPath.mk c5cid [BeltSegment.mk 1 3 none none]).segments.getLast? = some sl ∧
      s0.x = (getPortExternalTile c5port).1 ∧ s0.y = (getPortExternalTile c5port).2 ∧
      sl.x = (getPortExternalTile c5port).1 ∧ sl.y = (getPortExternalTile c5port).2 :=
  (claim_C6_findBeltPath_characterization c5grid c5port c5port c5cid).2
    (BeltPath.mk c5cid [BeltSegment.mk 1 3 none none]) (by rfl)

/-- Association maps from tile keys to usage counters. -/
abbrev UsageMap : Type := List ((Int × Int) × BeltTileUsage)

/-- Componentwise sum of usage counters. -/
def addU (a b : BeltTileUsage) : BeltTileUsage :=
  { horizontalCount := a.horizontalCount + b.horizontalCount
    verticalCount := a.verticalCount + b.verticalCount
    cornerCount := a.cornerCount + b.cornerCount }

/-- Componentwise integer scaling of a usage counter. -/
def scaleU (d : Int) (a : BeltTileUsage) : BeltTileUsage :=
  { horizontalCount := d * a.horizontalCount
    verticalCount := d * a.verticalCount
    cornerCount := d * a.cornerCount }

/-- All counters nonnegative. -/
def nonnegU (a : BeltTileUsage) : Prop :=
  0 ≤ a.horizontalCount ∧ 0 ≤ a.verticalCount ∧ 0 ≤ a.cornerCount

/-- The usage contribution of a single belt segment. -/
def segInc (seg : BeltSegment) : BeltTileUsage :=
  if isCornerSegment seg then { horizontalCount := 0, verticalCount := 0, cornerCount := 1 }
  else
    match getSegmentAxis seg with
    | some Axis.H => { horizontalCount := 1, verticalCount := 0, cornerCount := 0 }
    | some Axis.V => { horizontalCount := 0, verticalCount := 1, cornerCount := 0 }
    | none => { horizontalCount := 0, verticalCount := 0, cornerCount := 0 }

/-- The `beltTileUsage` action of `updateTileUsageForSegment`, as a pure map
operation. -/
def uStep (u : UsageMap) (seg : BeltSegment) (delta : Int) : UsageMap :=
  let key := tileKey seg.x seg.y
  let current := (jget u key).getD createEmptyOccupiedTileInfo
  let updated :=
    if isCornerSegment seg then { current with cornerCount := current.cornerCount + delta }
    else
      match getSegmentAxis seg with
      | some Axis.H => { current with horizontalCount := current.horizontalCount + delta }
      | some Axis.V => { current with verticalCount := current.verticalCount + delta }
      | none => current
  if updated.cornerCount ≤ 0 ∧ updated.horizontalCount ≤ 0 ∧ updated.verticalCount ≤ 0 then
    jdel u key
  else
    jset u key
      { horizontalCount := max 0 updated.horizontalCount
        verticalCount := max 0 updated.verticalCount
        cornerCount := max 0 updated.cornerCount }

/-- Total usage contribution of a segment list at one tile key. -/
def incsOf (segs : List BeltSegment) (k : Int × Int) : BeltTileUsage :=
  segs.foldr (fun s c => if tileKey s.x s.y = k then addU (segInc s) c else c)
    createEmptyOccupiedTileInfo

/-- Keys first touched (with a real contribution) by the segment list, beyond a
base key set, in first-touch order. -/
def freshKeysOf (segs : List BeltSegment) (base : List (Int × Int)) : List (Int × Int) :=
  segs.foldl
    (fun ks s =>
      if segInc s = createEmptyOccupiedTileInfo ∨ tileKey s.x s.y ∈ base ∨
          tileKey s.x s.y ∈ ks then ks
      else ks ++ [tileKey s.x s.y])
    []

/-- Original usage entries bumped in place by a per-key contribution. -/
def mapPart (u0 : UsageMap) (v : (Int × Int) → BeltTileUsage) : UsageMap :=
  u0.map (fun e => (e.1, addU e.2 (v e.1)))

/-- Fresh-key usage entries: one per fresh key with a nonzero contribution, in
the given order. -/
def freshPart (fresh : List (Int × Int)) (v : (Int × Int) → BeltTileUsage) : UsageMap :=
  fresh.filterMap
    (fun k => if v k = createEmptyOccupiedTileInfo then none else some (k, v k))

/-- The usage map midway through applying/removing a path: original entries
bumped in place by the remaining contributions, then the fresh keys that still
have a nonzero remaining contribution, in first-touch order. -/
def shapeU (u0 : UsageMap) (fresh : List (Int × Int)) (R : List BeltSegment) : UsageMap :=
  mapPart u0 (fun k => incsOf R k) ++ freshPart fresh (fun k => incsOf R k)

theorem addU_zero (a : BeltTileUsage) : addU a createEmptyOccupiedTileInfo = a := by
  cases a
  simp [addU, createEmptyOccupiedTileInfo]

theorem zero_addU (a : BeltTileUsage) : addU createEmptyOccupiedTileInfo a = a := by
  cases a
  simp [addU, createEmptyOccupiedTileInfo]

theorem addU_assoc (a b c : BeltTileUsage) : addU (addU a b) c = addU a (addU b c) := by
  cases a; cases b; cases c
  simp only [addU, BeltTileUsage.mk.injEq]
  exact ⟨by ring, by ring, by ring⟩

theorem scaleU_one (a : BeltTileUsage) : scaleU 1 a = a := by
  cases a
  simp [scaleU]

theorem nonnegU_zero : nonnegU createEmptyOccupiedTileInfo := by
  exact ⟨le_refl 0, le_refl 0, le_refl 0⟩

theorem nonnegU_addU (a b : BeltTileUsage) (ha : nonnegU a) (hb : nonnegU b) :
    nonnegU (addU a b) := by
  obtain ⟨h1, h2, h3⟩ := ha
  obtain ⟨h4, h5, h6⟩ := hb
  exact ⟨by simp only [addU]; omega, by simp only [addU]; omega, by simp only [addU]; omega⟩

theorem nonnegU_segInc (s : BeltSegment) : nonnegU (segInc s) := by
  simp only [segInc]
  repeat' split
  all_goals exact ⟨by decide, by decide, by decide⟩

/-- A nonnegative nonzero counter has a positive component. -/
theorem somePos_of_ne_zero (a : BeltTileUsage) (ha : nonnegU a)
    (hne : a ≠ createEmptyOccupiedTileInfo) :
    0 < a.horizontalCount ∨ 0 < a.verticalCount ∨ 0 < a.cornerCount := by
  obtain ⟨h1, h2, h3⟩ := ha
  by_contra hc
  push_neg at hc
  obtain ⟨c1, c2, c3⟩ := hc
  apply hne
  cases a
  simp only [createEmptyOccupiedTileInfo, BeltTileUsage.mk.injEq]
  simp only at h1 h2 h3 c1 c2 c3
  omega

theorem addU_eq_zero (a b : BeltTileUsage) (ha : nonnegU a) (hb : nonnegU b)
    (h : addU a b = createEmptyOccupiedTileInfo) :
    a = createEmptyOccupiedTileInfo ∧ b = createEmptyOccupiedTileInfo := by
  obtain ⟨h1, h2, h3⟩ := ha
  obtain ⟨h4, h5, h6⟩ := hb
  cases a; cases b
  simp only [addU, createEmptyOccupiedTileInfo, BeltTileUsage.mk.injEq] at h ⊢
  simp only at h1 h2 h3 h4 h5 h6
  omega

theorem incsOf_nil (k : Int × Int) : incsOf [] k = createEmptyOccupiedTileInfo := rfl

theorem incsOf_cons (s : BeltSegment) (R : List BeltSegment) (k : Int × Int) :
    incsOf (s :: R) k =
      if tileKey s.x s.y = k then addU (segInc s) (incsOf R k) else incsOf R k := rfl

theorem incsOf_foldr_shift (P : List BeltSegment) (k : Int × Int) (x : BeltTileUsage) :
    P.foldr (fun s c => if tileKey s.x s.y = k then addU (segInc s) c else c) x =
      addU (incsOf P k) x := by
  induction P with
  | nil => exact (zero_addU x).symm
  | cons s t ih =>
    simp only [List.foldr_cons, ih, incsOf_cons]
    split_ifs
    · rw [addU_assoc]
    · rfl

theorem incsOf_append (P Q : List BeltSegment) (k : Int × Int) :
    incsOf (P ++ Q) k = addU (incsOf P k) (incsOf Q k) := by
  simp only [incsOf, List.foldr_append]
  exact incsOf_foldr_shift P k _

theorem incsOf_concat (P : List BeltSegment) (s : BeltSegment) (k : Int × Int) :
    incsOf (P ++ [s]) k =
      if tileKey s.x s.y = k then addU (incsOf P k) (segInc s) else incsOf P k := by
  rw [incsOf_append]
  split_ifs with h
  · rw [incsOf_cons, if_pos h, incsOf_nil, addU_zero]
  · rw [incsOf_cons, if_neg h, incsOf_nil, addU_zero]

theorem nonnegU_incsOf (R : List BeltSegment) (k : Int × Int) : nonnegU (incsOf R k) := by
  induction R with
  | nil => exact nonnegU_zero
  | cons s t ih =>
    rw [incsOf_cons]
    split_ifs
    · exact nonnegU_addU _ _ (nonnegU_segInc s) ih
    · exact ih

theorem incsOf_eq_zero (R : List BeltSegment) (k : Int × Int)
    (h : ∀ s ∈ R, tileKey s.x s.y = k → segInc s = createEmptyOccupiedTileInfo) :
    incsOf R k = createEmptyOccupiedTileInfo := by
  induction R with
  | nil => rfl
  | cons s t ih =>
    rw [incsOf_cons]
    split_ifs with hk
    · rw [h s (List.mem_cons_self _ _) hk, zero_addU]
      exact ih (fun s' hs' => h s' (List.mem_cons_of_mem _ hs'))
    · exact ih (fun s' hs' => h s' (List.mem_cons_of_mem _ hs'))

theorem jget_mem {κ α : Type _} [DecidableEq κ] (m : List (κ × α)) (k : κ) (v : α)
    (h : jget m k = some v) : (k, v) ∈ m := by
  induction m with
  | nil => exact Option.noConfusion h
  | cons e t ih =>
    rw [jget] at h
    split_ifs at h with hk
    · obtain rfl := Option.some.inj h
      rw [← hk]
      exact List.mem_cons_self _ _
    · exact List.mem_cons_of_mem _ (ih h)

theorem mem_jkeys_of_jget {κ α : Type _} [DecidableEq κ] (m : List (κ × α)) (k : κ) (v : α)
    (h : jget m k = some v) : k ∈ jkeys m := by
  have := jget_mem m k v h
  exact List.mem_map.mpr ⟨(k, v), this, rfl⟩

theorem jget_none_of_not_mem_jkeys {κ α : Type _} [DecidableEq κ] (m : List (κ × α)) (k : κ)
    (h : k ∉ jkeys m) : jget m k = none := by
  induction m with
  | nil => rfl
  | cons e t ih =>
    rw [jget]
    rw [jkeys, List.map_cons] at h
    rw [if_neg (fun hk => h (by rw [hk]; exact List.mem_cons_self _ _))]
    exact ih (fun hm => h (List.mem_cons_of_mem _ hm))

theorem not_mem_jkeys_of_jget_none {κ α : Type _} [DecidableEq κ] (m : List (κ × α)) (k : κ)
    (h : jget m k = none) : k ∉ jkeys m := by
  induction m with
  | nil => simp [jkeys]
  | cons e t ih =>
    rw [jget] at h
    split_ifs at h with hk
    rw [jkeys, List.map_cons]
    intro hm
    rcases List.mem_cons.mp hm with h1 | h2
    · exact hk h1.symm
    · exact ih h h2

theorem jget_append_some {κ α : Type _} [DecidableEq κ] (A B : List (κ × α)) (k : κ) (w : α)
    (h : jget A k = some w) : jget (A ++ B) k = some w := by
  induction A with
  | nil => exact Option.noConfusion h
  | cons e t ih =>
    rw [jget] at h
    rw [List.cons_append, jget]
    split_ifs at h ⊢ with hk
    · exact h
    · exact ih h

theorem jget_append_none {κ α : Type _} [DecidableEq κ] (A B : List (κ × α)) (k : κ)
    (h : jget A k = none) : jget (A ++ B) k = jget B k := by
  induction A with
  | nil => rfl
  | cons e t ih =>
    rw [jget] at h
    rw [List.cons_append, jget]
    split_ifs at h ⊢
    exact ih h

theorem jset_append_left {κ α : Type _} [DecidableEq κ] (A B : List (κ × α)) (k : κ)
    (w v : α) (h : jget A k = some w) : jset (A ++ B) k v = jset A k v ++ B := by
  induction A with
  | nil => exact Option.noConfusion h
  | cons e t ih =>
    rw [jget] at h
    rw [List.cons_append, jset, jset]
    split_ifs at h ⊢
    · rfl
    · rw [List.cons_append, ih h]

theorem jset_append_right {κ α : Type _} [DecidableEq κ] (A B : List (κ × α)) (k : κ)
    (v : α) (h : jget A k = none) : jset (A ++ B) k v = A ++ jset B k v := by
  induction A with
  | nil => rfl
  | cons e t ih =>
    rw [jget] at h
    rw [List.cons_append, jset]
    split_ifs at h ⊢
    rw [ih h, List.cons_append]

theorem jset_of_jget_none {κ α : Type _} [DecidableEq κ] (m : List (κ × α)) (k : κ) (v : α)
    (h : jget m k = none) : jset m k v = m ++ [(k, v)] := by
  induction m with
  | nil => rfl
  | cons e t ih =>
    rw [jget] at h
    rw [jset]
    split_ifs at h ⊢
    rw [ih h, List.cons_append]

theorem jdel_append {κ α : Type _} [DecidableEq κ] (A B : List (κ × α)) (k : κ) :
    jdel (A ++ B) k = jdel A k ++ jdel B k := by
  simp only [jdel, List.filter_append]

theorem jdel_of_jget_none {κ α : Type _} [DecidableEq κ] (m : List (κ × α)) (k : κ)
    (h : jget m k = none) : jdel m k = m := by
  induction m with
  | nil => rfl
  | cons e t ih =>
    rw [jget] at h
    rw [jdel_cons]
    split_ifs at h ⊢ with hk
    rw [show jdel t k = t from ih h]

theorem jget_mapPart (u0 : UsageMap) (v : (Int × Int) → BeltTileUsage) (k : Int × Int) :
    jget (mapPart u0 v) k = (jget u0 k).map (fun w => addU w (v k)) := by
  induction u0 with
  | nil => rfl
  | cons e t ih =>
    rw [mapPart, List.map_cons, jget, jget]
    split_ifs with hk
    · rw [← hk]
      rfl
    · exact ih

theorem jkeys_mapPart (u0 : UsageMap) (v : (Int × Int) → BeltTileUsage) :
    jkeys (mapPart u0 v) = jkeys u0 := by
  simp only [mapPart, jkeys, List.map_map]
  rfl

theorem mapPart_congr (u0 : UsageMap) (v v' : (Int × Int) → BeltTileUsage)
    (h : ∀ e ∈ u0, v e.1 = v' e.1) : mapPart u0 v = mapPart u0 v' := by
  simp only [mapPart]
  exact List.map_congr_left (fun e he => by rw [h e he])

theorem jset_mapPart (u0 : UsageMap) (v v' : (Int × Int) → BeltTileUsage) (k : Int × Int)
    (w : BeltTileUsage) (hnd : (jkeys u0).Nodup) (hget : jget u0 k = some w)
    (hagree : ∀ k', k' ≠ k → v k' = v' k') :
    jset (mapPart u0 v) k (addU w (v' k)) = mapPart u0 v' := by
  induction u0 with
  | nil => exact Option.noConfusion hget
  | cons e t ih =>
    obtain ⟨k1, w1⟩ := e
    rw [jkeys, List.map_cons, List.nodup_cons] at hnd
    rw [jget] at hget
    rw [mapPart, List.map_cons, mapPart, List.map_cons]
    by_cases hk : k1 = k
    · rw [if_pos hk] at hget
      obtain rfl := Option.some.inj hget
      subst hk
      rw [jset, if_pos rfl]
      have hcongr : t.map (fun e => (e.1, addU e.2 (v e.1))) =
          t.map (fun e => (e.1, addU e.2 (v' e.1))) :=
        List.map_congr_left (fun e' he' => by
          rw [hagree e'.1 (fun hx => hnd.1 (by
            rw [← hx]
            exact List.mem_map.mpr ⟨e', he', rfl⟩))])
      rw [show mapPart t v = t.map (fun e => (e.1, addU e.2 (v e.1))) from rfl] at *
      rw [hcongr]
    · rw [if_neg hk] at hget
      rw [jset, if_neg hk]
      rw [show mapPart t v = t.map (fun e => (e.1, addU e.2 (v e.1))) from rfl] at *
      rw [show mapPart t v' = t.map (fun e => (e.1, addU e.2 (v' e.1))) from rfl] at *
      rw [ih hnd.2 hget, hagree k1 hk]

theorem freshPart_cons_zero (v : (Int × Int) → BeltTileUsage) (k1 : Int × Int)
    (t : List (Int × Int)) (h : v k1 = createEmptyOccupiedTileInfo) :
    freshPart (k1 :: t) v = freshPart t v := by
  rw [freshPart]
  exact @List.filterMap_cons_none _ _
    (fun k' => if v k' = createEmptyOccupiedTileInfo then none else some (k', v k')) k1 t
    (by simp only [if_pos h])

theorem freshPart_cons_pos (v : (Int × Int) → BeltTileUsage) (k1 : Int × Int)
    (t : List (Int × Int)) (h : v k1 ≠ createEmptyOccupiedTileInfo) :
    freshPart (k1 :: t) v = (k1, v k1) :: freshPart t v := by
  rw [freshPart]
  exact @List.filterMap_cons_some _ _
    (fun k' => if v k' = createEmptyOccupiedTileInfo then none else some (k', v k')) k1 t
    (k1, v k1) (by simp only [if_neg h])

theorem jget_freshPart_not_mem (fresh : List (Int × Int)) (v : (Int × Int) → BeltTileUsage)
    (k : Int × Int) (hk : k ∉ fresh) : jget (freshPart fresh v) k = none := by
  induction fresh with
  | nil => rfl
  | cons k1 t ih =>
    have hne : k1 ≠ k := fun hx => hk (hx ▸ List.mem_cons_self _ _)
    have hm : k ∉ t := fun hx => hk (List.mem_cons_of_mem _ hx)
    by_cases h1 : v k1 = createEmptyOccupiedTileInfo
    · rw [freshPart_cons_zero v k1 t h1]
      exact ih hm
    · rw [freshPart_cons_pos v k1 t h1, jget, if_neg hne]
      exact ih hm

theorem jget_freshPart_mem (fresh : List (Int × Int)) (v : (Int × Int) → BeltTileUsage)
    (k : Int × Int) (hnd : fresh.Nodup) (hk : k ∈ fresh) :
    jget (freshPart fresh v) k =
      if v k = createEmptyOccupiedTileInfo then none else some (v k) := by
  induction fresh with
  | nil => exact absurd hk (List.not_mem_nil k)
  | cons k1 t ih =>
    rw [List.nodup_cons] at hnd
    rcases List.mem_cons.mp hk with rfl | hm
    · split_ifs with h1
      · rw [freshPart_cons_zero v k t h1]
        exact jget_freshPart_not_mem t v k hnd.1
      · rw [freshPart_cons_pos v k t h1, jget, if_pos rfl]
    · have hne : k1 ≠ k := fun hx => hnd.1 (hx ▸ hm)
      by_cases h1 : v k1 = createEmptyOccupiedTileInfo
      · rw [freshPart_cons_zero v k1 t h1]
        exact ih hnd.2 hm
      · rw [freshPart_cons_pos v k1 t h1, jget, if_neg hne]
        exact ih hnd.2 hm

theorem freshPart_congr (fresh : List (Int × Int)) (v v' : (Int × Int) → BeltTileUsage)
    (h : ∀ k ∈ fresh, v k = v' k) : freshPart fresh v = freshPart fresh v' := by
  simp only [freshPart]
  exact List.filterMap_congr (fun k hk => by rw [h k hk])

theorem jkeys_freshPart_subset (fresh : List (Int × Int)) (v : (Int × Int) → BeltTileUsage)
    (k : Int × Int) (h : k ∈ jkeys (freshPart fresh v)) : k ∈ fresh := by
  obtain ⟨e, he, hfst⟩ := List.mem_map.mp h
  obtain ⟨k', hk', he'⟩ := List.mem_filterMap.mp he
  split_ifs at he'
  obtain rfl := Option.some.inj he'
  rw [← hfst]
  exact hk'

theorem jset_freshPart (fresh : List (Int × Int)) (v v' : (Int × Int) → BeltTileUsage)
    (k : Int × Int) (hnd : fresh.Nodup) (hk : k ∈ fresh)
    (hv : v k ≠ createEmptyOccupiedTileInfo) (hv' : v' k ≠ createEmptyOccupiedTileInfo)
    (hagree : ∀ k' ∈ fresh, k' ≠ k → v k' = v' k') :
    jset (freshPart fresh v) k (v' k) = freshPart fresh v' := by
  induction fresh with
  | nil => exact absurd hk (List.not_mem_nil k)
  | cons k1 t ih =>
    rw [List.nodup_cons] at hnd
    rcases List.mem_cons.mp hk with rfl | hm
    · rw [freshPart_cons_pos v k t hv, jset, if_pos rfl, freshPart_cons_pos v' k t hv']
      exact congrArg (List.cons _) (freshPart_congr t v v'
        (fun k' hk' => hagree k' (List.mem_cons_of_mem _ hk')
          (fun hx => hnd.1 (hx ▸ hk'))))
    · have hne : k1 ≠ k := fun hx => hnd.1 (hx ▸ hm)
      have h1 : v k1 = v' k1 := hagree k1 (List.mem_cons_self _ _) hne
      have iht := ih hnd.2 hm (fun k' hk' hx => hagree k' (List.mem_cons_of_mem _ hk') hx)
      by_cases h2 : v k1 = createEmptyOccupiedTileInfo
      · rw [freshPart_cons_zero v k1 t h2, freshPart_cons_zero v' k1 t (h1 ▸ h2)]
        exact iht
      · rw [freshPart_cons_pos v k1 t h2, jset, if_neg hne,
          freshPart_cons_pos v' k1 t (h1 ▸ h2), h1]
        exact congrArg (List.cons _) iht

theorem jdel_freshPart (fresh : List (Int × Int)) (v v' : (Int × Int) → BeltTileUsage)
    (k : Int × Int) (hv' : v' k = createEmptyOccupiedTileInfo)
    (hagree : ∀ k' ∈ fresh, k' ≠ k → v k' = v' k') :
    jdel (freshPart fresh v) k = freshPart fresh v' := by
  induction fresh with
  | nil => rfl
  | cons k1 t ih =>
    have iht := ih (fun k' hk' hne => hagree k' (List.mem_cons_of_mem _ hk') hne)
    by_cases hk1 : k1 = k
    · subst hk1
      rw [freshPart_cons_zero v' k1 t hv']
      by_cases h2 : v k1 = createEmptyOccupiedTileInfo
      · rw [freshPart_cons_zero v k1 t h2]
        exact iht
      · rw [freshPart_cons_pos v k1 t h2, jdel_cons, if_pos rfl]
        exact iht
    · have h1 : v k1 = v' k1 := hagree k1 (List.mem_cons_self _ _) hk1
      by_cases h2 : v k1 = createEmptyOccupiedTileInfo
      · rw [freshPart_cons_zero v k1 t h2, freshPart_cons_zero v' k1 t (h1 ▸ h2)]
        exact iht
      · rw [freshPart_cons_pos v k1 t h2, jdel_cons, if_neg hk1,
          freshPart_cons_pos v' k1 t (h1 ▸ h2), h1]
        exact congrArg (List.cons _) iht

/-- `updateTileUsageForSegment` acts on `beltTileUsage` exactly as `uStep`. -/
theorem updateTileUsageForSegment_usage (g : GridState) (seg : BeltSegment) (delta : Int) :
    (updateTileUsageForSegment g seg delta).beltTileUsage = uStep g.beltTileUsage seg delta := by
  simp only [updateTileUsageForSegment, uStep]
  split_ifs <;> rfl

/-- The single-field bump computed by `uStep` is an `addU` with the scaled
segment contribution. -/
theorem updated_eq_addU (current : BeltTileUsage) (seg : BeltSegment) (delta : Int) :
    (if isCornerSegment seg then
        { current with cornerCount := current.cornerCount + delta }
      else
        match getSegmentAxis seg with
        | some Axis.H => { current with horizontalCount := current.horizontalCount + delta }
        | some Axis.V => { current with verticalCount := current.verticalCount + delta }
        | none => current) = addU current (scaleU delta (segInc seg)) := by
  simp only [segInc]
  split_ifs with h
  · cases current
    simp only [addU, scaleU, BeltTileUsage.mk.injEq]
    exact ⟨by ring, by ring, by ring⟩
  · rcases getSegmentAxis seg with _ | ax
    · cases current
      simp only [addU, scaleU, BeltTileUsage.mk.injEq]
      exact ⟨by ring, by ring, by ring⟩
    · cases ax <;>
        (cases current
         simp only [addU, scaleU, BeltTileUsage.mk.injEq]
         exact ⟨by ring, by ring, by ring⟩)

/-- Componentwise clamp at zero (the write-back form used by the source). -/
def maxedU (a : BeltTileUsage) : BeltTileUsage :=
  { horizontalCount := max 0 a.horizontalCount
    verticalCount := max 0 a.verticalCount
    cornerCount := max 0 a.cornerCount }

theorem maxedU_of_nonneg (a : BeltTileUsage) (h : nonnegU a) : maxedU a = a := by
  obtain ⟨h1, h2, h3⟩ := h
  cases a
  simp only [maxedU, BeltTileUsage.mk.injEq]
  simp only at h1 h2 h3
  omega

theorem nonpos_iff_zero (a : BeltTileUsage) (h : nonnegU a) :
    (a.cornerCount ≤ 0 ∧ a.horizontalCount ≤ 0 ∧ a.verticalCount ≤ 0) ↔
      a = createEmptyOccupiedTileInfo := by
  obtain ⟨h1, h2, h3⟩ := h
  cases a
  simp only [createEmptyOccupiedTileInfo, BeltTileUsage.mk.injEq]
  simp only at h1 h2 h3 ⊢
  omega

/-- `uStep` with the bump written as counter algebra. -/
theorem uStep_eq (u : UsageMap) (seg : BeltSegment) (delta : Int) :
    uStep u seg delta =
      (if (addU ((jget u (tileKey seg.x seg.y)).getD createEmptyOccupiedTileInfo)
            (scaleU delta (segInc seg))).cornerCount ≤ 0 ∧
          (addU ((jget u (tileKey seg.x seg.y)).getD createEmptyOccupiedTileInfo)
            (scaleU delta (segInc seg))).horizontalCount ≤ 0 ∧
          (addU ((jget u (tileKey seg.x seg.y)).getD createEmptyOccupiedTileInfo)
            (scaleU delta (segInc seg))).verticalCount ≤ 0 then
        jdel u (tileKey seg.x seg.y)
      else
        jset u (tileKey seg.x seg.y)
          (maxedU (addU ((jget u (tileKey seg.x seg.y)).getD createEmptyOccupiedTileInfo)
            (scaleU delta (segInc seg))))) := by
  simp only [uStep, updated_eq_addU, maxedU]

theorem foldl_fkStep_mono (base : List (Int × Int)) (segs : List BeltSegment)
    (acc : List (Int × Int)) (k : Int × Int) (hk : k ∈ acc) :
    k ∈ segs.foldl
      (fun ks s =>
        if segInc s = createEmptyOccupiedTileInfo ∨ tileKey s.x s.y ∈ base ∨
            tileKey s.x s.y ∈ ks then ks
        else ks ++ [tileKey s.x s.y]) acc := by
  induction segs generalizing acc with
  | nil => exact hk
  | cons s t ih =>
    rw [List.foldl_cons]
    apply ih
    split_ifs
    · exact hk
    · exact List.mem_append_left _ hk

theorem foldl_fkStep_nodup (base : List (Int × Int)) (segs : List BeltSegment)
    (acc : List (Int × Int)) (hacc : acc.Nodup) :
    (segs.foldl
      (fun ks s =>
        if segInc s = createEmptyOccupiedTileInfo ∨ tileKey s.x s.y ∈ base ∨
            tileKey s.x s.y ∈ ks then ks
        else ks ++ [tileKey s.x s.y]) acc).Nodup := by
  induction segs generalizing acc with
  | nil => exact hacc
  | cons s t ih =>
    rw [List.foldl_cons]
    apply ih
    split_ifs with h
    · exact hacc
    · rw [List.nodup_append]
      push_neg at h
      exact ⟨hacc, List.nodup_singleton _,
        fun a ha hb => by rw [List.mem_singleton.mp hb] at ha; exact h.2.2 ha⟩

theorem foldl_fkStep_disjoint (base : List (Int × Int)) (segs : List BeltSegment)
    (acc : List (Int × Int)) (hacc : ∀ k ∈ acc, k ∉ base) (k : Int × Int)
    (hk : k ∈ segs.foldl
      (fun ks s =>
        if segInc s = createEmptyOccupiedTileInfo ∨ tileKey s.x s.y ∈ base ∨
            tileKey s.x s.y ∈ ks then ks
        else ks ++ [tileKey s.x s.y]) acc) : k ∉ base := by
  induction segs generalizing acc with
  | nil => exact hacc k hk
  | cons s t ih =>
    rw [List.foldl_cons] at hk
    refine ih _ ?_ hk
    intro a ha
    split_ifs at ha with h
    · exact hacc a ha
    · push_neg at h
      rcases List.mem_append.mp ha with h1 | h2
      · exact hacc a h1
      · rw [List.mem_singleton.mp h2]
        exact h.2.1

theorem foldl_fkStep_complete (base : List (Int × Int)) (segs : List BeltSegment)
    (acc : List (Int × Int)) (s : BeltSegment) (hs : s ∈ segs)
    (hinc : segInc s ≠ createEmptyOccupiedTileInfo) :
    tileKey s.x s.y ∈ base ∨
      tileKey s.x s.y ∈ segs.foldl
        (fun ks s =>
          if segInc s = createEmptyOccupiedTileInfo ∨ tileKey s.x s.y ∈ base ∨
              tileKey s.x s.y ∈ ks then ks
          else ks ++ [tileKey s.x s.y]) acc := by
  induction segs generalizing acc with
  | nil => exact absurd hs (List.not_mem_nil s)
  | cons s1 t ih =>
    rw [List.foldl_cons]
    rcases List.mem_cons.mp hs with rfl | hm
    · by_cases hb : tileKey s.x s.y ∈ base
      · exact Or.inl hb
      · right
        apply foldl_fkStep_mono
        split_ifs with h
        · rcases h with h | h | h
          · exact absurd h hinc
          · exact absurd h hb
          · exact h
        · exact List.mem_append_right _ (List.mem_singleton.mpr rfl)
    · exact ih _ hm

theorem freshKeysOf_concat (P : List BeltSegment) (s : BeltSegment)
    (base : List (Int × Int)) :
    freshKeysOf (P ++ [s]) base =
      (if segInc s = createEmptyOccupiedTileInfo ∨ tileKey s.x s.y ∈ base ∨
          tileKey s.x s.y ∈ freshKeysOf P base then freshKeysOf P base
        else freshKeysOf P base ++ [tileKey s.x s.y]) := by
  simp only [freshKeysOf, List.foldl_append, List.foldl_cons, List.foldl_nil]

theorem addU_ne_zero (a b : BeltTileUsage) (ha : nonnegU a) (hb : nonnegU b)
    (h : a ≠ createEmptyOccupiedTileInfo ∨ b ≠ createEmptyOccupiedTileInfo) :
    addU a b ≠ createEmptyOccupiedTileInfo := by
  intro hzero
  obtain ⟨hA, hB⟩ := addU_eq_zero a b ha hb hzero
  rcases h with h | h
  · exact h hA
  · exact h hB

theorem incsOf_concat_zeroInc (P : List BeltSegment) (s : BeltSegment)
    (hz : segInc s = createEmptyOccupiedTileInfo) (k : Int × Int) :
    incsOf (P ++ [s]) k = incsOf P k := by
  rw [incsOf_concat]
  split_ifs
  · rw [hz, addU_zero]
  · rfl

theorem jget_shapeU_orig (u0 : UsageMap) (fresh : List (Int × Int)) (R : List BeltSegment)
    (k : Int × Int) (w : BeltTileUsage) (hk : jget u0 k = some w) :
    jget (shapeU u0 fresh R) k = some (addU w (incsOf R k)) := by
  rw [shapeU]
  exact jget_append_some _ _ _ _ (by rw [jget_mapPart, hk]; rfl)

theorem jget_shapeU_fresh (u0 : UsageMap) (fresh : List (Int × Int)) (R : List BeltSegment)
    (k : Int × Int) (hk : jget u0 k = none) (hnd : fresh.Nodup) (hf : k ∈ fresh) :
    jget (shapeU u0 fresh R) k =
      if incsOf R k = createEmptyOccupiedTileInfo then none else some (incsOf R k) := by
  rw [shapeU, jget_append_none _ _ _ (by rw [jget_mapPart, hk]; rfl)]
  exact jget_freshPart_mem fresh _ k hnd hf

theorem jget_shapeU_none (u0 : UsageMap) (fresh : List (Int × Int)) (R : List BeltSegment)
    (k : Int × Int) (hk : jget u0 k = none) (hf : k ∉ fresh) :
    jget (shapeU u0 fresh R) k = none := by
  rw [shapeU, jget_append_none _ _ _ (by rw [jget_mapPart, hk]; rfl)]
  exact jget_freshPart_not_mem fresh _ k hf

theorem freshKeysOf_nodup (segs : List BeltSegment) (base : List (Int × Int)) :
    (freshKeysOf segs base).Nodup :=
  foldl_fkStep_nodup base segs [] List.nodup_nil

theorem freshKeysOf_disjoint (segs : List BeltSegment) (base : List (Int × Int))
    (k : Int × Int) (hk : k ∈ freshKeysOf segs base) : k ∉ base :=
  foldl_fkStep_disjoint base segs [] (fun a ha => absurd ha (List.not_mem_nil a)) k hk

theorem freshKeysOf_complete (segs : List BeltSegment) (base : List (Int × Int))
    (s : BeltSegment) (hs : s ∈ segs) (hinc : segInc s ≠ createEmptyOccupiedTileInfo) :
    tileKey s.x s.y ∈ base ∨ tileKey s.x s.y ∈ freshKeysOf segs base :=
  foldl_fkStep_complete base segs [] s hs hinc

theorem freshKeysOf_incs_ne (segs : List BeltSegment) (base : List (Int × Int)) :
    ∀ k ∈ freshKeysOf segs base, incsOf segs k ≠ createEmptyOccupiedTileInfo := by
  induction segs using List.reverseRecOn with
  | nil => intro k hk; exact absurd hk (List.not_mem_nil k)
  | append_singleton P s ih =>
    intro k hk
    rw [freshKeysOf_concat] at hk
    by_cases hsk : tileKey s.x s.y = k
    · rw [incsOf_concat, if_pos hsk]
      split_ifs at hk with h1
      · exact addU_ne_zero _ _ (nonnegU_incsOf P k) (nonnegU_segInc s) (Or.inl (ih k hk))
      · push_neg at h1
        rcases List.mem_append.mp hk with hk' | hk'
        · exact addU_ne_zero _ _ (nonnegU_incsOf P k) (nonnegU_segInc s) (Or.inl (ih k hk'))
        · exact addU_ne_zero _ _ (nonnegU_incsOf P k) (nonnegU_segInc s) (Or.inr h1.1)
    · rw [incsOf_concat, if_neg hsk]
      split_ifs at hk with h1
      · exact ih k hk
      · rcases List.mem_append.mp hk with hk' | hk'
        · exact ih k hk'
        · exact absurd (List.mem_singleton.mp hk').symm hsk

/-- Keys neither stored originally nor fresh receive no contribution. -/
theorem incsOf_zero_of_unknown (P : List BeltSegment) (base : List (Int × Int))
    (k : Int × Int) (hkb : k ∉ base) (hkf : k ∉ freshKeysOf P base) :
    incsOf P k = createEmptyOccupiedTileInfo := by
  apply incsOf_eq_zero
  intro s hs hkey
  by_contra hinc
  rcases freshKeysOf_complete P base s hs hinc with h | h
  · rw [hkey] at h; exact hkb h
  · rw [hkey] at h; exact hkf h

theorem shapeU_nil (u0 : UsageMap) (fresh : List (Int × Int)) : shapeU u0 fresh [] = u0 := by
  rw [shapeU]
  have h1 : mapPart u0 (fun k => incsOf [] k) = u0 := by
    rw [mapPart]
    rw [show u0.map (fun e => (e.1, addU e.2 (incsOf [] e.1))) = u0.map (fun e => e) from
      List.map_congr_left (fun e he => by rw [incsOf_nil, addU_zero])]
    exact List.map_id' u0
  have h2 : freshPart fresh (fun k => incsOf [] k) = [] := by
    induction fresh with
    | nil => rfl
    | cons k1 t ih => rw [freshPart_cons_zero _ k1 t (incsOf_nil k1)]; exact ih
  rw [h1, h2, List.append_nil]

/-- One apply-phase step turns the shape for a processed prefix `P` into the
shape for `P ++ [s]`. -/
theorem uApply_step (u0 : UsageMap) (P : List BeltSegment) (s : BeltSegment)
    (hnd : (jkeys u0).Nodup)
    (hwf : ∀ e ∈ u0, nonnegU e.2 ∧ e.2 ≠ createEmptyOccupiedTileInfo) :
    uStep (shapeU u0 (freshKeysOf P (jkeys u0)) P) s 1 =
      shapeU u0 (freshKeysOf (P ++ [s]) (jkeys u0)) (P ++ [s]) := by
  have frnd := freshKeysOf_nodup P (jkeys u0)
  rw [uStep_eq, scaleU_one]
  rcases hk : jget u0 (tileKey s.x s.y) with _ | w
  · by_cases hf : tileKey s.x s.y ∈ freshKeysOf P (jkeys u0)
    · have hincP : incsOf P (tileKey s.x s.y) ≠ createEmptyOccupiedTileInfo :=
        freshKeysOf_incs_ne P (jkeys u0) _ hf
      rw [jget_shapeU_fresh u0 _ P _ hk frnd hf, if_neg hincP]
      simp only [Option.getD_some]
      have hnn : nonnegU (addU (incsOf P (tileKey s.x s.y)) (segInc s)) :=
        nonnegU_addU _ _ (nonnegU_incsOf _ _) (nonnegU_segInc s)
      have hne2 : addU (incsOf P (tileKey s.x s.y)) (segInc s) ≠
          createEmptyOccupiedTileInfo :=
        addU_ne_zero _ _ (nonnegU_incsOf _ _) (nonnegU_segInc s) (Or.inl hincP)
      rw [if_neg (fun hc => hne2 ((nonpos_iff_zero _ hnn).mp hc)), maxedU_of_nonneg _ hnn]
      have hval : addU (incsOf P (tileKey s.x s.y)) (segInc s) =
          incsOf (P ++ [s]) (tileKey s.x s.y) := by rw [incsOf_concat, if_pos rfl]
      rw [shapeU, jset_append_right _ _ _ _ (by rw [jget_mapPart, hk]; rfl), hval]
      have hset : jset (freshPart (freshKeysOf P (jkeys u0)) (fun k => incsOf P k))
          (tileKey s.x s.y) (incsOf (P ++ [s]) (tileKey s.x s.y)) =
          freshPart (freshKeysOf P (jkeys u0)) (fun k => incsOf (P ++ [s]) k) :=
        jset_freshPart _ _ _ _ frnd hf hincP (hval ▸ hne2)
          (fun k' hk' hne' => by rw [incsOf_concat, if_neg (fun hx => hne' hx.symm)])
      rw [hset]
      have hfr : freshKeysOf (P ++ [s]) (jkeys u0) = freshKeysOf P (jkeys u0) := by
        rw [freshKeysOf_concat, if_pos (Or.inr (Or.inr hf))]
      rw [shapeU, hfr]
      exact congrArg
        (fun L => L ++ freshPart (freshKeysOf P (jkeys u0)) (fun k => incsOf (P ++ [s]) k))
        (mapPart_congr u0 _ _ (fun e he => by
          rw [incsOf_concat, if_neg (fun hx => (not_mem_jkeys_of_jget_none u0 _ hk)
            (by rw [hx]; exact List.mem_map.mpr ⟨e, he, rfl⟩))]))
    · rw [jget_shapeU_none u0 _ P _ hk hf]
      simp only [Option.getD_none]
      have hPk : incsOf P (tileKey s.x s.y) = createEmptyOccupiedTileInfo :=
        incsOf_zero_of_unknown P (jkeys u0) _ (not_mem_jkeys_of_jget_none u0 _ hk) hf
      by_cases hz : segInc s = createEmptyOccupiedTileInfo
      · rw [hz, addU_zero, if_pos (by decide)]
        rw [jdel_of_jget_none _ _ (jget_shapeU_none u0 _ P _ hk hf)]
        have hfr : freshKeysOf (P ++ [s]) (jkeys u0) = freshKeysOf P (jkeys u0) := by
          rw [freshKeysOf_concat, if_pos (Or.inl hz)]
        rw [shapeU, shapeU, hfr]
        exact congrArg₂ (fun L1 L2 => L1 ++ L2)
          (mapPart_congr u0 _ _ (fun e he => (incsOf_concat_zeroInc P s hz e.1).symm))
          (freshPart_congr _ _ _ (fun k' hk' => (incsOf_concat_zeroInc P s hz k').symm))
      · rw [zero_addU]
        have hnnI := nonnegU_segInc s
        rw [if_neg (fun hc => hz ((nonpos_iff_zero _ hnnI).mp hc)), maxedU_of_nonneg _ hnnI]
        rw [jset_of_jget_none _ _ _ (jget_shapeU_none u0 _ P _ hk hf)]
        have hvk : incsOf (P ++ [s]) (tileKey s.x s.y) = segInc s := by
          rw [incsOf_concat, if_pos rfl, hPk, zero_addU]
        have hfr : freshKeysOf (P ++ [s]) (jkeys u0) =
            freshKeysOf P (jkeys u0) ++ [tileKey s.x s.y] := by
          rw [freshKeysOf_concat, if_neg (by
            push_neg
            exact ⟨hz, not_mem_jkeys_of_jget_none u0 _ hk, hf⟩)]
        have hsplit : freshPart (freshKeysOf P (jkeys u0) ++ [tileKey s.x s.y])
            (fun k => incsOf (P ++ [s]) k) =
            freshPart (freshKeysOf P (jkeys u0)) (fun k => incsOf (P ++ [s]) k) ++
              [(tileKey s.x s.y, incsOf (P ++ [s]) (tileKey s.x s.y))] := by
          rw [freshPart, List.filterMap_append]
          rw [show List.filterMap
            (fun k => if incsOf (P ++ [s]) k = createEmptyOccupiedTileInfo then none
              else some (k, incsOf (P ++ [s]) k)) [tileKey s.x s.y] =
            freshPart [tileKey s.x s.y] (fun k => incsOf (P ++ [s]) k) from rfl]
          rw [freshPart_cons_pos _ _ _ (by rw [hvk]; exact hz)]
          rfl
        rw [shapeU, shapeU, hfr, hsplit, hvk, ← List.append_assoc]
        have hmain : mapPart u0 (fun k => incsOf P k) ++
            freshPart (freshKeysOf P (jkeys u0)) (fun k => incsOf P k) =
            mapPart u0 (fun k => incsOf (P ++ [s]) k) ++
              freshPart (freshKeysOf P (jkeys u0)) (fun k => incsOf (P ++ [s]) k) :=
          congrArg₂ (fun L1 L2 => L1 ++ L2)
            (mapPart_congr u0 _ _ (fun e he => by
              rw [incsOf_concat, if_neg (fun hx => (not_mem_jkeys_of_jget_none u0 _ hk)
                (by rw [hx]; exact List.mem_map.mpr ⟨e, he, rfl⟩))]))
            (freshPart_congr _ _ _ (fun k' hk' => by
              rw [incsOf_concat, if_neg (fun hx => hf (by rw [hx]; exact hk'))]))
        rw [hmain]
  · have hwfw := hwf _ (jget_mem u0 _ w hk)
    rw [jget_shapeU_orig u0 _ P _ w hk]
    simp only [Option.getD_some]
    have hnnw : nonnegU (addU w (incsOf P (tileKey s.x s.y))) :=
      nonnegU_addU _ _ hwfw.1 (nonnegU_incsOf _ _)
    have hnn : nonnegU (addU (addU w (incsOf P (tileKey s.x s.y))) (segInc s)) :=
      nonnegU_addU _ _ hnnw (nonnegU_segInc s)
    have hne : addU (addU w (incsOf P (tileKey s.x s.y))) (segInc s) ≠
        createEmptyOccupiedTileInfo :=
      addU_ne_zero _ _ hnnw (nonnegU_segInc s)
        (Or.inl (addU_ne_zero _ _ hwfw.1 (nonnegU_incsOf _ _) (Or.inl hwfw.2)))
    rw [if_neg (fun hc => hne ((nonpos_iff_zero _ hnn).mp hc)), maxedU_of_nonneg _ hnn]
    have hval : addU (addU w (incsOf P (tileKey s.x s.y))) (segInc s) =
        addU w (incsOf (P ++ [s]) (tileKey s.x s.y)) := by
      rw [incsOf_concat, if_pos rfl, addU_assoc]
    rw [shapeU, jset_append_left _ _ _ (addU w (incsOf P (tileKey s.x s.y))) _
      (by rw [jget_mapPart, hk]; rfl), hval]
    have hset : jset (mapPart u0 (fun k => incsOf P k)) (tileKey s.x s.y)
        (addU w (incsOf (P ++ [s]) (tileKey s.x s.y))) =
        mapPart u0 (fun k => incsOf (P ++ [s]) k) :=
      jset_mapPart u0 _ _ _ w hnd hk
        (fun k' hk' => by rw [incsOf_concat, if_neg (fun hx => hk' hx.symm)])
    rw [hset]
    have hfr : freshKeysOf (P ++ [s]) (jkeys u0) = freshKeysOf P (jkeys u0) := by
      rw [freshKeysOf_concat, if_pos (Or.inr (Or.inl (mem_jkeys_of_jget u0 _ w hk)))]
    rw [shapeU, hfr]
    exact congrArg
      (fun L => mapPart u0 (fun k => incsOf (P ++ [s]) k) ++ L)
      (freshPart_congr _ _ _ (fun k' hk' => by
        rw [incsOf_concat, if_neg (fun hx => (freshKeysOf_disjoint P (jkeys u0) k' hk')
          (by rw [← hx]; exact mem_jkeys_of_jget u0 _ w hk))]))

/-- Applying every segment of a path turns a well-formed usage map into the
shape form. -/
theorem uApply (segs : List BeltSegment) (u0 : UsageMap)
    (hnd : (jkeys u0).Nodup)
    (hwf : ∀ e ∈ u0, nonnegU e.2 ∧ e.2 ≠ createEmptyOccupiedTileInfo) :
    segs.foldl (fun u s => uStep u s 1) u0 =
      shapeU u0 (freshKeysOf segs (jkeys u0)) segs := by
  induction segs using List.reverseRecOn with
  | nil => rw [List.foldl_nil]; exact (shapeU_nil u0 _).symm
  | append_singleton P s ih =>
    rw [List.foldl_append, List.foldl_cons, List.foldl_nil, ih]
    exact uApply_step u0 P s hnd hwf

theorem scaleU_negOne_zero :
    scaleU (-1) createEmptyOccupiedTileInfo = createEmptyOccupiedTileInfo := by
  simp only [scaleU, createEmptyOccupiedTileInfo, BeltTileUsage.mk.injEq]
  exact ⟨by ring, by ring, by ring⟩

theorem addU_cancel (a b c : BeltTileUsage) :
    addU (addU a (addU b c)) (scaleU (-1) b) = addU a c := by
  cases a; cases b; cases c
  simp only [addU, scaleU, BeltTileUsage.mk.injEq]
  exact ⟨by ring, by ring, by ring⟩

theorem addU_cancel' (b c : BeltTileUsage) :
    addU (addU b c) (scaleU (-1) b) = c := by
  cases b; cases c
  simp only [addU, scaleU, BeltTileUsage.mk.injEq]
  exact ⟨by ring, by ring, by ring⟩

theorem incsOf_cons_zeroInc (s : BeltSegment) (R : List BeltSegment)
    (hz : segInc s = createEmptyOccupiedTileInfo) (k : Int × Int) :
    incsOf (s :: R) k = incsOf R k := by
  rw [incsOf_cons]
  split_ifs
  · rw [hz, zero_addU]
  · rfl

/-- One remove-phase step turns the shape for remaining segments `s :: R'` into
the shape for `R'`. -/
theorem uRemove_step (u0 : UsageMap) (fresh : List (Int × Int)) (s : BeltSegment)
    (R' : List BeltSegment) (hnd : (jkeys u0).Nodup)
    (hwf : ∀ e ∈ u0, nonnegU e.2 ∧ e.2 ≠ createEmptyOccupiedTileInfo)
    (hfnd : fresh.Nodup) (hdisj : ∀ k ∈ fresh, k ∉ jkeys u0)
    (hcomp : segInc s ≠ createEmptyOccupiedTileInfo →
      tileKey s.x s.y ∈ jkeys u0 ∨ tileKey s.x s.y ∈ fresh) :
    uStep (shapeU u0 fresh (s :: R')) s (-1) = shapeU u0 fresh R' := by
  rw [uStep_eq]
  rcases hk : jget u0 (tileKey s.x s.y) with _ | w
  · by_cases hf : tileKey s.x s.y ∈ fresh
    · by_cases hi : incsOf (s :: R') (tileKey s.x s.y) = createEmptyOccupiedTileInfo
      · have hi2 := hi
        rw [incsOf_cons, if_pos rfl] at hi2
        obtain ⟨hz, hR'⟩ := addU_eq_zero _ _ (nonnegU_segInc s) (nonnegU_incsOf R' _) hi2
        rw [jget_shapeU_fresh u0 _ (s :: R') _ hk hfnd hf, if_pos hi]
        simp only [Option.getD_none]
        rw [hz, scaleU_negOne_zero, addU_zero, if_pos (by decide)]
        rw [jdel_of_jget_none _ _ (by
          rw [jget_shapeU_fresh u0 _ (s :: R') _ hk hfnd hf, if_pos hi])]
        rw [shapeU, shapeU]
        exact congrArg₂ (fun L1 L2 => L1 ++ L2)
          (mapPart_congr u0 _ _ (fun e he => (incsOf_cons_zeroInc s R' hz e.1)))
          (freshPart_congr _ _ _ (fun k' hk' => (incsOf_cons_zeroInc s R' hz k')))
      · rw [jget_shapeU_fresh u0 _ (s :: R') _ hk hfnd hf, if_neg hi]
        simp only [Option.getD_some]
        have hval : addU (incsOf (s :: R') (tileKey s.x s.y)) (scaleU (-1) (segInc s)) =
            incsOf R' (tileKey s.x s.y) := by
          rw [incsOf_cons, if_pos rfl]
          exact addU_cancel' _ _
        rw [hval]
        by_cases hR' : incsOf R' (tileKey s.x s.y) = createEmptyOccupiedTileInfo
        · rw [hR', if_pos (by decide)]
          rw [shapeU, jdel_append,
            jdel_of_jget_none _ _ (by rw [jget_mapPart, hk]; rfl),
            jdel_freshPart _ _ (fun k => incsOf R' k) _ hR'
              (fun k' hk' hne' => by rw [incsOf_cons, if_neg (fun hx => hne' hx.symm)])]
          rw [shapeU]
          exact congrArg
            (fun L => L ++ freshPart fresh (fun k => incsOf R' k))
            (mapPart_congr u0 _ _ (fun e he => by
              rw [incsOf_cons, if_neg (fun hx => (not_mem_jkeys_of_jget_none u0 _ hk)
                (by rw [hx]; exact List.mem_map.mpr ⟨e, he, rfl⟩))]))
        · have hnn : nonnegU (incsOf R' (tileKey s.x s.y)) := nonnegU_incsOf R' _
          rw [if_neg (fun hc => hR' ((nonpos_iff_zero _ hnn).mp hc)),
            maxedU_of_nonneg _ hnn]
          rw [shapeU, jset_append_right _ _ _ _ (by rw [jget_mapPart, hk]; rfl)]
          rw [jset_freshPart _ _ (fun k => incsOf R' k) _ hfnd hf hi hR'
            (fun k' hk' hne' => by rw [incsOf_cons, if_neg (fun hx => hne' hx.symm)])]
          rw [shapeU]
          exact congrArg
            (fun L => L ++ freshPart fresh (fun k => incsOf R' k))
            (mapPart_congr u0 _ _ (fun e he => by
              rw [incsOf_cons, if_neg (fun hx => (not_mem_jkeys_of_jget_none u0 _ hk)
                (by rw [hx]; exact List.mem_map.mpr ⟨e, he, rfl⟩))]))
    · have hz : segInc s = createEmptyOccupiedTileInfo := by
        by_contra hz
        rcases hcomp hz with h | h
        · exact (not_mem_jkeys_of_jget_none u0 _ hk) h
        · exact hf h
      rw [jget_shapeU_none u0 _ (s :: R') _ hk hf]
      simp only [Option.getD_none]
      rw [hz, scaleU_negOne_zero, addU_zero, if_pos (by decide)]
      rw [jdel_of_jget_none _ _ (jget_shapeU_none u0 _ (s :: R') _ hk hf)]
      rw [shapeU, shapeU]
      exact congrArg₂ (fun L1 L2 => L1 ++ L2)
        (mapPart_congr u0 _ _ (fun e he => (incsOf_cons_zeroInc s R' hz e.1)))
        (freshPart_congr _ _ _ (fun k' hk' => (incsOf_cons_zeroInc s R' hz k')))
  · have hwfw := hwf _ (jget_mem u0 _ w hk)
    rw [jget_shapeU_orig u0 _ (s :: R') _ w hk]
    simp only [Option.getD_some]
    have hval : addU (addU w (incsOf (s :: R') (tileKey s.x s.y)))
        (scaleU (-1) (segInc s)) = addU w (incsOf R' (tileKey s.x s.y)) := by
      rw [incsOf_cons, if_pos rfl]
      exact addU_cancel _ _ _
    rw [hval]
    have hnn : nonnegU (addU w (incsOf R' (tileKey s.x s.y))) :=
      nonnegU_addU _ _ hwfw.1 (nonnegU_incsOf _ _)
    have hne : addU w (incsOf R' (tileKey s.x s.y)) ≠ createEmptyOccupiedTileInfo :=
      addU_ne_zero _ _ hwfw.1 (nonnegU_incsOf _ _) (Or.inl hwfw.2)
    rw [if_neg (fun hc => hne ((nonpos_iff_zero _ hnn).mp hc)), maxedU_of_nonneg _ hnn]
    rw [shapeU, jset_append_left _ _ _ (addU w (incsOf (s :: R') (tileKey s.x s.y))) _
      (by rw [jget_mapPart, hk]; rfl)]
    rw [jset_mapPart u0 _ (fun k => incsOf R' k) _ w hnd hk
      (fun k' hk' => by rw [incsOf_cons, if_neg (fun hx => hk' hx.symm)])]
    rw [shapeU]
    exact congrArg
      (fun L => mapPart u0 (fun k => incsOf R' k) ++ L)
      (freshPart_congr _ _ _ (fun k' hk' => by
        rw [incsOf_cons, if_neg (fun hx => (hdisj k' hk')
          (by rw [← hx]; exact mem_jkeys_of_jget u0 _ w hk))]))

/-- Removing every segment of a path from the shape form restores the original
well-formed usage map. -/
theorem uRemove (R : List BeltSegment) (u0 : UsageMap) (fresh : List (Int × Int))
    (hnd : (jkeys u0).Nodup)
    (hwf : ∀ e ∈ u0, nonnegU e.2 ∧ e.2 ≠ createEmptyOccupiedTileInfo)
    (hfnd : fresh.Nodup) (hdisj : ∀ k ∈ fresh, k ∉ jkeys u0)
    (hcomp : ∀ s ∈ R, segInc s ≠ createEmptyOccupiedTileInfo →
      tileKey s.x s.y ∈ jkeys u0 ∨ tileKey s.x s.y ∈ fresh) :
    R.foldl (fun u s => uStep u s (-1)) (shapeU u0 fresh R) = u0 := by
  induction R with
  | nil => rw [List.foldl_nil]; exact shapeU_nil u0 fresh
  | cons s R' ih =>
    rw [List.foldl_cons,
      uRemove_step u0 fresh s R' hnd hwf hfnd hdisj (hcomp s (List.mem_cons_self _ _))]
    exact ih (fun s' hs' h => hcomp s' (List.mem_cons_of_mem _ hs') h)

/-- Usage roundtrip: applying a path's segments (+1) and then removing the same
list (−1) restores a well-formed usage map exactly, including entry order. -/
theorem usage_roundtrip (segs : List BeltSegment) (u0 : UsageMap)
    (hnd : (jkeys u0).Nodup)
    (hwf : ∀ e ∈ u0, nonnegU e.2 ∧ e.2 ≠ createEmptyOccupiedTileInfo) :
    segs.foldl (fun u s => uStep u s (-1))
      (segs.foldl (fun u s => uStep u s 1) u0) = u0 := by
  rw [uApply segs u0 hnd hwf]
  exact uRemove segs u0 (freshKeysOf segs (jkeys u0)) hnd hwf
    (freshKeysOf_nodup segs (jkeys u0))
    (fun k hk => freshKeysOf_disjoint segs (jkeys u0) k hk)
    (fun s hs h => freshKeysOf_complete segs (jkeys u0) s hs h)

/-- Read a cell of a raw cell matrix (the `cells` part of `cellAt`). -/
def matGet (m : List (List GridCell)) (x y : Int) : GridCell :=
  if 0 ≤ x ∧ 0 ≤ y then (m.getD y.toNat []).getD x.toNat defaultCell else defaultCell

/-- Write a cell of a raw cell matrix (the `cells` part of `setCell`). -/
def matSet (m : List (List GridCell)) (x y : Int) (c : GridCell) : List (List GridCell) :=
  if 0 ≤ x ∧ 0 ≤ y then m.set y.toNat ((m.getD y.toNat []).set x.toNat c) else m

/-- The per-segment cell transformation of `applyBeltPath`: stamp BELT onto an
empty cell and append the connection id if missing. -/
def cellApply (cid : String) (c : GridCell) : GridCell :=
  let cell2 := if c.type = CellType.EMPTY then { c with type := CellType.BELT } else c
  if cid ∈ cell2.beltConnectionIds then cell2
  else { cell2 with beltConnectionIds := cell2.beltConnectionIds ++ [cid] }

/-- The per-segment cell transformation of `removeBeltPath`: drop the
connection id and revert emptied BELT cells to EMPTY. -/
def cellRemove (cid : String) (c : GridCell) : GridCell :=
  let cell2 :=
    { c with beltConnectionIds := c.beltConnectionIds.filter (fun id => id ≠ cid) }
  if cell2.beltConnectionIds = [] ∧ cell2.type = CellType.BELT then
    { cell2 with type := CellType.EMPTY }
  else cell2

/-- One matrix step: transform the cell under a segment in place. -/
def mStep (f : GridCell → GridCell) (m : List (List GridCell)) (s : BeltSegment) :
    List (List GridCell) :=
  matSet m s.x s.y (f (matGet m s.x s.y))

theorem cellAt_eq_matGet (g : GridState) (x y : Int) : cellAt g x y = matGet g.cells x y := rfl

theorem setCell_cells (g : GridState) (x y : Int) (c : GridCell) :
    (setCell g x y c).cells = matSet g.cells x y c := by
  simp only [setCell, matSet]
  split_ifs <;> rfl

/-- A fold maps any grid projection through a paired fold on the projection. -/
theorem foldl_proj {α γ : Type _} (proj : GridState → γ) (F : GridState → α → GridState)
    (f : γ → α → γ) (hp : ∀ g a, proj (F g a) = f (proj g) a) (l : List α) (g : GridState) :
    proj (l.foldl F g) = l.foldl f (proj g) := by
  induction l generalizing g with
  | nil => rfl
  | cons a t ih => rw [List.foldl_cons, List.foldl_cons, ih, hp]

theorem matSet_length (m : List (List GridCell)) (x y : Int) (c : GridCell) :
    (matSet m x y c).length = m.length := by
  rw [matSet]
  split_ifs
  · exact List.length_set m _ _
  · rfl

theorem matFold_length (f : GridCell → GridCell) (segs : List BeltSegment)
    (m : List (List GridCell)) : (segs.foldl (mStep f) m).length = m.length := by
  induction segs generalizing m with
  | nil => rfl
  | cons s t ih => rw [List.foldl_cons, ih, mStep, matSet_length]

theorem matSet_rowlen (m : List (List GridCell)) (x y : Int) (c : GridCell) (i : Nat) :
    ((matSet m x y c)[i]?).map List.length = (m[i]?).map List.length := by
  rw [matSet]
  split_ifs with hb
  · rw [List.getElem?_set]
    split_ifs with h1 h2
    · subst h1
      rcases hrow : m[y.toNat]? with _ | row
      · exact absurd (List.getElem?_eq_none_iff.mp hrow) (by omega)
      · rw [List.getD_eq_getElem?_getD, hrow]
        simp [List.length_set]
    · subst h1
      rw [List.getElem?_eq_none (by omega)]
    · rfl
  · rfl

theorem matFold_rowlen (f : GridCell → GridCell) (segs : List BeltSegment)
    (m : List (List GridCell)) (i : Nat) :
    ((segs.foldl (mStep f) m)[i]?).map List.length = (m[i]?).map List.length := by
  induction segs generalizing m with
  | nil => rfl
  | cons s t ih => rw [List.foldl_cons, ih, mStep, matSet_rowlen]

theorem touched_concat_iff (P : List BeltSegment) (s : BeltSegment) (i j : Nat)
    (hs : ¬(0 ≤ s.x ∧ 0 ≤ s.y ∧ s.x.toNat = j ∧ s.y.toNat = i)) :
    ((∃ s' ∈ P ++ [s], 0 ≤ s'.x ∧ 0 ≤ s'.y ∧ s'.x.toNat = j ∧ s'.y.toNat = i) ↔
      ∃ s' ∈ P, 0 ≤ s'.x ∧ 0 ≤ s'.y ∧ s'.x.toNat = j ∧ s'.y.toNat = i) := by
  constructor
  · rintro ⟨s', hmem, hprop⟩
    rcases List.mem_append.mp hmem with h | h
    · exact ⟨s', h, hprop⟩
    · rw [List.mem_singleton.mp h] at hprop
      exact absurd hprop hs
  · rintro ⟨s', h, hprop⟩
    exact ⟨s', List.mem_append_left _ h, hprop⟩

theorem touched_map_congr (P : List BeltSegment) (s : BeltSegment) (i j : Nat)
    (hs : ¬(0 ≤ s.x ∧ 0 ≤ s.y ∧ s.x.toNat = j ∧ s.y.toNat = i))
    (f : GridCell → GridCell) (o : Option GridCell) :
    o.map (fun e =>
        if ∃ s' ∈ P ++ [s], 0 ≤ s'.x ∧ 0 ≤ s'.y ∧ s'.x.toNat = j ∧ s'.y.toNat = i
        then f e else e) =
      o.map (fun e =>
        if ∃ s' ∈ P, 0 ≤ s'.x ∧ 0 ≤ s'.y ∧ s'.x.toNat = j ∧ s'.y.toNat = i
        then f e else e) := by
  cases o with
  | none => rfl
  | some e => exact congrArg some (if_congr (touched_concat_iff P s i j hs) rfl rfl)

theorem matFold_get (f : GridCell → GridCell) (hf : ∀ c, f (f c) = f c)
    (segs : List BeltSegment) (m : List (List GridCell)) (i j : Nat) :
    ((segs.foldl (mStep f) m)[i]?.bind (fun r => r[j]?)) =
      (m[i]?.bind (fun r => r[j]?)).map
        (fun e => if ∃ s' ∈ segs, 0 ≤ s'.x ∧ 0 ≤ s'.y ∧ s'.x.toNat = j ∧ s'.y.toNat = i
          then f e else e) := by
  induction segs using List.reverseRecOn with
  | nil =>
    rw [List.foldl_nil]
    cases hch : m[i]?.bind (fun r => r[j]?) with
    | none => rfl
    | some e =>
      exact (congrArg some (if_neg (by
        rintro ⟨s', hs', _⟩
        exact List.not_mem_nil s' hs'))).symm
  | append_singleton P s ih =>
    rw [List.foldl_append, List.foldl_cons, List.foldl_nil, mStep, matSet]
    by_cases hb : 0 ≤ s.x ∧ 0 ≤ s.y
    · rw [if_pos hb]
      by_cases hyi : s.y.toNat = i
      · subst hyi
        rw [List.getElem?_set, if_pos rfl]
        by_cases hlen : s.y.toNat < (P.foldl (mStep f) m).length
        · rw [if_pos hlen]
          obtain ⟨rowP, hrowP⟩ : ∃ r, (P.foldl (mStep f) m)[s.y.toNat]? = some r :=
            ⟨_, List.getElem?_eq_getElem hlen⟩
          have hrlen := matFold_rowlen f P m s.y.toNat
          rw [hrowP] at hrlen
          rcases hrowM : m[s.y.toNat]? with _ | rowM
          · rw [hrowM] at hrlen
            exact Option.noConfusion hrlen
          · rw [hrowM] at hrlen
            simp only [Option.map_some'] at hrlen
            have hlenrow : rowP.length = rowM.length := Option.some.inj hrlen
            have hgetD : (P.foldl (mStep f) m).getD s.y.toNat [] = rowP := by
              rw [List.getD_eq_getElem?_getD, hrowP]
              rfl
            rw [hgetD]
            simp only [Option.some_bind]
            rw [hrowP] at ih
            simp only [Option.some_bind] at ih
            rw [hrowM] at ih
            simp only [Option.some_bind] at ih
            by_cases hxj : s.x.toNat = j
            · subst hxj
              rw [List.getElem?_set, if_pos rfl]
              by_cases hjlen : s.x.toNat < rowP.length
              · rw [if_pos hjlen]
                obtain ⟨eP, heP⟩ : ∃ e, rowP[s.x.toNat]? = some e :=
                  ⟨_, List.getElem?_eq_getElem hjlen⟩
                have hmg : matGet (P.foldl (mStep f) m) s.x s.y = eP := by
                  simp only [matGet, if_pos hb, List.getD_eq_getElem?_getD, hrowP,
                    Option.getD_some, heP]
                rw [hmg]
                rw [heP] at ih
                rcases hmE : rowM[s.x.toNat]? with _ | e
                · rw [hmE] at ih
                  simp only [Option.map_none'] at ih
                  exact Option.noConfusion ih
                · rw [hmE] at ih
                  simp only [Option.map_some'] at ih
                  have heq := Option.some.inj ih
                  simp only [Option.map_some']
                  apply congrArg some
                  rw [heq]
                  have htouch : ∃ s' ∈ P ++ [s],
                      0 ≤ s'.x ∧ 0 ≤ s'.y ∧ s'.x.toNat = s.x.toNat ∧
                        s'.y.toNat = s.y.toNat :=
                    ⟨s, List.mem_append_right _ (List.mem_singleton.mpr rfl),
                      hb.1, hb.2, rfl, rfl⟩
                  rw [if_pos htouch]
                  split_ifs with hcP
                  · exact hf e
                  · rfl
              · rw [if_neg hjlen]
                rw [List.getElem?_eq_none (by omega)]
                rfl
            · rw [List.getElem?_set_ne hxj, ih]
              exact (touched_map_congr P s s.y.toNat j (fun hc => hxj hc.2.2.1) f _).symm
        · rw [if_neg hlen]
          rw [matFold_length] at hlen
          rw [List.getElem?_eq_none (by omega)]
          rfl
      · rw [List.getElem?_set_ne hyi, ih]
        exact (touched_map_congr P s i j (fun hc => hyi hc.2.2.2) f _).symm
    · rw [if_neg hb, ih]
      exact (touched_map_congr P s i j (fun hc => hb ⟨hc.1, hc.2.1⟩) f _).symm

theorem matrix_ext (a b : List (List GridCell))
    (hrow : ∀ i : Nat, (a[i]?).map List.length = (b[i]?).map List.length)
    (hchain : ∀ i j : Nat, a[i]?.bind (fun r => r[j]?) = b[i]?.bind (fun r => r[j]?)) :
    a = b := by
  apply List.ext_getElem?
  intro i
  have hr := hrow i
  rcases ha : a[i]? with _ | ra
  · rw [ha] at hr
    rcases hbk : b[i]? with _ | rb
    · rfl
    · rw [hbk] at hr
      exact Option.noConfusion hr
  · rw [ha] at hr
    rcases hbk : b[i]? with _ | rb
    · rw [hbk] at hr
      exact Option.noConfusion hr
    · have hrows : ra = rb := by
        apply List.ext_getElem?
        intro j
        have hc := hchain i j
        rw [ha, hbk] at hc
        simpa using hc
      rw [hrows]

theorem cellRemove_eq (cid : String) (ty : CellType) (mid : Option String)
    (ids : List String) :
    cellRemove cid ⟨ty, mid, ids⟩ =
      if ids.filter (fun id => id ≠ cid) = [] ∧ ty = CellType.BELT then
        ⟨CellType.EMPTY, mid, ids.filter (fun id => id ≠ cid)⟩
      else ⟨ty, mid, ids.filter (fun id => id ≠ cid)⟩ := rfl

theorem cellApply_eq (cid : String) (ty : CellType) (mid : Option String)
    (ids : List String) :
    cellApply cid ⟨ty, mid, ids⟩ =
      if cid ∈ ids then
        (if ty = CellType.EMPTY then ⟨CellType.BELT, mid, ids⟩ else ⟨ty, mid, ids⟩)
      else
        (if ty = CellType.EMPTY then ⟨CellType.BELT, mid, ids ++ [cid]⟩
          else ⟨ty, mid, ids ++ [cid]⟩) := by
  simp only [cellApply]
  split_ifs <;> simp_all

theorem cellApply_idem (cid : String) (c : GridCell) :
    cellApply cid (cellApply cid c) = cellApply cid c := by
  obtain ⟨ty, mid, ids⟩ := c
  have hinner := cellApply_eq cid ty mid ids
  by_cases h1 : cid ∈ ids <;> by_cases h2 : ty = CellType.EMPTY
  · rw [if_pos h1, if_pos h2] at hinner
    rw [hinner, cellApply_eq, if_pos h1, if_neg (fun h => CellType.noConfusion h)]
  · rw [if_pos h1, if_neg h2] at hinner
    rw [hinner, cellApply_eq, if_pos h1, if_neg h2]
  · rw [if_neg h1, if_pos h2] at hinner
    rw [hinner, cellApply_eq,
      if_pos (List.mem_append_right _ (List.mem_singleton.mpr rfl)),
      if_neg (fun h => CellType.noConfusion h)]
  · rw [if_neg h1, if_neg h2] at hinner
    rw [hinner, cellApply_eq,
      if_pos (List.mem_append_right _ (List.mem_singleton.mpr rfl)), if_neg h2]

theorem cellRemove_idem (cid : String) (c : GridCell) :
    cellRemove cid (cellRemove cid c) = cellRemove cid c := by
  obtain ⟨ty, mid, ids⟩ := c
  have hff : (ids.filter (fun id => id ≠ cid)).filter (fun id => id ≠ cid) =
      ids.filter (fun id => id ≠ cid) :=
    List.filter_eq_self.mpr (fun a ha => (List.mem_filter.mp ha).2)
  have hinner := cellRemove_eq cid ty mid ids
  by_cases h1 : ids.filter (fun id => id ≠ cid) = [] ∧ ty = CellType.BELT
  · rw [if_pos h1] at hinner
    rw [hinner, cellRemove_eq, if_neg (fun hc => CellType.noConfusion hc.2), hff]
  · rw [if_neg h1] at hinner
    rw [hinner, cellRemove_eq, if_neg (by rw [hff]; exact h1), hff]

theorem cellRemove_cellApply (cid : String) (c : GridCell)
    (h1 : c.type = CellType.EMPTY → c.beltConnectionIds = [])
    (h2 : c.type = CellType.BELT → c.beltConnectionIds ≠ [])
    (h3 : cid ∉ c.beltConnectionIds) :
    cellRemove cid (cellApply cid c) = c := by
  obtain ⟨ty, mid, ids⟩ := c
  simp only at h1 h2 h3
  have hself : ids.filter (fun id => id ≠ cid) = ids :=
    List.filter_eq_self.mpr (fun a ha =>
      decide_eq_true (fun he : a = cid => h3 (he ▸ ha)))
  have happ : (ids ++ [cid]).filter (fun id => id ≠ cid) = ids := by
    rw [List.filter_append, hself]
    simp
  rw [cellApply_eq, if_neg h3]
  by_cases hE : ty = CellType.EMPTY
  · subst hE
    have hids := h1 rfl
    subst hids
    rw [if_pos rfl, cellRemove_eq]
    have hnilf : (([] : List String) ++ [cid]).filter (fun id => id ≠ cid) = [] := by simp
    rw [if_pos ⟨hnilf, rfl⟩, hnilf]
  · rw [if_neg hE, cellRemove_eq]
    by_cases hB : ty = CellType.BELT
    · have hne := h2 hB
      rw [if_neg (by rw [happ]; rintro ⟨hnil, -⟩; exact hne hnil), happ]
    · rw [if_neg (by rw [happ]; rintro ⟨-, hBELT⟩; exact hB hBELT), happ]

theorem cells_roundtrip (cid : String) (segs : List BeltSegment)
    (m : List (List GridCell))
    (hwf : ∀ row ∈ m, ∀ c ∈ row,
      (c.type = CellType.EMPTY → c.beltConnectionIds = []) ∧
      (c.type = CellType.BELT → c.beltConnectionIds ≠ []) ∧
      cid ∉ c.beltConnectionIds) :
    segs.foldl (mStep (cellRemove cid)) (segs.foldl (mStep (cellApply cid)) m) = m := by
  apply matrix_ext
  · intro i
    rw [matFold_rowlen, matFold_rowlen]
  · intro i j
    rw [matFold_get (cellRemove cid) (cellRemove_idem cid) segs _ i j,
      matFold_get (cellApply cid) (cellApply_idem cid) segs m i j, Option.map_map]
    rcases hrow : m[i]? with _ | row
    · rfl
    · simp only [Option.some_bind]
      rcases hch : row[j]? with _ | e
      · rfl
      · have hwfe := hwf row (List.getElem?_mem hrow) e (List.getElem?_mem hch)
        simp only [Option.map_some', Function.comp]
        apply congrArg some
        split_ifs with hc
        · exact cellRemove_cellApply cid e hwfe.1 hwfe.2.1 hwfe.2.2
        · rfl

theorem gridState_ext (a b : GridState) (h1 : a.width = b.width) (h2 : a.height = b.height)
    (h3 : a.cells = b.cells) (h4 : a.machines = b.machines)
    (h5 : a.connections = b.connections) (h6 : a.beltPaths = b.beltPaths)
    (h7 : a.beltTileUsage = b.beltTileUsage) : a = b := by
  cases a; cases b
  simp only [GridState.mk.injEq]
  exact ⟨h1, h2, h3, h4, h5, h6, h7⟩

theorem applyBeltPath_cells (g : GridState) (p : BeltPath) :
    (applyBeltPath g p).cells =
      p.segments.foldl (mStep (cellApply p.connectionId)) g.cells := by
  simp only [applyBeltPath]
  exact foldl_proj GridState.cells _ (mStep (cellApply p.connectionId))
    (fun g0 seg => by
      rw [(updateTileUsageForSegment_fields _ seg 1).2.2.1, setCell_cells]
      rfl) p.segments g

theorem applyBeltPath_usage (g : GridState) (p : BeltPath) :
    (applyBeltPath g p).beltTileUsage =
      p.segments.foldl (fun u s => uStep u s 1) g.beltTileUsage := by
  simp only [applyBeltPath]
  exact foldl_proj GridState.beltTileUsage _ (fun u s => uStep u s 1)
    (fun g0 seg => by
      rw [updateTileUsageForSegment_usage, (setCell_fields _ _ _ _).2.2.2.2.2]) p.segments g

theorem applyBeltPath_beltPaths (g : GridState) (p : BeltPath) :
    (applyBeltPath g p).beltPaths = jset g.beltPaths p.connectionId p := by
  simp only [applyBeltPath]
  exact congrArg (fun L => jset L p.connectionId p)
    (foldl_fields_invariant GridState.beltPaths _
      (fun g0 seg => by
        rw [(updateTileUsageForSegment_fields _ seg 1).2.2.2.2.2,
          (setCell_fields _ _ _ _).2.2.2.2.1]) p.segments g)

theorem removeBeltPath_decomp (g' : GridState) (cid : String) (p : BeltPath)
    (hget : jget g'.beltPaths cid = some p) :
    (removeBeltPath g' cid).width = g'.width ∧ (removeBeltPath g' cid).height = g'.height ∧
    (removeBeltPath g' cid).machines = g'.machines ∧
    (removeBeltPath g' cid).connections = g'.connections ∧
    (removeBeltPath g' cid).cells =
      p.segments.foldl (mStep (cellRemove cid)) g'.cells ∧
    (removeBeltPath g' cid).beltTileUsage =
      p.segments.foldl (fun u s => uStep u s (-1)) g'.beltTileUsage ∧
    (removeBeltPath g' cid).beltPaths = jdel g'.beltPaths cid := by
  simp only [removeBeltPath]
  rw [hget]
  refine ⟨?_, ?_, ?_, ?_, ?_, ?_, ?_⟩
  · exact foldl_fields_invariant GridState.width _
      (fun g0 seg => by
        rw [(setCell_fields _ _ _ _).1, (updateTileUsageForSegment_fields _ _ _).1])
      p.segments g'
  · exact foldl_fields_invariant GridState.height _
      (fun g0 seg => by
        rw [(setCell_fields _ _ _ _).2.1, (updateTileUsageForSegment_fields _ _ _).2.1])
      p.segments g'
  · exact foldl_fields_invariant GridState.machines _
      (fun g0 seg => by
        rw [(setCell_fields _ _ _ _).2.2.1,
          (updateTileUsageForSegment_fields _ _ _).2.2.2.1])
      p.segments g'
  · exact foldl_fields_invariant GridState.connections _
      (fun g0 seg => by
        rw [(setCell_fields _ _ _ _).2.2.2.1,
          (updateTileUsageForSegment_fields _ _ _).2.2.2.2.1])
      p.segments g'
  · exact foldl_proj GridState.cells _ (mStep (cellRemove cid))
      (fun g0 seg => by
        rw [setCell_cells, (updateTileUsageForSegment_fields _ _ _).2.2.1]
        refine congrArg (matSet g0.cells seg.x seg.y) ?_
        show cellRemove cid (cellAt (updateTileUsageForSegment g0 seg (-1)) seg.x seg.y) =
          cellRemove cid (matGet g0.cells seg.x seg.y)
        rw [cellAt_eq_matGet, (updateTileUsageForSegment_fields _ _ _).2.2.1]) p.segments g'
  · exact foldl_proj GridState.beltTileUsage _ (fun u s => uStep u s (-1))
      (fun g0 seg => by
        rw [(setCell_fields _ _ _ _).2.2.2.2.2, updateTileUsageForSegment_usage])
      p.segments g'
  · exact congrArg (fun L => jdel L cid)
      (foldl_fields_invariant GridState.beltPaths _
        (fun g0 seg => by
          rw [(setCell_fields _ _ _ _).2.2.2.2.1,
            (updateTileUsageForSegment_fields _ _ _).2.2.2.2.2]) p.segments g')

/-- C4: on a well-formed grid, applying a belt path whose connection id is not
yet present and then removing that connection id restores the grid state
exactly: the cell matrix (types and belt-connection lists), the belt-path map,
the per-tile usage map (values and entry order) and all remaining fields equal
their original values. -/
theorem claim_C4_apply_remove_roundtrip (g : GridState) (p : BeltPath)
    (hfresh : jget g.beltPaths p.connectionId = none)
    (hcells : ∀ row ∈ g.cells, ∀ c ∈ row,
      (c.type = CellType.EMPTY → c.beltConnectionIds = []) ∧
      (c.type = CellType.BELT → c.beltConnectionIds ≠ []) ∧
      p.connectionId ∉ c.beltConnectionIds)
    (hnd : (jkeys g.beltTileUsage).Nodup)
    (husage : ∀ e ∈ g.beltTileUsage, nonnegU e.2 ∧ e.2 ≠ createEmptyOccupiedTileInfo) :
    removeBeltPath (applyBeltPath g p) p.connectionId = g := by
  have hA_paths := applyBeltPath_beltPaths g p
  have hget : jget (applyBeltPath g p).beltPaths p.connectionId = some p := by
    rw [hA_paths]
    exact jget_jset_self _ _ _
  obtain ⟨hw, hh, hm, hc, hcellsR, husageR, hpathsR⟩ :=
    removeBeltPath_decomp (applyBeltPath g p) p.connectionId p hget
  have hAf := applyBeltPath_fields g p
  apply gridState_ext
  · rw [hw, hAf.1]
  · rw [hh, hAf.2.1]
  · rw [hcellsR, applyBeltPath_cells]
    exact cells_roundtrip p.connectionId p.segments g.cells hcells
  · rw [hm, hAf.2.2.1]
  · rw [hc, hAf.2.2.2]
  · rw [hpathsR, hA_paths]
    exact jdel_jset_fresh _ _ _ (not_mem_jkeys_of_jget_none _ _ hfresh)
  · rw [husageR, applyBeltPath_usage]
    exact usage_roundtrip p.segments g.beltTileUsage hnd husage

instance nonnegU_decidable (a : BeltTileUsage) : Decidable (nonnegU a) := by
  unfold nonnegU
  infer_instance

/-- Witness for C4 at concrete inputs: a two-segment path applied to the 6×6
one-machine grid and removed again leaves the grid bit-for-bit unchanged. -/
theorem claim_C4_apply_remove_roundtrip_witness :
    removeBeltPath
      (applyBeltPath c5grid
        (BeltPath.mk c5cid
          [BeltSegment.mk 1 3 none (some Direction.DOWN),
            BeltSegment.mk 1 4 (some Direction.UP) none]))
      c5cid = c5grid :=
  claim_C4_apply_remove_roundtrip c5grid
    (BeltPath.mk c5cid
      [BeltSegment.mk 1 3 none (some Direction.DOWN),
        BeltSegment.mk 1 4 (some Direction.UP) none])
    (by decide) (by decide) (by decide) (by decide)

/-- Machine A of the C9 scenario. -/
def c9A : Machine :=
  { id := "A", type := MachineType.M3x3, x := 0, y := 0, orientation := Orientation.NORTH }

/-- Machine B of the C9 scenario. -/
def c9B : Machine :=
  { id := "B", type := MachineType.M3x3, x := 0, y := 6, orientation := Orientation.SOUTH }

/-- The single connection of the C9 scenario: A's output port 1 to B's input
port 1. -/
def c9conn : Connection :=
  { id := "c9", sourceMachineId := "A", sourcePortIndex := 1, targetMachineId := "B",
    targetPortIndex := 1 }

set_option maxRecDepth 100000 in
/-- The C9 scenario grid does not evaluate to 4 belts and 0 corners: the routed
path has 11 belt tiles and 3 corners. -/
theorem claim_C9_counterexample :
    (buildGrid [c9A, c9B] [c9conn] 10 10).map
      (fun g => ((evaluateGrid g).totalBelts, (evaluateGrid g).cornerCount)) =
      some (11, 3) ∧
    ((11, 3) : Nat × Nat) ≠ ((4, 0) : Nat × Nat) :=
  ⟨by rfl, by decide⟩

set_option maxRecDepth 100000 in
/-- C9 (amended): building the 10×10 grid with A (3×3 at (0,0), NORTH),
B (3×3 at (0,6), SOUTH) and one connection from A's output port 1 to B's input
port 1 succeeds (the belt route is found), and the resulting grid evaluates to
totalBelts = 11, cornerCount = 3 and boundingBoxArea = 40 ≥ 27. -/
theorem claim_C9_scenario_score :
    (buildGrid [c9A, c9B] [c9conn] 10 10).map
      (fun g => ((evaluateGrid g).totalBelts, (evaluateGrid g).cornerCount,
        (evaluateGrid g).boundingBoxArea)) = some (11, 3, 40) ∧
    (27 : Int) ≤ 40 :=
  ⟨by rfl, by decide⟩

/-- The neighbour-side usage check of `astarStepDir`: the entered tile has no
corner usage and no usage along the movement axis. -/
def tileEnterOK (g : GridState) (excl : List ((Int × Int) × BeltTileUsage)) (x y : Int)
    (a : Axis) : Prop :=
  match getEffectiveOccupiedTileInfo g excl x y with
  | some info => info.cornerCount ≤ 0 ∧ ¬(hasAxisUsage info a = true)
  | none => True

/-- The current-side usage check of `astarStepDir`: on a used tile the path may
not turn and may not move along a used axis. -/
def tileLeaveOK (g : GridState) (excl : List ((Int × Int) × BeltTileUsage)) (x y : Int)
    (dprev : Option Direction) (d : Direction) : Prop :=
  match getEffectiveOccupiedTileInfo g excl x y with
  | some info =>
    ¬(dprev ≠ none ∧ dprev ≠ some d) ∧ ¬(hasAxisUsage info (directionToAxis d) = true)
  | none => True

/-- A segment compatible with the usage present when its path was routed. -/
def SegSafe (g : GridState) (excl : List ((Int × Int) × BeltTileUsage))
    (s : BeltSegment) : Prop :=
  match getEffectiveOccupiedTileInfo g excl s.x s.y with
  | none => True
  | some info =>
    isCornerSegment s = false ∧ info.cornerCount ≤ 0 ∧
    (match getSegmentAxis s with
     | some a => ¬(hasAxisUsage info a = true)
     | none => True)

/-- A node whose whole parent chain consists of geometrically consistent,
usage-checked moves. -/
def chainOK (g : GridState) (excl : List ((Int × Int) × BeltTileUsage)) :
    AStarNode → Prop
  | .root _ _ _ _ _ _ => True
  | .child x y _ _ _ parent dir =>
    chainOK g excl parent ∧
    x = parent.x + (directionToDelta dir).1 ∧ y = parent.y + (directionToDelta dir).2 ∧
    tileEnterOK g excl x y (directionToAxis dir) ∧
    tileLeaveOK g excl parent.x parent.y parent.direction dir

/-- The reconstructed segments of a chain, parameterised by the direction of
the following move (the filled `toDirection` of the chain's last tile). -/
def segsWithNext : AStarNode → Option Direction → List BeltSegment
  | .root x y _ _ _ _, next => [⟨x, y, none, next⟩]
  | .child x y _ _ _ parent dir, next =>
    segsWithNext parent (some dir) ++ [⟨x, y, some (oppositeDirection dir), next⟩]

/-- Componentwise order on usage counters. -/
def leU (a b : BeltTileUsage) : Prop :=
  a.horizontalCount ≤ b.horizontalCount ∧ a.verticalCount ≤ b.verticalCount ∧
    a.cornerCount ≤ b.cornerCount

/-- Total usage contribution of a stored path map at one tile. -/
def aggPaths (paths : List (String × BeltPath)) (k : Int × Int) : BeltTileUsage :=
  paths.foldr (fun e acc => addU (incsOf e.2.segments k) acc) createEmptyOccupiedTileInfo

theorem directionToAxis_opposite (d : Direction) :
    directionToAxis (oppositeDirection d) = directionToAxis d := by
  cases d <;> rfl

theorem fillDir_delta (s s' : BeltSegment) (d : Direction)
    (hx : s'.x = s.x + (directionToDelta d).1) (hy : s'.y = s.y + (directionToDelta d).2) :
    fillDir s s' = some d := by
  cases d <;>
    (simp only [directionToDelta] at hx hy
     simp only [fillDir, hx, hy]
     norm_num)

theorem corner_axis_none (s : BeltSegment) (h : isCornerSegment s = true) :
    getSegmentAxis s = none := by
  rcases s with ⟨x, y, f, t⟩
  rcases f with _ | f
  · rcases t with _ | t
    · exact Bool.noConfusion h
    · exact Bool.noConfusion h
  · rcases t with _ | t
    · exact Bool.noConfusion h
    · have hne : directionToAxis f ≠ directionToAxis t := of_decide_eq_true h
      show (if directionToAxis f = directionToAxis t then some (directionToAxis f) else none) =
        none
      rw [if_neg hne]

theorem corner_segInc (s : BeltSegment) (h : isCornerSegment s = true) :
    segInc s = { horizontalCount := 0, verticalCount := 0, cornerCount := 1 } := by
  rw [segInc, if_pos h]

theorem axis_segInc_H (s : BeltSegment) (h : getSegmentAxis s = some Axis.H) :
    segInc s = { horizontalCount := 1, verticalCount := 0, cornerCount := 0 } := by
  rw [segInc]
  split_ifs with hc
  · rw [corner_axis_none s hc] at h
    exact Option.noConfusion h
  · rw [h]

theorem axis_segInc_V (s : BeltSegment) (h : getSegmentAxis s = some Axis.V) :
    segInc s = { horizontalCount := 0, verticalCount := 1, cornerCount := 0 } := by
  rw [segInc]
  split_ifs with hc
  · rw [corner_axis_none s hc] at h
    exact Option.noConfusion h
  · rw [h]

theorem leU_refl (a : BeltTileUsage) : leU a a :=
  ⟨le_refl _, le_refl _, le_refl _⟩

theorem leU_trans (a b c : BeltTileUsage) (h1 : leU a b) (h2 : leU b c) : leU a c :=
  ⟨h1.1.trans h2.1, h1.2.1.trans h2.2.1, h1.2.2.trans h2.2.2⟩

theorem leU_addU_left (a b : BeltTileUsage) (hb : nonnegU b) : leU a (addU a b) := by
  obtain ⟨h1, h2, h3⟩ := hb
  exact ⟨by simp only [addU]; omega, by simp only [addU]; omega, by simp only [addU]; omega⟩

theorem leU_addU_right (a b : BeltTileUsage) (ha : nonnegU a) : leU b (addU a b) := by
  obtain ⟨h1, h2, h3⟩ := ha
  exact ⟨by simp only [addU]; omega, by simp only [addU]; omega, by simp only [addU]; omega⟩

theorem segInc_le_incsOf (segs : List BeltSegment) (s : BeltSegment) (k : Int × Int)
    (hs : s ∈ segs) (hk : tileKey s.x s.y = k) : leU (segInc s) (incsOf segs k) := by
  induction segs with
  | nil => exact absurd hs (List.not_mem_nil s)
  | cons a t ih =>
    rw [incsOf_cons]
    rcases List.mem_cons.mp hs with rfl | hm
    · rw [if_pos hk]
      exact leU_addU_left _ _ (nonnegU_incsOf t k)
    · split_ifs
      · exact leU_trans _ _ _ (ih hm) (leU_addU_right _ _ (nonnegU_segInc a))
      · exact ih hm

theorem aggPaths_nil (k : Int × Int) : aggPaths [] k = createEmptyOccupiedTileInfo := rfl

theorem aggPaths_cons (e : String × BeltPath) (t : List (String × BeltPath)) (k : Int × Int) :
    aggPaths (e :: t) k = addU (incsOf e.2.segments k) (aggPaths t k) := rfl

theorem nonnegU_aggPaths (paths : List (String × BeltPath)) (k : Int × Int) :
    nonnegU (aggPaths paths k) := by
  induction paths with
  | nil => exact nonnegU_zero
  | cons e t ih =>
    rw [aggPaths_cons]
    exact nonnegU_addU _ _ (nonnegU_incsOf _ _) ih

theorem incsOf_le_aggPaths (paths : List (String × BeltPath)) (c : String) (p : BeltPath)
    (k : Int × Int) (h : (c, p) ∈ paths) : leU (incsOf p.segments k) (aggPaths paths k) := by
  induction paths with
  | nil => exact absurd h (List.not_mem_nil _)
  | cons e t ih =>
    rw [aggPaths_cons]
    rcases List.mem_cons.mp h with rfl | hm
    · exact leU_addU_left _ _ (nonnegU_aggPaths t k)
    · exact leU_trans _ _ _ (ih hm) (leU_addU_right _ _ (nonnegU_incsOf _ _))

theorem aggPaths_append (A B : List (String × BeltPath)) (k : Int × Int) :
    aggPaths (A ++ B) k = addU (aggPaths A k) (aggPaths B k) := by
  induction A with
  | nil => rw [List.nil_append, aggPaths_nil, zero_addU]
  | cons e t ih => rw [List.cons_append, aggPaths_cons, aggPaths_cons, ih, addU_assoc]

/-- With no excluded usage, the effective tile info of a well-formed usage map
is exactly its stored entry. -/
theorem effective_nil_some (g : GridState) (x y : Int) (v : BeltTileUsage)
    (hget : jget g.beltTileUsage (tileKey x y) = some v) (hnn : nonnegU v)
    (hnz : v ≠ createEmptyOccupiedTileInfo) :
    getEffectiveOccupiedTileInfo g [] x y = some v := by
  simp only [getEffectiveOccupiedTileInfo, hget, jget, Option.map_some', Option.map_none',
    Option.getD_some, Option.getD_none, sub_zero]
  rw [if_neg (by
    intro hc
    apply hnz
    obtain ⟨a1, a2, a3⟩ := hnn
    obtain ⟨b1, b2, b3⟩ := hc
    cases v
    simp only [createEmptyOccupiedTileInfo, BeltTileUsage.mk.injEq]
    simp only at a1 a2 a3 b1 b2 b3
    refine ⟨by omega, by omega, by omega⟩)]

theorem effective_nil_none (g : GridState) (x y : Int)
    (hget : jget g.beltTileUsage (tileKey x y) = none) :
    getEffectiveOccupiedTileInfo g [] x y = none := by
  simp only [getEffectiveOccupiedTileInfo, hget, jget, Option.map_none', Option.getD_none,
    sub_zero]
  rw [if_pos (by omega)]

/-- If the move out of `current` in direction `dir` fails one of the two usage
guards, the neighbour expansion leaves the accumulator untouched. -/
theorem astarStepDir_blocked (grid : GridState) (excl : List ((Int × Int) × BeltTileUsage))
    (gx gy : Int) (current : AStarNode) (closed : List (Int × Int × Option Direction))
    (acc : List AStarNode × List ((Int × Int × Option Direction) × ℚ)) (dir : Direction)
    (hblock : ¬(tileEnterOK grid excl (current.x + (directionToDelta dir).1)
        (current.y + (directionToDelta dir).2) (directionToAxis dir) ∧
      tileLeaveOK grid excl current.x current.y current.direction dir)) :
    astarStepDir grid excl gx gy current closed acc dir = acc := by
  by_cases hE : tileEnterOK grid excl (current.x + (directionToDelta dir).1)
      (current.y + (directionToDelta dir).2) (directionToAxis dir)
  · have hL : ¬ tileLeaveOK grid excl current.x current.y current.direction dir :=
      fun hl => hblock ⟨hE, hl⟩
    rcases hCB : getEffectiveOccupiedTileInfo grid excl current.x current.y with _ | infoC
    · exact absurd (by unfold tileLeaveOK; rw [hCB]; exact trivial) hL
    · have hcb : (decide (current.direction ≠ none ∧ current.direction ≠ some dir) ||
          hasAxisUsage infoC (directionToAxis dir)) = true := by
        by_contra hfalse
        apply hL
        unfold tileLeaveOK
        rw [hCB]
        simp only [Bool.or_eq_true, decide_eq_true_eq, not_or] at hfalse
        exact ⟨hfalse.1, fun hax => hfalse.2 hax⟩
      simp only [astarStepDir, hCB, hcb, eq_self_iff_true, if_true]
      repeat' split
      all_goals rfl
  · rcases hNB : getEffectiveOccupiedTileInfo grid excl (current.x + (directionToDelta dir).1)
        (current.y + (directionToDelta dir).2) with _ | infoN
    · exact absurd (by unfold tileEnterOK; rw [hNB]; exact trivial) hE
    · have hnb : (decide (infoN.cornerCount > 0) ||
          hasAxisUsage infoN (directionToAxis dir)) = true := by
        by_contra hfalse
        apply hE
        unfold tileEnterOK
        rw [hNB]
        simp only [Bool.or_eq_true, decide_eq_true_eq, not_or, not_lt] at hfalse
        exact ⟨hfalse.1, fun hax => hfalse.2 hax⟩
      simp only [astarStepDir, hNB, hnb, eq_self_iff_true, if_true]
      repeat' split
      all_goals rfl

/-- A child node is pushed only after its move passed both usage guards, so
neighbour expansion preserves chain validity of the open set. -/
theorem astarStepDir_chain (grid : GridState) (excl : List ((Int × Int) × BeltTileUsage))
    (gx gy : Int) (current : AStarNode) (closed : List (Int × Int × Option Direction))
    (acc : List AStarNode × List ((Int × Int × Option Direction) × ℚ)) (dir : Direction)
    (hcur : chainOK grid excl current) (hacc : ∀ n ∈ acc.1, chainOK grid excl n) :
    ∀ n ∈ (astarStepDir grid excl gx gy current closed acc dir).1, chainOK grid excl n := by
  by_cases hblock : tileEnterOK grid excl (current.x + (directionToDelta dir).1)
      (current.y + (directionToDelta dir).2) (directionToAxis dir) ∧
    tileLeaveOK grid excl current.x current.y current.direction dir
  · rcases astarStepDir_cases grid excl gx gy current closed acc dir with h | h
    · rw [h]
      exact hacc
    · rw [h]
      intro n hn
      rcases mem_heapPush _ _ _ _ hn with h' | rfl
      · exact hacc n h'
      · exact ⟨hcur, rfl, rfl, hblock.1, hblock.2⟩
  · rw [astarStepDir_blocked grid excl gx gy current closed acc dir hblock]
    exact hacc

theorem foldl_astarStepDir_chain (dirs : List Direction) (grid : GridState)
    (excl : List ((Int × Int) × BeltTileUsage)) (gx gy : Int) (current : AStarNode)
    (closed : List (Int × Int × Option Direction))
    (acc : List AStarNode × List ((Int × Int × Option Direction) × ℚ))
    (hcur : chainOK grid excl current) (hacc : ∀ n ∈ acc.1, chainOK grid excl n) :
    ∀ n ∈ (dirs.foldl (astarStepDir grid excl gx gy current closed) acc).1,
      chainOK grid excl n := by
  induction dirs generalizing acc with
  | nil => exact hacc
  | cons d ds ih =>
    exact ih _ (astarStepDir_chain grid excl gx gy current closed acc d hcur hacc)

/-- A successful A* loop returns the reconstruction of a goal node whose chain
is valid and rooted at the start. -/
theorem astarLoop_some_chain (grid : GridState) (excl : List ((Int × Int) × BeltTileUsage))
    (gx gy : Int) (cid : String) (fuel : Nat) (openSet : List AStarNode)
    (closed : List (Int × Int × Option Direction))
    (gScores : List ((Int × Int × Option Direction) × ℚ)) (sx sy : Int) (p : BeltPath)
    (hopen : ∀ n ∈ openSet, chainOK grid excl n ∧ rootedAt sx sy n)
    (h : astarLoop grid excl gx gy cid fuel openSet closed gScores = some p) :
    ∃ endNode, chainOK grid excl endNode ∧ rootedAt sx sy endNode ∧
      endNode.x = gx ∧ endNode.y = gy ∧ p = reconstructPath endNode cid := by
  induction fuel generalizing openSet closed gScores with
  | zero => exact absurd h (by simp [astarLoop])
  | succ n ih =>
    simp only [astarLoop] at h
    rcases hp : heapPop fCompare openSet with ⟨copt, openRest⟩
    rw [hp] at h
    cases copt with
    | none => exact Option.noConfusion h
    | some current =>
      obtain ⟨hcmem, hrest⟩ := heapPop_mem fCompare openSet current openRest hp
      dsimp only [] at h
      split at h
      next hgoal =>
        exact ⟨current, (hopen current hcmem).1, (hopen current hcmem).2, hgoal.1, hgoal.2,
          (Option.some.inj h).symm⟩
      next =>
        split at h
        · exact ih openRest closed gScores (fun a ha => hopen a (hrest a ha)) h
        · exact ih _ _ _
            (fun a ha =>
              ⟨foldl_astarStepDir_chain DIRECTIONS grid excl gx gy current _
                  (openRest, gScores) (hopen current hcmem).1
                  (fun b hb => (hopen b (hrest b hb)).1) a ha,
                foldl_astarStepDir_rooted DIRECTIONS grid excl gx gy current _
                  (openRest, gScores) sx sy (hopen current hcmem).2
                  (fun b hb => (hopen b (hrest b hb)).2) a ha⟩) h

theorem segSafe_intro (g : GridState) (excl : List ((Int × Int) × BeltTileUsage))
    (s : BeltSegment)
    (h : ∀ info, getEffectiveOccupiedTileInfo g excl s.x s.y = some info →
      isCornerSegment s = false ∧ info.cornerCount ≤ 0 ∧
      (∀ a, getSegmentAxis s = some a → ¬(hasAxisUsage info a = true))) :
    SegSafe g excl s := by
  unfold SegSafe
  split
  next => trivial
  next info heq =>
    obtain ⟨h1, h2, h3⟩ := h info heq
    refine ⟨h1, h2, ?_⟩
    split
    next a heq2 => exact h3 a heq2
    next => trivial

theorem segSafe_elim (g : GridState) (excl : List ((Int × Int) × BeltTileUsage))
    (s : BeltSegment) (hs : SegSafe g excl s) (info : BeltTileUsage)
    (heq : getEffectiveOccupiedTileInfo g excl s.x s.y = some info) :
    isCornerSegment s = false ∧ info.cornerCount ≤ 0 ∧
      (∀ a, getSegmentAxis s = some a → ¬(hasAxisUsage info a = true)) := by
  unfold SegSafe at hs
  rw [heq] at hs
  obtain ⟨h1, h2, h3⟩ := hs
  refine ⟨h1, h2, fun a ha => ?_⟩
  rw [ha] at h3
  exact h3

theorem tileEnterOK_elim (g : GridState) (excl : List ((Int × Int) × BeltTileUsage))
    (x y : Int) (a : Axis) (info : BeltTileUsage) (h : tileEnterOK g excl x y a)
    (heq : getEffectiveOccupiedTileInfo g excl x y = some info) :
    info.cornerCount ≤ 0 ∧ ¬(hasAxisUsage info a = true) := by
  unfold tileEnterOK at h
  rw [heq] at h
  exact h

theorem tileLeaveOK_elim (g : GridState) (excl : List ((Int × Int) × BeltTileUsage))
    (x y : Int) (dprev : Option Direction) (d : Direction) (info : BeltTileUsage)
    (h : tileLeaveOK g excl x y dprev d)
    (heq : getEffectiveOccupiedTileInfo g excl x y = some info) :
    ¬(dprev ≠ none ∧ dprev ≠ some d) ∧ ¬(hasAxisUsage info (directionToAxis d) = true) := by
  unfold tileLeaveOK at h
  rw [heq] at h
  exact h

/-- No corner usage on the tile the chain is rooted at. -/
def rootCornerOK (g : GridState) (excl : List ((Int × Int) × BeltTileUsage))
    (n : AStarNode) : Prop :=
  match getEffectiveOccupiedTileInfo g excl (chainRoot n).x (chainRoot n).y with
  | some info => info.cornerCount ≤ 0
  | none => True

theorem rootCornerOK_elim (g : GridState) (excl : List ((Int × Int) × BeltTileUsage))
    (n : AStarNode) (info : BeltTileUsage) (h : rootCornerOK g excl n)
    (heq : getEffectiveOccupiedTileInfo g excl (chainRoot n).x (chainRoot n).y = some info) :
    info.cornerCount ≤ 0 := by
  unfold rootCornerOK at h
  rw [heq] at h
  exact h

theorem fill_segsOf_with_tail (g : GridState) (excl : List ((Int × Int) × BeltTileUsage))
    (n : AStarNode) :
    ∀ (d : Direction) (s' : BeltSegment) (rest : List BeltSegment),
      chainOK g excl n → s'.x = n.x + (directionToDelta d).1 →
      s'.y = n.y + (directionToDelta d).2 →
      fillToDirections (segsOf n ++ s' :: rest) =
        segsWithNext n (some d) ++ fillToDirections (s' :: rest) := by
  induction n with
  | root x y gq hq fq dq =>
    intro d s' rest _ hx hy
    rw [show segsOf (AStarNode.root x y gq hq fq dq) = [BeltSegment.mk x y none none] from rfl,
      List.cons_append, List.nil_append, fillToDirections_cons_cons,
      fillDir_delta (BeltSegment.mk x y none none) s' d hx hy]
    rfl
  | child x y gq hq fq parent dir ih =>
    intro d s' rest hchain hx hy
    obtain ⟨hp, hxx, hyy, _, _⟩ := hchain
    rw [show segsOf (AStarNode.child x y gq hq fq parent dir) =
        segsOf parent ++ [BeltSegment.mk x y (some (oppositeDirection dir)) none] from rfl,
      List.append_assoc, List.singleton_append,
      ih dir (BeltSegment.mk x y (some (oppositeDirection dir)) none) (s' :: rest) hp hxx hyy,
      fillToDirections_cons_cons,
      fillDir_delta (BeltSegment.mk x y (some (oppositeDirection dir)) none) s' d hx hy,
      show segsWithNext (AStarNode.child x y gq hq fq parent dir) (some d) =
        segsWithNext parent (some dir) ++
          [BeltSegment.mk x y (some (oppositeDirection dir)) (some d)] from rfl,
      List.append_assoc, List.singleton_append]

/-- `reconstructPath`'s direction filling, expressed on the chain. -/
theorem fill_segsOf (g : GridState) (excl : List ((Int × Int) × BeltTileUsage))
    (n : AStarNode) (hchain : chainOK g excl n) :
    fillToDirections (segsOf n) = segsWithNext n none := by
  cases n with
  | root x y gq hq fq dq => rfl
  | child x y gq hq fq parent dir =>
    obtain ⟨hp, hxx, hyy, _, _⟩ := hchain
    rw [show segsOf (AStarNode.child x y gq hq fq parent dir) =
        segsOf parent ++ BeltSegment.mk x y (some (oppositeDirection dir)) none :: [] from rfl,
      fill_segsOf_with_tail g excl parent dir
        (BeltSegment.mk x y (some (oppositeDirection dir)) none) [] hp hxx hyy]
    rfl

/-- Every segment reconstructed from a valid chain is compatible with the
usage that was in force during the search. -/
theorem segsWithNext_safe (g : GridState) (excl : List ((Int × Int) × BeltTileUsage))
    (n : AStarNode) :
    ∀ (next : Option Direction), chainOK g excl n → rootCornerOK g excl n →
      (match next with
       | some d => tileLeaveOK g excl n.x n.y n.direction d
       | none => True) →
      ∀ s ∈ segsWithNext n next, SegSafe g excl s := by
  induction n with
  | root x y gq hq fq dq =>
    intro next _ hroot hnext s hs
    rw [show segsWithNext (AStarNode.root x y gq hq fq dq) next =
        [BeltSegment.mk x y none next] from rfl] at hs
    obtain rfl := List.mem_singleton.mp hs
    apply segSafe_intro
    intro info heq
    refine ⟨?_, rootCornerOK_elim g excl (AStarNode.root x y gq hq fq dq) info hroot heq, ?_⟩
    · cases next <;> rfl
    · intro a hax
      cases next with
      | none => exact Option.noConfusion hax
      | some d =>
        obtain rfl := Option.some.inj hax
        exact (tileLeaveOK_elim g excl x y dq d info hnext heq).2
  | child x y gq hq fq parent dir ih =>
    intro next hchain hroot hnext s hs
    obtain ⟨hp, hxx, hyy, hee, hll⟩ := hchain
    rw [show segsWithNext (AStarNode.child x y gq hq fq parent dir) next =
        segsWithNext parent (some dir) ++
          [BeltSegment.mk x y (some (oppositeDirection dir)) next] from rfl] at hs
    rcases List.mem_append.mp hs with hsl | hsr
    · exact ih (some dir) hp hroot hll s hsl
    · obtain rfl := List.mem_singleton.mp hsr
      apply segSafe_intro
      intro info heq
      obtain ⟨hc0, hax0⟩ := tileEnterOK_elim g excl x y (directionToAxis dir) info hee heq
      cases next with
      | none =>
        refine ⟨rfl, hc0, ?_⟩
        intro a hax
        obtain rfl := Option.some.inj hax
        rw [directionToAxis_opposite]
        exact hax0
      | some d' =>
        obtain ⟨hnt, hax'⟩ := tileLeaveOK_elim g excl x y (some dir) d' info hnext heq
        push_neg at hnt
        obtain rfl := Option.some.inj (hnt (Option.some_ne_none dir))
        refine ⟨?_, hc0, ?_⟩
        · show decide (directionToAxis (oppositeDirection dir) ≠ directionToAxis dir) = false
          rw [directionToAxis_opposite]
          simp
        · intro a hax
          rw [show getSegmentAxis
              (BeltSegment.mk x y (some (oppositeDirection dir)) (some dir)) =
              some (directionToAxis (oppositeDirection dir)) from by
            show (if directionToAxis (oppositeDirection dir) = directionToAxis dir
                then some (directionToAxis (oppositeDirection dir)) else none) = _
            rw [if_pos (directionToAxis_opposite dir)]] at hax
          obtain rfl := Option.some.inj hax
          rw [directionToAxis_opposite]
          exact hax'

theorem buildPathOccupiedInfo_none : buildPathOccupiedInfo none = [] := rfl

/-- A path found for a connection id that is not yet stored carries that id and
consists only of segments compatible with the present usage. -/
theorem findBeltPath_segments_safe (g : GridState) (src tgt : Port) (cid : String)
    (p : BeltPath) (hfresh : jget g.beltPaths cid = none)
    (h : findBeltPath g src tgt cid = some p) :
    p.connectionId = cid ∧ ∀ s ∈ p.segments, SegSafe g [] s := by
  simp only [findBeltPath, hfresh, buildPathOccupiedInfo_none] at h
  split at h
  · exact Option.noConfusion h
  split at h
  · exact Option.noConfusion h
  split at h
  · exact Option.noConfusion h
  split at h
  next => exact Option.noConfusion h
  next hcorner =>
    push_neg at hcorner
    obtain ⟨hc1, hc2⟩ := hcorner
    obtain ⟨endNode, hchain, hrooted, hgx, hgy, rfl⟩ :=
      astarLoop_some_chain g [] (getPortExternalTile tgt).1 (getPortExternalTile tgt).2 cid
        (16 * g.width * g.height + 16) _ [] _ (getPortExternalTile src).1
        (getPortExternalTile src).2 p
        (fun n hn => by
          obtain rfl := List.mem_singleton.mp hn
          exact ⟨True.intro, rfl, rfl⟩) h
    have hrootOK : rootCornerOK g [] endNode := by
      unfold rootCornerOK
      split
      next info heq =>
        rw [hrooted.1, hrooted.2] at heq
        rw [heq] at hc1
        simpa using hc1
      next => trivial
    refine ⟨rfl, ?_⟩
    intro s hs
    rw [show (reconstructPath endNode cid).segments = fillToDirections (segsOf endNode)
        from rfl, fill_segsOf g [] endNode hchain] at hs
    exact segsWithNext_safe g [] endNode none hchain hrootOK (by exact True.intro) s hs

theorem jkeys_append' {κ α : Type _} (A B : List (κ × α)) :
    jkeys (A ++ B) = jkeys A ++ jkeys B := by
  simp [jkeys]

theorem jkeys_freshPart (fresh : List (Int × Int)) (v : (Int × Int) → BeltTileUsage) :
    jkeys (freshPart fresh v) =
      fresh.filter (fun k => !(decide (v k = createEmptyOccupiedTileInfo))) := by
  induction fresh with
  | nil => rfl
  | cons k t ih =>
    by_cases hz : v k = createEmptyOccupiedTileInfo
    · rw [freshPart_cons_zero v k t hz, List.filter_cons_of_neg (by simp [hz]), ih]
    · rw [freshPart_cons_pos v k t hz, List.filter_cons_of_pos (by simp [hz])]
      rw [show jkeys ((k, v k) :: freshPart t v) = k :: jkeys (freshPart t v) from rfl, ih]

theorem shape_entries_wf (u0 : UsageMap) (fresh : List (Int × Int)) (R : List BeltSegment)
    (hwf : ∀ e ∈ u0, nonnegU e.2 ∧ e.2 ≠ createEmptyOccupiedTileInfo) :
    ∀ e ∈ shapeU u0 fresh R, nonnegU e.2 ∧ e.2 ≠ createEmptyOccupiedTileInfo := by
  intro e he
  rw [shapeU] at he
  rcases List.mem_append.mp he with hm | hf
  · rw [mapPart] at hm
    obtain ⟨e0, he0, rfl⟩ := List.mem_map.mp hm
    exact ⟨nonnegU_addU _ _ (hwf e0 he0).1 (nonnegU_incsOf _ _),
      addU_ne_zero _ _ (hwf e0 he0).1 (nonnegU_incsOf _ _) (Or.inl (hwf e0 he0).2)⟩
  · rw [freshPart] at hf
    obtain ⟨k, hk, hke⟩ := List.mem_filterMap.mp hf
    split_ifs at hke with hz
    obtain rfl := Option.some.inj hke
    exact ⟨nonnegU_incsOf _ _, hz⟩

theorem shape_nodup (u0 : UsageMap) (fresh : List (Int × Int)) (R : List BeltSegment)
    (hnd : (jkeys u0).Nodup) (hfr : fresh.Nodup) (hdisj : ∀ k ∈ fresh, k ∉ jkeys u0) :
    (jkeys (shapeU u0 fresh R)).Nodup := by
  rw [shapeU, jkeys_append', jkeys_mapPart]
  refine List.Nodup.append hnd ?_ ?_
  · rw [jkeys_freshPart]
    exact hfr.filter _
  · intro a ha hb
    exact hdisj a (jkeys_freshPart_subset fresh _ a hb) ha

/-- Applying a path's segments to the usage map adds exactly the path's
per-tile contribution, pointwise. -/
theorem getD_uApply (u0 : UsageMap) (segs : List BeltSegment) (k : Int × Int)
    (hnd : (jkeys u0).Nodup)
    (hwf : ∀ e ∈ u0, nonnegU e.2 ∧ e.2 ≠ createEmptyOccupiedTileInfo) :
    (jget (segs.foldl (fun u s => uStep u s 1) u0) k).getD createEmptyOccupiedTileInfo =
      addU ((jget u0 k).getD createEmptyOccupiedTileInfo) (incsOf segs k) := by
  rw [uApply segs u0 hnd hwf]
  rcases hk : jget u0 k with _ | w
  · by_cases hf : k ∈ freshKeysOf segs (jkeys u0)
    · rw [jget_shapeU_fresh u0 _ segs k hk (freshKeysOf_nodup _ _) hf]
      split_ifs with hz
      · rw [hz, Option.getD_none, addU_zero]
      · rw [Option.getD_some, Option.getD_none, zero_addU]
    · rw [jget_shapeU_none u0 _ segs k hk hf,
        incsOf_zero_of_unknown segs (jkeys u0) k (not_mem_jkeys_of_jget_none u0 k hk) hf,
        Option.getD_none, addU_zero]
  · rw [jget_shapeU_orig u0 _ segs k w hk, Option.getD_some, Option.getD_some]

theorem uApply_wf (u0 : UsageMap) (segs : List BeltSegment) (hnd : (jkeys u0).Nodup)
    (hwf : ∀ e ∈ u0, nonnegU e.2 ∧ e.2 ≠ createEmptyOccupiedTileInfo) :
    (jkeys (segs.foldl (fun u s => uStep u s 1) u0)).Nodup ∧
    ∀ e ∈ segs.foldl (fun u s => uStep u s 1) u0,
      nonnegU e.2 ∧ e.2 ≠ createEmptyOccupiedTileInfo := by
  rw [uApply segs u0 hnd hwf]
  exact ⟨shape_nodup u0 _ segs hnd (freshKeysOf_nodup _ _)
      (fun k hk => freshKeysOf_disjoint segs (jkeys u0) k hk),
    shape_entries_wf u0 _ segs hwf⟩

theorem leU_zero_eq (a : BeltTileUsage) (ha : nonnegU a)
    (h : leU a createEmptyOccupiedTileInfo) : a = createEmptyOccupiedTileInfo := by
  obtain ⟨h1, h2, h3⟩ := h
  obtain ⟨n1, n2, n3⟩ := ha
  have e1 : a.horizontalCount = 0 := le_antisymm h1 n1
  have e2 : a.verticalCount = 0 := le_antisymm h2 n2
  have e3 : a.cornerCount = 0 := le_antisymm h3 n3
  cases a
  simp only [createEmptyOccupiedTileInfo, BeltTileUsage.mk.injEq]
  exact ⟨e1, e2, e3⟩

/-- A segment contributing no usage is an isolated single-tile segment. -/
theorem segInc_zero_iso (s : BeltSegment) (h : segInc s = createEmptyOccupiedTileInfo) :
    isCornerSegment s = false ∧ getSegmentAxis s = none := by
  constructor
  · cases hc : isCornerSegment s with
    | false => rfl
    | true =>
      exact absurd (congrArg BeltTileUsage.cornerCount ((corner_segInc s hc).symm.trans h))
        (by decide)
  · cases hax : getSegmentAxis s with
    | none => rfl
    | some a =>
      cases a with
      | H =>
        exact absurd
          (congrArg BeltTileUsage.horizontalCount ((axis_segInc_H s hax).symm.trans h))
          (by decide)
      | V =>
        exact absurd
          (congrArg BeltTileUsage.verticalCount ((axis_segInc_V s hax).symm.trans h))
          (by decide)

/-- A stored corner segment keeps positive corner usage on its tile. -/
theorem stored_corner_blocks (g : GridState)
    (hwf : ∀ e ∈ g.beltTileUsage, nonnegU e.2 ∧ e.2 ≠ createEmptyOccupiedTileInfo)
    (hagg : ∀ k, (jget g.beltTileUsage k).getD createEmptyOccupiedTileInfo =
      aggPaths g.beltPaths k)
    (cb : String) (pb : BeltPath) (hmb : (cb, pb) ∈ g.beltPaths) (sb : BeltSegment)
    (hsb : sb ∈ pb.segments) (hcb : isCornerSegment sb = true) :
    ∃ v, getEffectiveOccupiedTileInfo g [] sb.x sb.y = some v ∧ 0 < v.cornerCount := by
  have hle := leU_trans _ _ _ (segInc_le_incsOf pb.segments sb (tileKey sb.x sb.y) hsb rfl)
    (incsOf_le_aggPaths g.beltPaths cb pb (tileKey sb.x sb.y) hmb)
  rw [corner_segInc sb hcb] at hle
  have hagg' := hagg (tileKey sb.x sb.y)
  rcases hjk : jget g.beltTileUsage (tileKey sb.x sb.y) with _ | v
  · rw [hjk, Option.getD_none] at hagg'
    rw [← hagg'] at hle
    exact absurd hle.2.2 (by decide)
  · rw [hjk, Option.getD_some] at hagg'
    have hmem := jget_mem _ _ _ hjk
    refine ⟨v, effective_nil_some g sb.x sb.y v hjk (hwf _ hmem).1 (hwf _ hmem).2, ?_⟩
    rw [hagg']
    have h1 : (1 : Int) ≤ (aggPaths g.beltPaths (tileKey sb.x sb.y)).cornerCount := hle.2.2
    omega

/-- A stored segment with a definite axis keeps usage along that axis on its
tile. -/
theorem stored_axis_blocks (g : GridState)
    (hwf : ∀ e ∈ g.beltTileUsage, nonnegU e.2 ∧ e.2 ≠ createEmptyOccupiedTileInfo)
    (hagg : ∀ k, (jget g.beltTileUsage k).getD createEmptyOccupiedTileInfo =
      aggPaths g.beltPaths k)
    (cb : String) (pb : BeltPath) (hmb : (cb, pb) ∈ g.beltPaths) (sb : BeltSegment)
    (hsb : sb ∈ pb.segments) (ax : Axis) (haxb : getSegmentAxis sb = some ax) :
    ∃ v, getEffectiveOccupiedTileInfo g [] sb.x sb.y = some v ∧
      hasAxisUsage v ax = true := by
  have hle := leU_trans _ _ _ (segInc_le_incsOf pb.segments sb (tileKey sb.x sb.y) hsb rfl)
    (incsOf_le_aggPaths g.beltPaths cb pb (tileKey sb.x sb.y) hmb)
  have hagg' := hagg (tileKey sb.x sb.y)
  rcases hjk : jget g.beltTileUsage (tileKey sb.x sb.y) with _ | v
  · rw [hjk, Option.getD_none] at hagg'
    rw [← hagg'] at hle
    cases ax with
    | H =>
      rw [axis_segInc_H sb haxb] at hle
      exact absurd hle.1 (by decide)
    | V =>
      rw [axis_segInc_V sb haxb] at hle
      exact absurd hle.2.1 (by decide)
  · rw [hjk, Option.getD_some] at hagg'
    have hmem := jget_mem _ _ _ hjk
    refine ⟨v, effective_nil_some g sb.x sb.y v hjk (hwf _ hmem).1 (hwf _ hmem).2, ?_⟩
    rw [hagg']
    cases ax with
    | H =>
      rw [axis_segInc_H sb haxb] at hle
      have h1 : (1 : Int) ≤ (aggPaths g.beltPaths (tileKey sb.x sb.y)).horizontalCount :=
        hle.1
      exact decide_eq_true (by omega)
    | V =>
      rw [axis_segInc_V sb haxb] at hle
      have h1 : (1 : Int) ≤ (aggPaths g.beltPaths (tileKey sb.x sb.y)).verticalCount :=
        hle.2.1
      exact decide_eq_true (by omega)

/-- A freshly routed corner segment sits on a tile with no stored usage. -/
theorem safe_corner_tile_empty (g : GridState)
    (hwf : ∀ e ∈ g.beltTileUsage, nonnegU e.2 ∧ e.2 ≠ createEmptyOccupiedTileInfo)
    (sa : BeltSegment) (hsafe : SegSafe g [] sa) (hca : isCornerSegment sa = true) :
    jget g.beltTileUsage (tileKey sa.x sa.y) = none := by
  rcases hjk : jget g.beltTileUsage (tileKey sa.x sa.y) with _ | v
  · rfl
  · have hmem := jget_mem _ _ _ hjk
    have heff := effective_nil_some g sa.x sa.y v hjk (hwf _ hmem).1 (hwf _ hmem).2
    obtain ⟨hfa, _, _⟩ := segSafe_elim g [] sa hsafe v heff
    exact Bool.noConfusion (hca.symm.trans hfa)

theorem placeMachine_no_belts (g : GridState) (m : Machine) :
    (placeMachine g m).2.beltPaths = g.beltPaths ∧
    (placeMachine g m).2.beltTileUsage = g.beltTileUsage := by
  simp only [placeMachine]
  split
  · exact ⟨foldl_fields_invariant GridState.beltPaths _
        (fun g0 dy => foldl_fields_invariant GridState.beltPaths _
          (fun g1 dx => (setCell_fields _ _ _ _).2.2.2.2.1) _ g0) _ g,
      foldl_fields_invariant GridState.beltTileUsage _
        (fun g0 dy => foldl_fields_invariant GridState.beltTileUsage _
          (fun g1 dx => (setCell_fields _ _ _ _).2.2.2.2.2) _ g0) _ g⟩
  · exact ⟨rfl, rfl⟩

/-- Placing machines never touches belt paths or belt tile usage. -/
theorem placeAllMachines_no_belts (ms : List Machine) : ∀ (gA gB : GridState),
    placeAllMachines gA ms = some gB →
    gB.beltPaths = gA.beltPaths ∧ gB.beltTileUsage = gA.beltTileUsage := by
  induction ms with
  | nil =>
    intro gA gB hp
    obtain rfl := Option.some.inj hp
    exact ⟨rfl, rfl⟩
  | cons m rest ih =>
    intro gA gB hp
    simp only [placeAllMachines] at hp
    split at hp
    · obtain ⟨h1, h2⟩ := ih _ _ hp
      obtain ⟨p1, p2⟩ := placeMachine_no_belts gA m
      exact ⟨h1.trans p1, h2.trans p2⟩
    · exact Option.noConfusion hp

/-- The grid-building process described by the spec: place machines, then apply
paths returned by `findBeltPath`, each applied before the next search. -/
inductive Routed (g0 : GridState) : GridState → Prop where
  | refl : Routed g0 g0
  | step (g : GridState) (src tgt : Port) (cid : String) (p : BeltPath) :
      Routed g0 g → findBeltPath g src tgt cid = some p → Routed g0 (applyBeltPath g p)

/-- The same process restricted to connection ids not already stored: each
connection is routed at most once. -/
inductive RoutedOnce (g0 : GridState) : GridState → Prop where
  | refl : RoutedOnce g0 g0
  | step (g : GridState) (src tgt : Port) (cid : String) (p : BeltPath) :
      RoutedOnce g0 g → jget g.beltPaths cid = none →
      findBeltPath g src tgt cid = some p → RoutedOnce g0 (applyBeltPath g p)

/-- The stored usage map is exactly the per-tile aggregate of the stored
paths' contributions. -/
def UsageAgg (g : GridState) : Prop :=
  ∀ k : Int × Int,
    (jget g.beltTileUsage k).getD createEmptyOccupiedTileInfo = aggPaths g.beltPaths k

/-- Tile-sharing discipline between distinct stored connections: a corner
shares its tile only with isolated direction-less segments, and no two
segments of different connections run along the same axis. -/
def PairSep (g : GridState) : Prop :=
  ∀ ca pa, (ca, pa) ∈ g.beltPaths → ∀ cb pb, (cb, pb) ∈ g.beltPaths → ca ≠ cb →
    ∀ sa ∈ pa.segments, ∀ sb ∈ pb.segments, sa.x = sb.x → sa.y = sb.y →
      (isCornerSegment sa = true → isCornerSegment sb = false ∧ getSegmentAxis sb = none) ∧
      ∀ ax, getSegmentAxis sa = some ax → getSegmentAxis sb ≠ some ax

/-- The routing invariant: once-only routing preserves usage well-formedness,
the usage/path aggregate correspondence, and pairwise tile separation. -/
theorem routed_inv (g0 g : GridState) (hroute : RoutedOnce g0 g)
    (hnd0 : (jkeys g0.beltTileUsage).Nodup)
    (hwf0 : ∀ e ∈ g0.beltTileUsage, nonnegU e.2 ∧ e.2 ≠ createEmptyOccupiedTileInfo)
    (hagg0 : UsageAgg g0) (hpair0 : PairSep g0) :
    (jkeys g.beltTileUsage).Nodup ∧
    (∀ e ∈ g.beltTileUsage, nonnegU e.2 ∧ e.2 ≠ createEmptyOccupiedTileInfo) ∧
    UsageAgg g ∧ PairSep g := by
  induction hroute with
  | refl => exact ⟨hnd0, hwf0, hagg0, hpair0⟩
  | step gmid src tgt cid p hprev hfresh hfind ih =>
    obtain ⟨hnd, hwf, hagg, hpair⟩ := ih
    obtain ⟨hcid, hsafe⟩ := findBeltPath_segments_safe gmid src tgt cid p hfresh hfind
    rw [← hcid] at hfresh
    refine ⟨?_, ?_, ?_, ?_⟩
    · rw [applyBeltPath_usage]
      exact (uApply_wf gmid.beltTileUsage p.segments hnd hwf).1
    · rw [applyBeltPath_usage]
      exact (uApply_wf gmid.beltTileUsage p.segments hnd hwf).2
    · intro k
      rw [applyBeltPath_usage, applyBeltPath_beltPaths,
        getD_uApply gmid.beltTileUsage p.segments k hnd hwf, hagg k,
        jset_of_jget_none gmid.beltPaths p.connectionId p hfresh, aggPaths_append,
        aggPaths_cons, aggPaths_nil, addU_zero]
    · intro ca pa hma cb pb hmb hne sa hsa sb hsb hx hy
      rw [applyBeltPath_beltPaths,
        jset_of_jget_none gmid.beltPaths p.connectionId p hfresh] at hma hmb
      rcases List.mem_append.mp hma with hma' | hma' <;>
        rcases List.mem_append.mp hmb with hmb' | hmb'
      · exact hpair ca pa hma' cb pb hmb' hne sa hsa sb hsb hx hy
      · have hbe := List.mem_singleton.mp hmb'
        rw [Prod.mk.injEq] at hbe
        obtain ⟨rfl, rfl⟩ := hbe
        constructor
        · intro hca
          obtain ⟨v, heff, hceff⟩ := stored_corner_blocks gmid hwf hagg ca pa hma' sa hsa hca
          rw [hx, hy] at heff
          obtain ⟨_, hcle, _⟩ := segSafe_elim gmid [] sb (hsafe sb hsb) v heff
          exact absurd hcle (by omega)
        · intro ax hax hbx
          obtain ⟨v, heff, haxv⟩ := stored_axis_blocks gmid hwf hagg ca pa hma' sa hsa ax hax
          rw [hx, hy] at heff
          obtain ⟨_, _, haxes⟩ := segSafe_elim gmid [] sb (hsafe sb hsb) v heff
          exact haxes ax hbx haxv
      · have hae := List.mem_singleton.mp hma'
        rw [Prod.mk.injEq] at hae
        obtain ⟨rfl, rfl⟩ := hae
        constructor
        · intro hca
          have hjk := safe_corner_tile_empty gmid hwf sa (hsafe sa hsa) hca
          have hagg' := hagg (tileKey sa.x sa.y)
          rw [hjk, Option.getD_none] at hagg'
          have hle := leU_trans _ _ _
            (segInc_le_incsOf pb.segments sb (tileKey sa.x sa.y) hsb (by rw [← hx, ← hy]))
            (incsOf_le_aggPaths gmid.beltPaths cb pb (tileKey sa.x sa.y) hmb')
          rw [← hagg'] at hle
          exact segInc_zero_iso sb (leU_zero_eq _ (nonnegU_segInc sb) hle)
        · intro ax hax hbx
          obtain ⟨v, heff, haxv⟩ := stored_axis_blocks gmid hwf hagg cb pb hmb' sb hsb ax hbx
          rw [← hx, ← hy] at heff
          obtain ⟨_, _, haxes⟩ := segSafe_elim gmid [] sa (hsafe sa hsa) v heff
          exact absurd haxv (haxes ax hax)
      · have hae := List.mem_singleton.mp hma'
        have hbe := List.mem_singleton.mp hmb'
        rw [Prod.mk.injEq] at hae hbe
        exact absurd (hae.1.trans hbe.1.symm) hne

/-- Source port of the C2 scenario: `c5mach`'s first output, at (0,2),
approached downward, external tile (0,3). -/
def c2src : Port :=
  { machineId := "m5", portType := PortType.OUTPUT, index := 0, x := 0, y := 2,
    approachDirection := Direction.DOWN }

/-- Target port of the C2 scenario: `c5mach`'s third output, at (2,2),
approached downward, external tile (2,3). -/
def c2tgt : Port :=
  { machineId := "m5", portType := PortType.OUTPUT, index := 2, x := 2, y := 2,
    approachDirection := Direction.DOWN }

/-- The straight horizontal path `findBeltPath` returns between those ports
under connection id "c". -/
def c2cpath : BeltPath :=
  { connectionId := "c"
    segments :=
      [BeltSegment.mk 0 3 none (some Direction.RIGHT),
        BeltSegment.mk 1 3 (some Direction.LEFT) (some Direction.RIGHT),
        BeltSegment.mk 2 3 (some Direction.LEFT) none] }

/-- The same route under the fresh connection id "r1". -/
def c2p1 : BeltPath :=
  { connectionId := "r1"
    segments :=
      [BeltSegment.mk 0 3 none (some Direction.RIGHT),
        BeltSegment.mk 1 3 (some Direction.LEFT) (some Direction.RIGHT),
        BeltSegment.mk 2 3 (some Direction.LEFT) none] }

/-- A second connection routed from `c5port` to itself: a single isolated
segment on tile (1,3). -/
def c2p2 : BeltPath :=
  { connectionId := "r2", segments := [BeltSegment.mk 1 3 none none] }

/-- The grid after routing "r1" and then "r2" on the machine-placed base. -/
def c2final : GridState :=
  applyBeltPath (applyBeltPath c5grid c2p1) c2p2

set_option maxRecDepth 100000 in
/-- C2 counterexample: the claim's building process (place machines, then apply
only paths returned by `findBeltPath`, each applied before the next search)
does not restrict connection ids, so the same connection "c" can be routed
twice — `findBeltPath` excludes that id's own stored usage, returns the same
straight horizontal path again, and applying it stacks the run: tile (1,3)
ends with `horizontalCount = 2`, i.e. two applied belt segments along the
same axis, refuting "no tile carries two belt segments running along the same
axis". -/
theorem claim_C2_counterexample :
    placeAllMachines (createGrid 6 6) [c5mach] = some c5grid ∧
    Routed c5grid (applyBeltPath (applyBeltPath c5grid c2cpath) c2cpath) ∧
    jget (applyBeltPath (applyBeltPath c5grid c2cpath) c2cpath).beltTileUsage (1, 3) =
      some { horizontalCount := 2, verticalCount := 0, cornerCount := 0 } ∧
    getSegmentAxis (BeltSegment.mk 1 3 (some Direction.LEFT) (some Direction.RIGHT)) =
      some Axis.H ∧
    ¬((2 : Int) ≤ 1) :=
  ⟨by rfl,
    Routed.step (applyBeltPath c5grid c2cpath) c2src c2tgt "c" c2cpath
      (Routed.step c5grid c2src c2tgt "c" c2cpath Routed.refl (by rfl)) (by rfl),
    by rfl, by rfl, by decide⟩

set_option maxRecDepth 100000 in
/-- C2 (amended): in any grid built by placing machines and then routing each
connection id at most once with `findBeltPath` (applying each returned path
before the next search), any two segments of two different connections'
stored paths that lie on the same tile satisfy: if one is a corner segment,
the other is an isolated direction-less segment (so corners never share a
tile with straight or corner segments of other connections), and the two
segments never run along the same axis — distinct belts share a tile only as
an orthogonal crossing. -/
theorem claim_C2_distinct_connections_cross_only (w ht : Nat) (ms : List Machine)
    (g0 g : GridState) (hbase : placeAllMachines (createGrid w ht) ms = some g0)
    (hroute : RoutedOnce g0 g) :
    ∀ ca pa, (ca, pa) ∈ g.beltPaths → ∀ cb pb, (cb, pb) ∈ g.beltPaths → ca ≠ cb →
      ∀ sa ∈ pa.segments, ∀ sb ∈ pb.segments, sa.x = sb.x → sa.y = sb.y →
        (isCornerSegment sa = true →
          isCornerSegment sb = false ∧ getSegmentAxis sb = none) ∧
        (∀ ax, getSegmentAxis sa = some ax → getSegmentAxis sb ≠ some ax) := by
  obtain ⟨hbp, hbu⟩ := placeAllMachines_no_belts ms (createGrid w ht) g0 hbase
  have hbp0 : g0.beltPaths = [] := hbp
  have hbu0 : g0.beltTileUsage = [] := hbu
  refine (routed_inv g0 g hroute ?_ ?_ ?_ ?_).2.2.2
  · rw [hbu0]
    exact List.nodup_nil
  · rw [hbu0]
    intro e he
    exact absurd he (List.not_mem_nil e)
  · intro k
    rw [hbu0, hbp0]
    rfl
  · intro ca pa hma
    rw [hbp0] at hma
    exact absurd hma (List.not_mem_nil _)

set_option maxRecDepth 100000 in
/-- Witness for the amended C2 on a concrete run: on the 6×6 grid with one
machine, route "r1" straight along row 3 and then "r2" as a single isolated
segment on (1,3); both paths are stored, their segments share tile (1,3), and
the amended theorem (applied with every hypothesis discharged by evaluation)
forbids the isolated segment from running along the horizontal axis that "r1"
uses there. -/
theorem claim_C2_distinct_connections_cross_only_witness :
    ("r1", c2p1) ∈ c2final.beltPaths ∧ ("r2", c2p2) ∈ c2final.beltPaths ∧
    (getSegmentAxis (BeltSegment.mk 1 3 (some Direction.LEFT) (some Direction.RIGHT)) =
        some Axis.H →
      getSegmentAxis (BeltSegment.mk 1 3 none none) ≠ some Axis.H) :=
  ⟨by decide, by decide,
    (claim_C2_distinct_connections_cross_only 6 6 [c5mach] c5grid c2final (by rfl)
      (RoutedOnce.step (applyBeltPath c5grid c2p1) c5port c5port "r2" c2p2
        (RoutedOnce.step c5grid c2src c2tgt "r1" c2p1 RoutedOnce.refl (by rfl) (by rfl))
        (by rfl) (by rfl))
      "r1" c2p1 (by decide) "r2" c2p2 (by decide) (by decide)
      (BeltSegment.mk 1 3 (some Direction.LEFT) (some Direction.RIGHT)) (by decide)
      (BeltSegment.mk 1 3 none none) (by decide) rfl rfl).2 Axis.H⟩

end FactorySim